import Mathlib

/-!
# Party coordination core (`src/party.cpp`)

A shallow embedding of the `Party` class of the server: the roster
(`leader`, `memberList`, `inviteList`), the shared-experience flags and the
notifications the operations send.

Conventions of the embedding.

* Pointers to players are `PlayerRef` values; a nullable `Player*` argument is
  an `Option PlayerRef`.  The party under study has the address `World.this`.
* `delete this` clears `World.alive`.
* Every call a player object receives that is visible to a client is recorded,
  in order, in `World.log`.
* A member function that dereferences `leader` while it is `nullptr` has no
  defined result: the embedding returns `none` there.  All operations therefore
  return an `Option`.
* The policy hooks of `g_events`, the clock `OTSYS_TIME()`, the configuration
  numbers of `g_config`, the player lookup of `g_game` and the compile-time
  switches are fields of `Env`; each hook is consulted at most once per
  operation, and the clock is read as one instant for the duration of an
  operation.  `Env.ceilPercent a b` stands for the double-precision expression
  `std::ceil(static_cast<double>(a) / b * 100)` of the status notifications.
-/

namespace PartyCore

/-! ## Data model -/

abbrev PlayerRef := Nat
abbrev PartyRef := Nat

/-- Modelled from the spec: the tile position of an entity (the declaration in
`position.h` is not part of the sources at hand). -/
structure Position where
  x : Int
  y : Int
  z : Int
deriving DecidableEq

/-- Modelled from the spec: horizontal distance, `|dx|`. -/
def Position.getDistanceX (p1 p2 : Position) : Nat := Int.natAbs (p1.x - p2.x)

/-- Modelled from the spec: horizontal distance, `|dy|`. -/
def Position.getDistanceY (p1 p2 : Position) : Nat := Int.natAbs (p1.y - p2.y)

/-- Modelled from the spec: vertical distance, `|dz|`. -/
def Position.getDistanceZ (p1 p2 : Position) : Nat := Int.natAbs (p1.z - p2.z)

/-- Modelled from the spec: `Position::areInRange<dx, dy, dz>`, the box test
"within `dx` x `dy` horizontal / `dz` vertical tiles". -/
def Position.areInRange (deltax deltay deltaz : Nat) (p1 p2 : Position) : Bool :=
  decide (Position.getDistanceX p1 p2 ≤ deltax) &&
  decide (Position.getDistanceY p1 p2 ≤ deltay) &&
  decide (Position.getDistanceZ p1 p2 ≤ deltaz)

/-- A summoned companion of a player, as far as the party code reads it. -/
structure Summon where
  cid : Nat
  health : Int
  maxHealth : Int
deriving DecidableEq

/-- Modelled from the spec: the attributes and the two party slots (the
back-reference and the pending invitations) of a player entity; `player.h` is
not part of the sources at hand. -/
structure Player where
  id : Nat
  name : String
  level : Nat
  position : Position
  flagNotGainInFight : Bool
  female : Bool
  party : Option PartyRef
  invitePartyList : List PartyRef
  health : Int
  maxHealth : Int
  mana : Int
  maxMana : Int
  summons : List Summon
deriving DecidableEq

inductive MessageClasses where
  | MESSAGE_INFO_DESCR
deriving DecidableEq

/-- The creature a status notification is about. -/
inductive Target where
  | player (r : PlayerRef)
  | summon (cid : Nat)
deriving DecidableEq

/-- The calls on player objects (and on `g_game`) that reach a client. The
first argument is the receiver. -/
inductive Event where
  | sendTextMessage (dst : PlayerRef) (msgClass : MessageClasses) (msg : String)
  | sendClosePrivate (dst : PlayerRef)
  | sendPlayerPartyIcons (dst about : PlayerRef)
  | sendCreatureShield (dst about : PlayerRef)
  | sendPartyCreatureShield (dst about : PlayerRef)
  | updatePlayerHelpers (p : PlayerRef)
  | sendPartyCreatureShowStatus (dst : PlayerRef) (target : Target) (showStatus : Bool)
  | sendPartyCreatureHealth (dst : PlayerRef) (target : Target) (healthPercent : Nat)
  | sendPartyPlayerMana (dst about : PlayerRef) (manaPercent : Nat)
deriving DecidableEq

/-- The fields of `class Party`. -/
structure Party where
  leader : Option PlayerRef
  memberList : List PlayerRef
  inviteList : List PlayerRef
  sharedExpActive : Bool
  sharedExpEnabled : Bool
  ticksMap : Nat → Option Int

/-- The party object, the players it can reach and the notifications sent so
far. -/
structure World where
  this : PartyRef
  party : Party
  alive : Bool
  players : PlayerRef → Player
  log : List Event

/-- The collaborators of the party code. -/
structure Env where
  CLIENT_VERSION : Nat
  GAME_FEATURE_PARTY_LIST : Nat
  eventPartyOnDisband : Bool
  eventPartyOnLeave : Bool
  eventPartyOnJoin : Bool
  OTSYS_TIME : Int
  PZ_LOCKED : Int
  PARTY_LIST_MAX_DISTANCE : Int
  ceilPercent : Int → Int → Nat
  getPlayerByID : Nat → Option PlayerRef

/-- The guard `CLIENT_VERSION >= 1000 && CLIENT_VERSION < 1185`. -/
def Env.helpers (env : Env) : Bool :=
  decide (1000 ≤ env.CLIENT_VERSION) && decide (env.CLIENT_VERSION < 1185)

/-- The guard `GAME_FEATURE_PARTY_LIST > 0`. -/
def Env.partyList (env : Env) : Bool := decide (0 < env.GAME_FEATURE_PARTY_LIST)

/-! ## Player-side slots -/

def World.emit (w : World) (es : List Event) : World :=
  { w with log := w.log ++ es }

def World.setPlayer (w : World) (p : PlayerRef) (v : Player) : World :=
  { w with players := fun q => if q = p then v else w.players q }

/-- Modelled from the spec: `Player::setParty`, the single-slot party
back-reference. -/
def World.setParty (w : World) (p : PlayerRef) (v : Option PartyRef) : World :=
  w.setPlayer p { w.players p with party := v }

/-- Modelled from the spec: `Player::removePartyInvitation`, which drops the
pending invitation to the given party. -/
def World.removePartyInvitation (w : World) (p : PlayerRef) (pt : PartyRef) : World :=
  w.setPlayer p { w.players p with
    invitePartyList := (w.players p).invitePartyList.filter (fun x => x != pt) }

/-- Modelled from the spec: `Player::addPartyInvitation`, which records a
pending invitation to the given party. -/
def World.addPartyInvitation (w : World) (p : PlayerRef) (pt : PartyRef) : World :=
  w.setPlayer p { w.players p with
    invitePartyList :=
      if pt ∈ (w.players p).invitePartyList then (w.players p).invitePartyList
      else pt :: (w.players p).invitePartyList }

def World.setMemberList (w : World) (l : List PlayerRef) : World :=
  { w with party := { w.party with memberList := l } }

def World.setInviteList (w : World) (l : List PlayerRef) : World :=
  { w with party := { w.party with inviteList := l } }

def World.setLeader (w : World) (l : Option PlayerRef) : World :=
  { w with party := { w.party with leader := l } }

/-- Modelled from the spec: `Party::empty()` of `party.h`, "no members and no
pending invitees". -/
def empty (w : World) : Bool :=
  w.party.memberList.isEmpty && w.party.inviteList.isEmpty

/-! ## Single-precision arithmetic of the level bound

`canUseSharedExperience` computes its bound as
`static_cast<uint32_t>(std::ceil(static_cast<float>(highestLevel) * 2 / 3))`.
The three `float` operations are modelled exactly, with round-to-nearest,
ties-to-even, on 24-bit significands; the magnitudes stay far inside the
normal range of the format. -/

/-- The integer nearest to `n / d`, ties to the even one. -/
def roundHalfEven (n d : Nat) : Nat :=
  let q := n / d
  let r := n % d
  if 2 * r < d then q
  else if d < 2 * r then q + 1
  else if q % 2 = 0 then q else q + 1

def bitLengthAux : Nat → Nat → Nat
  | 0, _ => 0
  | fuel + 1, n => if n = 0 then 0 else bitLengthAux fuel (n / 2) + 1

/-- Number of binary digits of `n` (for `n < 2 ^ 128`). -/
def bitLength (n : Nat) : Nat := bitLengthAux 128 n

/-- The value of `static_cast<float>(h)` for an unsigned integer `h`; it is an
integer again. -/
def floatOfNat (h : Nat) : Nat :=
  if h < 2 ^ 24 then h
  else
    let e := bitLength h - 24
    roundHalfEven h (2 ^ e) * 2 ^ e

/-- A finite non-negative binary fraction `num / 2 ^ shift`. -/
structure Dyadic where
  num : Nat
  shift : Nat
deriving DecidableEq

/-- The `float` quotient of the `float` values `n` and `d` (positive integers
here): `n / d` rounded to a 24-bit significand. -/
def floatDiv (n d : Nat) : Dyadic :=
  if n = 0 then ⟨0, 0⟩
  else
    let len := bitLength (n * 2 ^ 40 / d)
    if 64 ≤ len then
      let e := len - 64
      ⟨roundHalfEven n (d * 2 ^ e) * 2 ^ e, 0⟩
    else
      let s := 64 - len
      ⟨roundHalfEven (n * 2 ^ s) d, s⟩

/-- The value of `std::ceil`. -/
def Dyadic.ceil (x : Dyadic) : Nat := (x.num + 2 ^ x.shift - 1) / 2 ^ x.shift

/-- The local `minLevel` of `canUseSharedExperience` as a function of
`highestLevel`; the product by `2` is exact in `float`. -/
def minLevel (highestLevel : Nat) : Nat :=
  (floatDiv (floatOfNat highestLevel * 2) 3).ceil % 2 ^ 32

/-- The bound of the specification, `ceil(highestLevel * 2 / 3)`, computed
exactly on the integers. -/
def ceilTwoThirds (highestLevel : Nat) : Nat := (2 * highestLevel + 2) / 3

/-! ## Operations of `class Party` -/

open Event MessageClasses

/-- The `std::find` test of `Party::isPlayerInvited`. -/
def isPlayerInvited (w : World) (player : PlayerRef) : Bool :=
  decide (player ∈ w.party.inviteList)

def broadcastPartyMessage (w : World) (msgClass : MessageClasses) (msg : String)
    (sendToInvitations : Bool) : Option World := do
  let w1 := w.emit (w.party.memberList.map fun member => sendTextMessage member msgClass msg)
  let l ← w1.party.leader
  let w2 := w1.emit [sendTextMessage l msgClass msg]
  if sendToInvitations then
    pure (w2.emit (w2.party.inviteList.map fun invitee => sendTextMessage invitee msgClass msg))
  else
    pure w2

/-- The shield notification of the build: `sendPartyCreatureShield` when the
party list feature is compiled in, `sendCreatureShield` otherwise. -/
def partyShield (env : Env) (dst about : PlayerRef) : Event :=
  if env.partyList then sendPartyCreatureShield dst about else sendCreatureShield dst about

def updateAllPartyIcons (env : Env) (w : World) : Option World := do
  let l ← w.party.leader
  let w1 := w.emit (w.party.memberList.flatMap fun member =>
    (w.party.memberList.map fun otherMember => partyShield env member otherMember) ++
      [partyShield env member l, partyShield env l member])
  pure (w1.emit [partyShield env l l])

/-- The loop of `canUseSharedExperience` over `memberList`. -/
def highestLevel (w : World) (l : PlayerRef) : Nat :=
  w.party.memberList.foldl
    (fun hl member => if (w.players member).level > hl then (w.players member).level else hl)
    (w.players l).level

/-- The value of `timeDiff`: the difference of two 64-bit tick counts, read as
`uint64_t`. -/
def timeDiff (env : Env) (ticks : Int) : Nat := ((env.OTSYS_TIME - ticks) % 2 ^ 64).toNat

/-- The value of `static_cast<uint64_t>(g_config.getNumber(ConfigManager::PZ_LOCKED))`. -/
def pzLocked (env : Env) : Nat := (env.PZ_LOCKED % 2 ^ 64).toNat

def canUseSharedExperience (env : Env) (w : World) (player : PlayerRef) : Option Bool :=
  if w.party.memberList.isEmpty then some false
  else do
    let l ← w.party.leader
    if (w.players player).level < minLevel (highestLevel w l) then pure false
    else if !Position.areInRange 30 30 1 (w.players l).position (w.players player).position then
      pure false
    else if !(w.players player).flagNotGainInFight then
      match w.party.ticksMap (w.players player).id with
      | none => pure false
      | some ticks => if timeDiff env ticks > pzLocked env then pure false else pure true
    else pure true

/-- The loop of `canEnableSharedExperience` over `memberList`. -/
def canEnableMembers (env : Env) (w : World) : List PlayerRef → Option Bool
  | [] => some true
  | member :: rest => do
    if !(← canUseSharedExperience env w member) then pure false
    else canEnableMembers env w rest

def canEnableSharedExperience (env : Env) (w : World) : Option Bool :=
  match w.party.leader with
  | none => if w.party.memberList.isEmpty then some false else none
  | some l => do
    if !(← canUseSharedExperience env w l) then pure false
    else canEnableMembers env w w.party.memberList

def World.setSharedExpEnabled (w : World) (b : Bool) : World :=
  { w with party := { w.party with sharedExpEnabled := b } }

def World.setSharedExpActive (w : World) (b : Bool) : World :=
  { w with party := { w.party with sharedExpActive := b } }

def World.setTicksMap (w : World) (t : Nat → Option Int) : World :=
  { w with party := { w.party with ticksMap := t } }

def updateSharedExperience (env : Env) (w : World) : Option World :=
  if w.party.sharedExpActive then do
    let result ← canEnableSharedExperience env w
    if result != w.party.sharedExpEnabled then
      updateAllPartyIcons env (w.setSharedExpEnabled result)
    else pure w
  else pure w

def setSharedExperience (env : Env) (w : World) (player : Option PlayerRef)
    (sharedExpActive : Bool) : Option (Bool × World) :=
  match player with
  | none => some (false, w)
  | some p =>
    if w.party.leader ≠ some p then some (false, w)
    else if w.party.sharedExpActive = sharedExpActive then some (true, w)
    else do
      let w1 := w.setSharedExpActive sharedExpActive
      let w2 ←
        if sharedExpActive then do
          let w2 := w1.setSharedExpEnabled (← canEnableSharedExperience env w1)
          if w2.party.sharedExpEnabled then
            pure (w2.emit [sendTextMessage p MESSAGE_INFO_DESCR "Shared Experience is now active."])
          else
            pure (w2.emit [sendTextMessage p MESSAGE_INFO_DESCR
              "Shared Experience has been activated, but some members of your party are inactive."])
        else
          pure (w1.emit [sendTextMessage p MESSAGE_INFO_DESCR
            "Shared Experience has been deactivated."])
      let w3 ← updateAllPartyIcons env w2
      pure (true, w3)

def updatePlayerTicks (env : Env) (w : World) (player : PlayerRef) (points : Nat) :
    Option World :=
  if points ≠ 0 ∧ (w.players player).flagNotGainInFight = false then
    updateSharedExperience env
      (w.setTicksMap fun k =>
        if k = (w.players player).id then some env.OTSYS_TIME else w.party.ticksMap k)
  else pure w

def clearPlayerPoints (env : Env) (w : World) (player : PlayerRef) : Option World :=
  match w.party.ticksMap (w.players player).id with
  | some _ =>
    updateSharedExperience env
      (w.setTicksMap fun k => if k = (w.players player).id then none else w.party.ticksMap k)
  | none => pure w

def canOpenCorpse (env : Env) (w : World) (ownerId : Nat) : Option Bool :=
  match env.getPlayerByID ownerId with
  | some player => do
    let l ← w.party.leader
    pure (decide ((w.players l).id = ownerId) || decide ((w.players player).party = some w.this))
  | none => some false

/-! ### Status visibility (`GAME_FEATURE_PARTY_LIST > 0`) -/

def showPlayerStatus (env : Env) (w : World) (player member : PlayerRef)
    (showStatus : Bool) : World :=
  let P := w.players player
  let M := w.players member
  let w1 := w.emit [sendPartyCreatureShowStatus player (Target.player member) showStatus,
    sendPartyCreatureShowStatus member (Target.player player) showStatus]
  if showStatus then
    w1.emit
      ((M.summons.flatMap fun summon =>
          [sendPartyCreatureShowStatus player (Target.summon summon.cid) showStatus,
           sendPartyCreatureHealth player (Target.summon summon.cid)
             (env.ceilPercent summon.health (max summon.maxHealth 1))]) ++
        (P.summons.flatMap fun summon =>
          [sendPartyCreatureShowStatus member (Target.summon summon.cid) showStatus,
           sendPartyCreatureHealth member (Target.summon summon.cid)
             (env.ceilPercent summon.health (max summon.maxHealth 1))]) ++
        [sendPartyCreatureHealth player (Target.player member)
           (env.ceilPercent M.health (max M.maxHealth 1)),
         sendPartyCreatureHealth member (Target.player player)
           (env.ceilPercent P.health (max P.maxHealth 1)),
         sendPartyPlayerMana player member (env.ceilPercent M.mana (max M.maxMana 1)),
         sendPartyPlayerMana member player (env.ceilPercent P.mana (max P.maxMana 1))])
  else
    w1.emit
      ((P.summons.map fun summon =>
          sendPartyCreatureShowStatus member (Target.summon summon.cid) showStatus) ++
        (M.summons.map fun summon =>
          sendPartyCreatureShowStatus player (Target.summon summon.cid) showStatus))

/-- The test `getDistanceX(a, b) <= maxDistance && getDistanceY(a, b) <= maxDistance`. -/
def withinDistance (maxDistance : Int) (a b : Position) : Bool :=
  decide ((Position.getDistanceX a b : Int) ≤ maxDistance) &&
  decide ((Position.getDistanceY a b : Int) ≤ maxDistance)

/-- Full refresh, `updatePlayerStatus(Player*)`. -/
def updatePlayerStatus (env : Env) (w : World) (player : PlayerRef) : Option World := do
  let maxDistance := env.PARTY_LIST_MAX_DISTANCE
  let w1 := w.party.memberList.foldl
    (fun acc member =>
      let condition := decide (maxDistance = 0) ||
        withinDistance maxDistance (acc.players player).position (acc.players member).position
      if condition then showPlayerStatus env acc player member true
      else showPlayerStatus env acc player member false)
    w
  let l ← w1.party.leader
  let condition := decide (maxDistance = 0) ||
    withinDistance maxDistance (w1.players player).position (w1.players l).position
  if condition then pure (showPlayerStatus env w1 player l true)
  else pure (showPlayerStatus env w1 player l false)

/-- Delta refresh, `updatePlayerStatus(Player*, const Position&, const Position&)`. -/
def updatePlayerStatusMove (env : Env) (w : World) (player : PlayerRef)
    (oldPos newPos : Position) : Option World :=
  let maxDistance := env.PARTY_LIST_MAX_DISTANCE
  if maxDistance ≠ 0 then do
    let w1 := w.party.memberList.foldl
      (fun acc member =>
        let condition1 := withinDistance maxDistance oldPos (acc.players member).position
        let condition2 := withinDistance maxDistance newPos (acc.players member).position
        if condition1 && !condition2 then showPlayerStatus env acc player member false
        else if !condition1 && condition2 then showPlayerStatus env acc player member true
        else acc)
      w
    let l ← w1.party.leader
    let condition1 := withinDistance maxDistance oldPos (w1.players l).position
    let condition2 := withinDistance maxDistance newPos (w1.players l).position
    if condition1 && !condition2 then pure (showPlayerStatus env w1 player l false)
    else if !condition1 && condition2 then pure (showPlayerStatus env w1 player l true)
    else pure w1
  else pure w

/-! ### Roster operations -/

/-- The constructor `Party::Party(Player* leader)` placed at address `this`. -/
def create (this : PartyRef) (players : PlayerRef → Player) (log : List Event)
    (leader : PlayerRef) : World :=
  World.setParty
    { this := this
      party :=
        { leader := some leader, memberList := [], inviteList := [],
          sharedExpActive := false, sharedExpEnabled := false, ticksMap := fun _ => none }
      alive := true
      players := players
      log := log }
    leader (some this)

/-- Body of the loop of `disband` over `inviteList`. -/
def disbandInvitee (currentLeader : PlayerRef) (acc : World) (invitee : PlayerRef) : World :=
  (acc.removePartyInvitation invitee acc.this).emit [sendCreatureShield currentLeader invitee]

/-- Body of the first loop of `disband` over `memberList`. -/
def disbandMember (acc : World) (member : PlayerRef) : World :=
  (acc.setParty member none).emit
    [sendClosePrivate member,
     sendTextMessage member MESSAGE_INFO_DESCR "Your party has been disbanded."]

def disband (env : Env) (w : World) : Option World :=
  if !env.eventPartyOnDisband then some w
  else do
    let currentLeader ← w.party.leader
    let w := w.setLeader none
    let w := w.setParty currentLeader none
    let w := w.emit [sendClosePrivate currentLeader]
    let w := if env.helpers then w.emit [updatePlayerHelpers currentLeader] else w
    let w := w.emit [sendPlayerPartyIcons currentLeader currentLeader,
      sendTextMessage currentLeader MESSAGE_INFO_DESCR "Your party has been disbanded."]
    let w := w.party.inviteList.foldl (disbandInvitee currentLeader) w
    let w := w.setInviteList []
    let w := w.party.memberList.foldl disbandMember w
    let w := w.emit (w.party.memberList.flatMap fun member =>
      (w.party.memberList.map fun otherMember => sendPlayerPartyIcons otherMember member) ++
        [sendPlayerPartyIcons member currentLeader, sendPlayerPartyIcons currentLeader member] ++
        (if env.helpers then [updatePlayerHelpers member] else []))
    let w := w.setMemberList []
    pure { w with alive := false }

def passPartyLeadership (env : Env) (w : World) (player : Option PlayerRef) :
    Option (Bool × World) :=
  match player with
  | none => some (false, w)
  | some p =>
    if w.party.leader = some p ∨ (w.players p).party ≠ some w.this then some (false, w)
    else do
      let w := w.setMemberList (w.party.memberList.erase p)
      let w ← broadcastPartyMessage w MESSAGE_INFO_DESCR
        ((w.players p).name ++ " is now the leader of the party.") true
      let oldLeader ← w.party.leader
      let w := w.setLeader (some p)
      let w := w.setMemberList (oldLeader :: w.party.memberList)
      let w ← updateSharedExperience env w
      let leader ← w.party.leader
      let w := w.emit (w.party.memberList.flatMap fun member =>
        [partyShield env member oldLeader, partyShield env member leader])
      let w := w.emit (w.party.inviteList.flatMap fun invitee =>
        [sendCreatureShield invitee oldLeader, sendCreatureShield invitee leader])
      let w := w.emit [partyShield env leader oldLeader, partyShield env leader leader]
      let w := w.emit [sendTextMessage p MESSAGE_INFO_DESCR
        "You are now the leader of the party."]
      pure (true, w)

/-- Second part of `leaveParty`, from the comment "since we already passed the
leadership, we remove the player from the list" to the end. -/
def leavePartyRemoval (env : Env) (w : World) (p : PlayerRef) (missingLeader : Bool) :
    Option (Bool × World) := do
  let w := w.setMemberList (w.party.memberList.erase p)
  let w := w.setParty p none
  let w := w.emit [sendClosePrivate p]
  let w := if env.helpers then w.emit [updatePlayerHelpers p] else w
  let w := w.emit (w.party.memberList.flatMap fun member =>
    [sendPlayerPartyIcons member p, sendPlayerPartyIcons p member] ++
      (if env.helpers then [updatePlayerHelpers member] else []))
  let leader ← w.party.leader
  let w := w.emit [sendPlayerPartyIcons leader p, sendPlayerPartyIcons p p,
    sendPlayerPartyIcons p leader]
  let w := w.emit [sendTextMessage p MESSAGE_INFO_DESCR "You have left the party."]
  let w ← updateSharedExperience env w
  let w ← clearPlayerPoints env w p
  let w ← broadcastPartyMessage w MESSAGE_INFO_DESCR
    ((w.players p).name ++ " has left the party.") false
  if missingLeader || empty w then do
    let w ← disband env w
    pure (true, w)
  else pure (true, w)

/-- First part of `leaveParty` after the guards: the block that computes
`missingLeader` and hands the leadership over. -/
def leavePartyLeadership (env : Env) (w : World) (p : PlayerRef) : Option (Bool × World) :=
  if w.party.leader = some p then
    if !w.party.memberList.isEmpty then
      if w.party.memberList.length = 1 ∧ w.party.inviteList.isEmpty then
        some (true, w)
      else do
        let r ← passPartyLeadership env w w.party.memberList.head?
        pure (false, r.2)
    else some (true, w)
  else some (false, w)

def leaveParty (env : Env) (w : World) (player : Option PlayerRef) :
    Option (Bool × World) :=
  match player with
  | none => some (false, w)
  | some p =>
    if (w.players p).party ≠ some w.this ∧ w.party.leader ≠ some p then some (false, w)
    else if !env.eventPartyOnLeave then some (false, w)
    else do
      let (missingLeader, w) ← leavePartyLeadership env w p
      leavePartyRemoval env w p missingLeader

/-- The test `leaderName.back() == \x27s\x27`; the source leaves the case of an
empty name undefined, the embedding answers `false` there. -/
def endsWithS (leaderName : String) : Bool :=
  match leaderName.data.getLast? with
  | some c => c == 's'
  | none => false

def joinParty (env : Env) (w : World) (player : PlayerRef) : Option (Bool × World) :=
  if !env.eventPartyOnJoin then some (false, w)
  else if player ∉ w.party.inviteList then some (false, w)
  else do
    let w := w.setInviteList (w.party.inviteList.erase player)
    let w ← broadcastPartyMessage w MESSAGE_INFO_DESCR
      ((w.players player).name ++ " has joined the party.") false
    let w := w.setParty player (some w.this)
    let w := w.emit (w.party.memberList.flatMap fun member =>
      [sendPlayerPartyIcons member player, sendPlayerPartyIcons player member])
    let leader ← w.party.leader
    let w := w.emit [sendPlayerPartyIcons player player, sendPlayerPartyIcons leader player,
      sendPlayerPartyIcons player leader]
    let w := w.setMemberList (w.party.memberList ++ [player])
    let w := if env.helpers then w.emit [updatePlayerHelpers player] else w
    let w ← if env.partyList then updatePlayerStatus env w player else pure w
    let w := w.removePartyInvitation player w.this
    let w ← updateSharedExperience env w
    let leader ← w.party.leader
    let leaderName := (w.players leader).name
    let w := w.emit [sendTextMessage player MESSAGE_INFO_DESCR
      ("You have joined " ++ leaderName ++ "\x27" ++ (if endsWithS leaderName then "" else "s") ++
        " party. Open the party channel to communicate with your companions.")]
    pure (true, w)

def removeInvite (env : Env) (w : World) (player : PlayerRef) (removeFromPlayer : Bool) :
    Option (Bool × World) :=
  if player ∉ w.party.inviteList then some (false, w)
  else do
    let w := w.setInviteList (w.party.inviteList.erase player)
    let leader ← w.party.leader
    let w := w.emit [sendCreatureShield leader player, sendCreatureShield player leader]
    let w := if removeFromPlayer then w.removePartyInvitation player w.this else w
    if empty w then do
      let w ← disband env w
      pure (true, w)
    else if env.helpers then
      pure (true, w.emit ((w.party.memberList.map fun member => updatePlayerHelpers member) ++
        [updatePlayerHelpers leader]))
    else pure (true, w)

def revokeInvitation (env : Env) (w : World) (player : PlayerRef) : Option World := do
  let leader ← w.party.leader
  let w := w.emit [sendTextMessage player MESSAGE_INFO_DESCR
    ((w.players leader).name ++ " has revoked " ++
      (if (w.players leader).female then "her" else "his") ++ " invitation.")]
  let w := w.emit [sendTextMessage leader MESSAGE_INFO_DESCR
    ("Invitation for " ++ (w.players player).name ++ " has been revoked.")]
  let r ← removeInvite env w player true
  pure r.2

def invitePlayer (env : Env) (w : World) (player : PlayerRef) : Option (Bool × World) :=
  if isPlayerInvited w player then some (false, w)
  else do
    let ss := (w.players player).name ++ " has been invited."
    let leader ← w.party.leader
    let (ss, w) :=
      if empty w then
        (ss ++ " Open the party channel to communicate with your members.",
          w.emit [sendPlayerPartyIcons leader leader])
      else (ss, w)
    let w := w.emit [sendTextMessage leader MESSAGE_INFO_DESCR ss]
    let w := w.setInviteList (w.party.inviteList ++ [player])
    let w :=
      if env.helpers then
        w.emit ((w.party.memberList.map fun member => updatePlayerHelpers member) ++
          [updatePlayerHelpers leader])
      else w
    let w := w.emit [sendCreatureShield leader player, sendCreatureShield player leader]
    let w := w.addPartyInvitation player w.this
    let w := w.emit [sendTextMessage player MESSAGE_INFO_DESCR
      ((w.players leader).name ++ " has invited you to " ++
        (if (w.players leader).female then "her" else "his") ++ " party.")]
    pure (true, w)

/-! ## The operations that report success or failure -/

/-- A call of one of the operations that return a success flag. -/
inductive Call where
  | invite (candidate : PlayerRef)
  | join (candidate : PlayerRef)
  | leave (actor : Option PlayerRef)
  | passLeadership (candidate : Option PlayerRef)
  | removeInvite (candidate : PlayerRef) (notifyCandidate : Bool)
  | setSharedExperience (requestor : Option PlayerRef) (wantActive : Bool)

def run (env : Env) (w : World) : Call → Option (Bool × World)
  | Call.invite candidate => invitePlayer env w candidate
  | Call.join candidate => joinParty env w candidate
  | Call.leave actor => leaveParty env w actor
  | Call.passLeadership candidate => passPartyLeadership env w candidate
  | Call.removeInvite candidate notifyCandidate => removeInvite env w candidate notifyCandidate
  | Call.setSharedExperience requestor wantActive =>
      setSharedExperience env w requestor wantActive

/-- The failure causes named by the specification: a duplicate invitation; a
join by a candidate that is not invited or that the hook vetoes; a leave by an
absent actor, by one that is neither the leader nor holds this party as
back-reference, or vetoed by the hook; a leadership transfer to an absent
player, to the leader, or to one who is not of this party; the removal of an
invitation that does not exist; a shared-experience request by an absent
player or by one who is not the leader. -/
def failureCause (env : Env) (w : World) : Call → Prop
  | Call.invite candidate => candidate ∈ w.party.inviteList
  | Call.join candidate =>
      candidate ∉ w.party.inviteList ∨ env.eventPartyOnJoin = false
  | Call.leave none => True
  | Call.leave (some actor) =>
      ((w.players actor).party ≠ some w.this ∧ w.party.leader ≠ some actor) ∨
        env.eventPartyOnLeave = false
  | Call.passLeadership none => True
  | Call.passLeadership (some candidate) =>
      w.party.leader = some candidate ∨ (w.players candidate).party ≠ some w.this
  | Call.removeInvite candidate _ => candidate ∉ w.party.inviteList
  | Call.setSharedExperience none _ => True
  | Call.setSharedExperience (some requestor) _ => w.party.leader ≠ some requestor

/-- The roster invariants of the data model: `memberList` has no duplicates,
the leader is not a member, invitees are neither members nor the leader, and
every participant's party back-reference is this party. -/
def RosterInvariants (w : World) : Prop :=
  w.party.memberList.Nodup ∧
  (∀ l, w.party.leader = some l → l ∉ w.party.memberList) ∧
  (∀ q ∈ w.party.inviteList, q ∉ w.party.memberList ∧ w.party.leader ≠ some q) ∧
  (∀ q, (w.party.leader = some q ∨ q ∈ w.party.memberList) →
    (w.players q).party = some w.this)

/-! ## Concrete scenarios -/

/-- A player standing at tile (100, 100, 7) with full health and no summons. -/
def samplePlayer (id level : Nat) (name : String) (party : Option PartyRef)
    (invitations : List PartyRef) : Player :=
  { id := id, name := name, level := level, position := ⟨100, 100, 7⟩,
    flagNotGainInFight := false, female := false, party := party,
    invitePartyList := invitations, health := 100, maxHealth := 100,
    mana := 50, maxMana := 50, summons := [] }

/-- Leader `0` (level 30), members `1` (level 15) and `2` (level 25) of party
`7`, and the outsider `3`, who holds an invitation to it. -/
def samplePlayers : PlayerRef → Player
  | 0 => samplePlayer 100 30 "Lars" (some 7) []
  | 1 => samplePlayer 101 15 "Ana" (some 7) []
  | 2 => samplePlayer 102 25 "Bo" (some 7) []
  | 3 => samplePlayer 103 28 "Cy" none [7]
  | n + 4 => samplePlayer (104 + n) 1 "Nobody" none []

/-- Party `7` led by player `0` with the given members and invitees. -/
def sampleWorld (members invitees : List PlayerRef) : World :=
  { this := 7
    party :=
      { leader := some 0, memberList := members, inviteList := invitees,
        sharedExpActive := false, sharedExpEnabled := false, ticksMap := fun _ => none }
    alive := true
    players := samplePlayers
    log := [] }

/-- An environment whose hooks answer as given; the other settings are fixed. -/
def sampleEnv (onDisband onLeave onJoin : Bool) : Env :=
  { CLIENT_VERSION := 1098
    GAME_FEATURE_PARTY_LIST := 1
    eventPartyOnDisband := onDisband
    eventPartyOnLeave := onLeave
    eventPartyOnJoin := onJoin
    OTSYS_TIME := 1000000
    PZ_LOCKED := 60000
    PARTY_LIST_MAX_DISTANCE := 10
    ceilPercent := fun a b => ((100 * a + b - 1) / b).toNat
    getPlayerByID := fun id => if 100 ≤ id then some (id - 100) else none }

/-- Two veterans exempt from the activity requirement, standing on the same
tile: the leader `0` at level 12582914 and the member `1` at level 8388609. -/
def veteranPlayers : PlayerRef → Player
  | 0 => { samplePlayer 200 12582914 "Vera" (some 7) [] with flagNotGainInFight := true }
  | _ => { samplePlayer 201 8388609 "Milo" (some 7) [] with flagNotGainInFight := true }

/-- Party `7` of the two veterans, shared experience switched off. -/
def veteranWorld : World :=
  { this := 7
    party :=
      { leader := some 0, memberList := [1], inviteList := [],
        sharedExpActive := false, sharedExpEnabled := false, ticksMap := fun _ => none }
    alive := true
    players := veteranPlayers
    log := [] }

/-- The players of `samplePlayers`, all exempt from the activity requirement,
with member `1` moved 31 tiles east of the leader. -/
def farPlayers : PlayerRef → Player
  | 1 => { samplePlayers 1 with position := ⟨131, 100, 7⟩, flagNotGainInFight := true }
  | n => { samplePlayers n with flagNotGainInFight := true }

/-- Party `7` of leader `0` and member `1`, shared experience active and
enabled, after member `1` has walked out of range. -/
def farWorld : World :=
  { this := 7
    party :=
      { leader := some 0, memberList := [1], inviteList := [],
        sharedExpActive := true, sharedExpEnabled := true, ticksMap := fun _ => none }
    alive := true
    players := farPlayers
    log := [] }

/-- The text messages of a notification log, with their receivers. -/
def textMessages (log : List Event) : List (PlayerRef × String) :=
  log.filterMap fun e =>
    match e with
    | sendTextMessage dst _ msg => some (dst, msg)
    | _ => none

/-- The roster as read off after a call: the returned flag, whether the party
object still exists, and its leader, members and invitees. -/
structure Outcome where
  result : Bool
  alive : Bool
  leader : Option PlayerRef
  memberList : List PlayerRef
  inviteList : List PlayerRef
deriving DecidableEq

def outcome (r : Option (Bool × World)) : Option Outcome :=
  r.map fun r =>
    { result := r.1, alive := r.2.alive, leader := r.2.party.leader,
      memberList := r.2.party.memberList, inviteList := r.2.party.inviteList }

/-- The party back-references of the listed players after a call. -/
def backReferences (r : Option (Bool × World)) (ps : List PlayerRef) :
    Option (List (Option PartyRef)) :=
  r.map fun r => ps.map fun q => (r.2.players q).party

/-- The notifications of one `updateAllPartyIcons` call, in order. -/
def partyIconEvents (env : Env) (members : List PlayerRef) (l : PlayerRef) : List Event :=
  (members.flatMap fun member =>
    (members.map fun otherMember => partyShield env member otherMember) ++
      [partyShield env member l, partyShield env l member]) ++ [partyShield env l l]

/-- The players after the first half of `removeInvite`: the candidate has lost
its record of the invitation when `removeFromPlayer` is set. -/
def uninvited (w : World) (c : PlayerRef) (removeFromPlayer : Bool) (q : PlayerRef) : Player :=
  if removeFromPlayer = true ∧ q = c then
    { w.players q with
      invitePartyList := (w.players q).invitePartyList.filter (fun x => x != w.this) }
  else w.players q

/-- The notifications of one `showPlayerStatus(player, member, showStatus)`
call, in order: a show transition for `showStatus = true`, a hide transition
for `false`. -/
def statusEvents (env : Env) (w : World) (player member : PlayerRef) (showStatus : Bool) :
    List Event :=
  (showPlayerStatus env { w with log := [] } player member showStatus).log

/-- What the delta refresh owes the pair of `player` and `q` by the words of the
specification: a hide transition when the old position was within the maximum
distance of `q` in `x` and in `y` and the new one is not, a show transition
when the old position was not and the new one is, nothing otherwise. -/
def moveTransition (env : Env) (w : World) (player : PlayerRef) (oldPos newPos : Position)
    (q : PlayerRef) : List Event :=
  if ((Int.natAbs (oldPos.x - (w.players q).position.x) : Int) ≤ env.PARTY_LIST_MAX_DISTANCE ∧
        (Int.natAbs (oldPos.y - (w.players q).position.y) : Int) ≤ env.PARTY_LIST_MAX_DISTANCE) ∧
      ¬ ((Int.natAbs (newPos.x - (w.players q).position.x) : Int) ≤ env.PARTY_LIST_MAX_DISTANCE ∧
        (Int.natAbs (newPos.y - (w.players q).position.y) : Int) ≤ env.PARTY_LIST_MAX_DISTANCE)
  then statusEvents env w player q false
  else if
      ¬ ((Int.natAbs (oldPos.x - (w.players q).position.x) : Int) ≤ env.PARTY_LIST_MAX_DISTANCE ∧
        (Int.natAbs (oldPos.y - (w.players q).position.y) : Int) ≤ env.PARTY_LIST_MAX_DISTANCE) ∧
      ((Int.natAbs (newPos.x - (w.players q).position.x) : Int) ≤ env.PARTY_LIST_MAX_DISTANCE ∧
        (Int.natAbs (newPos.y - (w.players q).position.y) : Int) ≤ env.PARTY_LIST_MAX_DISTANCE)
  then statusEvents env w player q true
  else []


/-- The players of `samplePlayers` with member `1` now 12 tiles east of the
leader and member `2` 10 tiles east of the leader. -/
def marchPlayers : PlayerRef → Player
  | 1 => { samplePlayers 1 with position := ⟨112, 100, 7⟩ }
  | 2 => { samplePlayers 2 with position := ⟨110, 100, 7⟩ }
  | n => samplePlayers n

/-- Party `7` of leader `0` and members `1` and `2` on the march. -/
def marchWorld : World :=
  { this := 7
    party :=
      { leader := some 0, memberList := [1, 2], inviteList := [],
        sharedExpActive := false, sharedExpEnabled := false, ticksMap := fun _ => none }
    alive := true
    players := marchPlayers
    log := [] }

/-- The world after player `3` has joined the party of `sampleWorld [1, 2] [3]`. -/
def joinedWorld : World :=
  match joinParty (sampleEnv true true true) (sampleWorld [1, 2] [3]) 3 with
  | some r => r.2
  | none => sampleWorld [1, 2] [3]

/-! ## Sequences of operations -/

/-- An operation of the class that can be invoked on a live party. -/
inductive Op where
  | call (c : Call)
  | revokeInvitation (candidate : PlayerRef)
  | disband
  | updatePlayerTicks (player : PlayerRef) (points : Nat)
  | updatePlayerStatus (player : PlayerRef)
  | updatePlayerStatusMove (player : PlayerRef) (oldPos newPos : Position)

/-- The world after an operation, when it is defined. -/
def exec (env : Env) (w : World) : Op → Option World
  | Op.call c => (run env w c).map fun r => r.2
  | Op.revokeInvitation candidate => revokeInvitation env w candidate
  | Op.disband => disband env w
  | Op.updatePlayerTicks player points => updatePlayerTicks env w player points
  | Op.updatePlayerStatus player => updatePlayerStatus env w player
  | Op.updatePlayerStatusMove player oldPos newPos =>
      updatePlayerStatusMove env w player oldPos newPos

/-- The worlds that a sequence of operations leads to from `w0`; every
operation is invoked on a party object that still exists, in an environment
and with arguments that `allowed` admits. -/
inductive ReachableFrom (allowed : Env → World → Op → Prop) (w0 : World) : World → Prop where
  | start : ReachableFrom allowed w0 w0
  | step (env : Env) (op : Op) {w w' : World} :
      ReachableFrom allowed w0 w → w.alive = true → allowed env w op →
      exec env w op = some w' → ReachableFrom allowed w0 w'

/-- No restriction on the operations. -/
def anyOp (_ : Env) (_ : World) (_ : Op) : Prop := True

/-- The restriction under which the roster stays well formed: an invitation is
only extended to a player who is neither the leader nor a member. -/
def invitesOutsiders (_ : Env) (w : World) (op : Op) : Prop :=
  ∀ c, op = Op.call (Call.invite c) → c ∉ w.party.memberList ∧ w.party.leader ≠ some c

/-- The calls of `Op` named invite, join, leave, passLeadership and
removeInvite. -/
def isRosterCall : Op → Prop
  | Op.call (Call.setSharedExperience _ _) => False
  | Op.call _ => True
  | _ => False

/-- The calls of `isRosterCall`, revokeInvitation and setSharedExperience. -/
def isMembershipCall : Op → Prop
  | Op.call _ => True
  | Op.revokeInvitation _ => True
  | _ => False

/-- Any sequence of invite, join, leave, passLeadership and removeInvite
calls. -/
def rosterCalls (_ : Env) (_ : World) (op : Op) : Prop := isRosterCall op

/-- Any sequence of invite, join, leave, passLeadership, removeInvite,
revokeInvitation and setSharedExperience calls. -/
def membershipCalls (_ : Env) (_ : World) (op : Op) : Prop := isMembershipCall op

/-- The calls of `rosterCalls` in which an invitation only goes to a player who
is neither the leader nor a member. -/
def outsiderRosterCalls (env : Env) (w : World) (op : Op) : Prop :=
  isRosterCall op ∧ invitesOutsiders env w op

/-- The calls of `membershipCalls` in which an invitation only goes to a player
who is neither the leader nor a member, in environments whose on-disband hook
does not veto. -/
def outsiderMembershipCalls (env : Env) (w : World) (op : Op) : Prop :=
  isMembershipCall op ∧ invitesOutsiders env w op ∧ env.eventPartyOnDisband = true

/-- The invitee list is a set and a live party has a leader. -/
def Sound (w : World) : Prop :=
  w.party.inviteList.Nodup ∧ (w.alive = true → ∃ l, w.party.leader = some l)

/-- Members form a set that excludes the leader, invitees are neither members
nor the leader, and only participants point at this party. -/
def Separated (w : World) : Prop :=
  w.party.memberList.Nodup ∧
  (∀ l, w.party.leader = some l → l ∉ w.party.memberList) ∧
  (∀ q ∈ w.party.inviteList, q ∉ w.party.memberList ∧ w.party.leader ≠ some q) ∧
  (∀ q, (w.players q).party = some w.this →
    w.party.leader = some q ∨ q ∈ w.party.memberList)

/-- Every participant points at this party. -/
def Attached (w : World) : Prop :=
  ∀ q, (w.party.leader = some q ∨ q ∈ w.party.memberList) →
    (w.players q).party = some w.this

/-- Two worlds with the same roster and the same party back-references. -/
def SameRoster (w w' : World) : Prop :=
  w'.this = w.this ∧ w'.alive = w.alive ∧ w'.party.leader = w.party.leader ∧
  w'.party.memberList = w.party.memberList ∧ w'.party.inviteList = w.party.inviteList ∧
  ∀ q, (w'.players q).party = (w.players q).party

/-- Players that no party has seen yet. -/
def strangers : PlayerRef → Player :=
  fun n => samplePlayer (100 + n) 10 "Player" none []

/-- The world after a sequence of calls, each in its own environment and each
on a party object that still exists. -/
def runCalls (w : World) : List (Env × Call) → Option World
  | [] => some w
  | (env, c) :: rest =>
    if w.alive then (run env w c).bind fun r => runCalls r.2 rest else none

/-- The step from `w` to `w'` keeps `Sound`; it keeps `Separated` when the
invitation guard holds; and it keeps `Attached` when, in addition, the
on-disband hook does not veto. -/
def Preserves (guard noVeto : Prop) (w w' : World) : Prop :=
  (Sound w → Sound w') ∧
  (guard → Sound w → Separated w → Separated w') ∧
  (guard → noVeto → Sound w → Separated w → Attached w → Attached w')

/-- The party of player `0`, right after its creation, with player `1`
invited. -/
def invitedOnce : World :=
  match invitePlayer (sampleEnv true true true) (create 7 strangers [] 0) 1 with
  | some r => r.2
  | none => create 7 strangers [] 0

/-- The world `invitedOnce` with player `2` invited as well. -/
def invitedTwice : World :=
  match invitePlayer (sampleEnv true true true) invitedOnce 2 with
  | some r => r.2
  | none => invitedOnce

/-- The world `invitedTwice` after `removeInvite` of player `1`. -/
def uninvitedOnce : World :=
  match removeInvite (sampleEnv true true true) invitedTwice 1 true with
  | some r => r.2
  | none => invitedTwice

/-- The world `invitedOnce` after player `1` has joined. -/
def recruited : World :=
  match joinParty (sampleEnv true true true) invitedOnce 1 with
  | some r => r.2
  | none => invitedOnce

/-- The party of player `0`, right after its creation, with its own leader
invited. -/
def selfInvited : World :=
  match invitePlayer (sampleEnv true true true) (create 7 strangers [] 0) 0 with
  | some r => r.2
  | none => create 7 strangers [] 0

/-- Player `1` is invited and joins; then the leader leaves while the
on-disband hook vetoes. -/
def abandonCalls : List (Env × Call) :=
  [(sampleEnv true true true, Call.invite 1), (sampleEnv true true true, Call.join 1),
   (sampleEnv false true true, Call.leave (some 0))]

/-- The party of player `0` after `abandonCalls`. -/
def abandoned : World :=
  match runCalls (create 7 strangers [] 0) abandonCalls with
  | some w => w
  | none => create 7 strangers [] 0

/-- Player `1` is invited and joins, is invited and joins a second time, and
then leaves once; no hook vetoes. -/
def doubleCalls : List (Env × Call) :=
  [(sampleEnv true true true, Call.invite 1), (sampleEnv true true true, Call.join 1),
   (sampleEnv true true true, Call.invite 1), (sampleEnv true true true, Call.join 1),
   (sampleEnv true true true, Call.leave (some 1))]

/-- The party of player `0` after `doubleCalls`. -/
def doubled : World :=
  match runCalls (create 7 strangers [] 0) doubleCalls with
  | some w => w
  | none => create 7 strangers [] 0

/-- The member list has no duplicates and does not contain the leader. -/
def MembersDistinct (w : World) : Prop :=
  w.party.memberList.Nodup ∧ ∀ l, w.party.leader = some l → l ∉ w.party.memberList

/-- The computation `x` is defined and its result satisfies `P`. -/
def Succeeds {α : Type} (x : Option α) (P : α → Prop) : Prop :=
  ∃ r, x = some r ∧ P r

/-! ## Frame lemmas: what the auxiliary operations can change -/

theorem Succeeds.pure {α : Type} {P : α → Prop} {a : α} (h : P a) : Succeeds (some a) P :=
  ⟨a, rfl, h⟩

theorem Succeeds.bind {α β : Type} {x : Option α} {f : α → Option β} {Q : α → Prop}
    {P : β → Prop} (hx : Succeeds x Q) (hf : ∀ a, Q a → Succeeds (f a) P) :
    Succeeds (x.bind f) P := by
  obtain ⟨a, rfl, ha⟩ := hx
  exact hf a ha

theorem Succeeds.mono {α : Type} {x : Option α} {Q P : α → Prop}
    (hx : Succeeds x Q) (h : ∀ a, Q a → P a) : Succeeds x P := by
  obtain ⟨a, rfl, ha⟩ := hx
  exact ⟨a, rfl, h a ha⟩

theorem ite_emit (c : Bool) (w : World) (es : List Event) :
    (if c = true then w.emit es else w) = w.emit (if c = true then es else []) := by
  cases c <;> simp [World.emit]

section Frames

variable (env : Env)

theorem emit_emit (w : World) (es fs : List Event) :
    (w.emit es).emit fs = w.emit (es ++ fs) := by
  simp [World.emit, List.append_assoc]

theorem emit_nil (w : World) : w.emit [] = w := by
  simp [World.emit]

theorem broadcastPartyMessage_eq (w : World) (c : MessageClasses) (msg : String) (b : Bool)
    (l : PlayerRef) (hl : w.party.leader = some l) :
    ∃ es, broadcastPartyMessage w c msg b = some (w.emit es) := by
  cases b <;> simp [broadcastPartyMessage, World.emit, hl]

theorem updateAllPartyIcons_eq (w : World) (l : PlayerRef) (hl : w.party.leader = some l) :
    ∃ es, updateAllPartyIcons env w = some (w.emit es) := by
  simp [updateAllPartyIcons, World.emit, hl]

theorem canUseSharedExperience_isSome (w : World) (l : PlayerRef)
    (hl : w.party.leader = some l) (p : PlayerRef) :
    ∃ b, canUseSharedExperience env w p = some b := by
  unfold canUseSharedExperience
  simp only [hl]
  split
  · exact ⟨_, rfl⟩
  · simp only [Option.bind_eq_bind, Option.some_bind]
    split
    · exact ⟨_, rfl⟩
    · split
      · exact ⟨_, rfl⟩
      · split
        · split
          · exact ⟨_, rfl⟩
          · split <;> exact ⟨_, rfl⟩
        · exact ⟨_, rfl⟩

theorem canEnableMembers_isSome (w : World) (l : PlayerRef)
    (hl : w.party.leader = some l) (ms : List PlayerRef) :
    ∃ b, canEnableMembers env w ms = some b := by
  induction ms with
  | nil => exact ⟨true, rfl⟩
  | cons m rest ih =>
    obtain ⟨b, hb⟩ := canUseSharedExperience_isSome env w l hl m
    cases b <;> simp [canEnableMembers, hb, ih]

theorem canEnableSharedExperience_isSome (w : World) (l : PlayerRef)
    (hl : w.party.leader = some l) :
    ∃ b, canEnableSharedExperience env w = some b := by
  obtain ⟨b, hb⟩ := canUseSharedExperience_isSome env w l hl l
  obtain ⟨c, hc⟩ := canEnableMembers_isSome env w l hl w.party.memberList
  cases b <;> simp [canEnableSharedExperience, hl, hb, hc]

theorem setSharedExpEnabled_self (w : World) :
    w.setSharedExpEnabled w.party.sharedExpEnabled = w := rfl

theorem updateSharedExperience_eq (w : World) (l : PlayerRef)
    (hl : w.party.leader = some l) :
    ∃ b es, updateSharedExperience env w = some ((w.setSharedExpEnabled b).emit es) := by
  unfold updateSharedExperience
  split
  · obtain ⟨r, hr⟩ := canEnableSharedExperience_isSome env w l hl
    simp only [hr, Option.bind_eq_bind, Option.some_bind]
    split
    · obtain ⟨es, hes⟩ := updateAllPartyIcons_eq env (w.setSharedExpEnabled r) l
        (by simpa [World.setSharedExpEnabled] using hl)
      exact ⟨r, es, hes⟩
    · exact ⟨w.party.sharedExpEnabled, [], by simp [setSharedExpEnabled_self, emit_nil]⟩
  · exact ⟨w.party.sharedExpEnabled, [], by simp [setSharedExpEnabled_self, emit_nil]⟩

theorem clearPlayerPoints_eq (w : World) (l : PlayerRef) (hl : w.party.leader = some l)
    (p : PlayerRef) :
    ∃ t b es, clearPlayerPoints env w p =
      some (((w.setTicksMap t).setSharedExpEnabled b).emit es) := by
  unfold clearPlayerPoints
  split
  · obtain ⟨b, es, h⟩ := updateSharedExperience_eq env
      (w.setTicksMap fun k => if k = (w.players p).id then none else w.party.ticksMap k) l
      (by simpa [World.setTicksMap] using hl)
    exact ⟨_, b, es, h⟩
  · exact ⟨w.party.ticksMap, w.party.sharedExpEnabled, [], by rw [emit_nil]; rfl⟩

theorem showPlayerStatus_eq (w : World) (p m : PlayerRef) (b : Bool) :
    ∃ es, showPlayerStatus env w p m b = w.emit es := by
  cases b <;> simp [showPlayerStatus, emit_emit]

theorem foldl_emit_eq (f : World → PlayerRef → World)
    (hf : ∀ acc m, ∃ es, f acc m = acc.emit es) (ms : List PlayerRef) (w : World) :
    ∃ es, ms.foldl f w = w.emit es := by
  induction ms generalizing w with
  | nil => exact ⟨[], by simp [emit_nil]⟩
  | cons m rest ih =>
    obtain ⟨es, hes⟩ := hf w m
    obtain ⟨fs, hfs⟩ := ih (f w m)
    rw [hes] at hfs
    exact ⟨es ++ fs, by simp [List.foldl, hfs, hes, emit_emit]⟩

theorem updatePlayerStatus_eq (w : World) (l : PlayerRef) (hl : w.party.leader = some l)
    (p : PlayerRef) :
    ∃ es, updatePlayerStatus env w p = some (w.emit es) := by
  unfold updatePlayerStatus
  obtain ⟨es, hes⟩ := foldl_emit_eq
    (fun acc member =>
      if (decide (env.PARTY_LIST_MAX_DISTANCE = 0) ||
          withinDistance env.PARTY_LIST_MAX_DISTANCE (acc.players p).position
            (acc.players member).position) = true
      then showPlayerStatus env acc p member true
      else showPlayerStatus env acc p member false)
    (by
      intro acc m
      dsimp only
      split
      · exact showPlayerStatus_eq env acc p m true
      · exact showPlayerStatus_eq env acc p m false)
    w.party.memberList w
  simp only [hes]
  have hl' : (w.emit es).party.leader = some l := by simpa [World.emit] using hl
  simp only [hl', Option.bind_eq_bind, Option.some_bind]
  split
  · obtain ⟨fs, hfs⟩ := showPlayerStatus_eq env (w.emit es) p l true
    exact ⟨es ++ fs, by simp [hfs, emit_emit]⟩
  · obtain ⟨fs, hfs⟩ := showPlayerStatus_eq env (w.emit es) p l false
    exact ⟨es ++ fs, by simp [hfs, emit_emit]⟩

theorem broadcastPartyMessage_ok (w : World) (c : MessageClasses) (msg : String) (b : Bool)
    (l : PlayerRef) (hl : w.party.leader = some l) :
    Succeeds (broadcastPartyMessage w c msg b) (fun w' => ∃ es, w' = w.emit es) := by
  obtain ⟨es, h⟩ := broadcastPartyMessage_eq w c msg b l hl
  exact ⟨_, h, es, rfl⟩

theorem updatePlayerStatus_ok (w : World) (l : PlayerRef) (hl : w.party.leader = some l)
    (p : PlayerRef) :
    Succeeds (updatePlayerStatus env w p) (fun w' => ∃ es, w' = w.emit es) := by
  obtain ⟨es, h⟩ := updatePlayerStatus_eq env w l hl p
  exact ⟨_, h, es, rfl⟩

theorem updateSharedExperience_ok (w : World) (l : PlayerRef) (hl : w.party.leader = some l) :
    Succeeds (updateSharedExperience env w)
      (fun w' => ∃ b es, w' = (w.setSharedExpEnabled b).emit es) := by
  obtain ⟨b, es, h⟩ := updateSharedExperience_eq env w l hl
  exact ⟨_, h, b, es, rfl⟩

theorem clearPlayerPoints_ok (w : World) (l : PlayerRef) (hl : w.party.leader = some l)
    (p : PlayerRef) :
    Succeeds (clearPlayerPoints env w p)
      (fun w' => ∃ t b es, w' = ((w.setTicksMap t).setSharedExpEnabled b).emit es) := by
  obtain ⟨t, b, es, h⟩ := clearPlayerPoints_eq env w l hl p
  exact ⟨_, h, t, b, es, rfl⟩

theorem leader_ok (w : World) (l : PlayerRef) (hl : w.party.leader = some l) :
    Succeeds w.party.leader (fun x => l = x) :=
  ⟨l, hl, rfl⟩

end Frames


/-! ## Disband -/

theorem foldl_disbandInvitee (cur : PlayerRef) (is : List PlayerRef) (w : World) :
    (is.foldl (disbandInvitee cur) w).party = w.party ∧
    (is.foldl (disbandInvitee cur) w).this = w.this ∧
    (is.foldl (disbandInvitee cur) w).alive = w.alive ∧
    ∀ q, (is.foldl (disbandInvitee cur) w).players q =
      if q ∈ is then
        { w.players q with
          invitePartyList := (w.players q).invitePartyList.filter (fun x => x != w.this) }
      else w.players q := by
  induction is generalizing w with
  | nil => simp
  | cons i rest ih =>
    obtain ⟨h1, h2, h3, h4⟩ := ih (disbandInvitee cur w i)
    simp only [List.foldl, h1, h2, h3, h4]
    refine ⟨by simp [disbandInvitee, World.removePartyInvitation, World.setPlayer, World.emit],
      by simp [disbandInvitee, World.removePartyInvitation, World.setPlayer, World.emit],
      by simp [disbandInvitee, World.removePartyInvitation, World.setPlayer, World.emit],
      fun q => ?_⟩
    by_cases hq : q = i <;> by_cases hr : q ∈ rest <;>
      simp [disbandInvitee, World.removePartyInvitation, World.setPlayer, World.emit, hq, hr,
        List.filter_filter]

theorem foldl_disbandMember (ms : List PlayerRef) (w : World) :
    (ms.foldl disbandMember w).party = w.party ∧
    (ms.foldl disbandMember w).this = w.this ∧
    (ms.foldl disbandMember w).alive = w.alive ∧
    ∀ q, (ms.foldl disbandMember w).players q =
      if q ∈ ms then { w.players q with party := none } else w.players q := by
  induction ms generalizing w with
  | nil => simp
  | cons m rest ih =>
    obtain ⟨h1, h2, h3, h4⟩ := ih (disbandMember w m)
    simp only [List.foldl, h1, h2, h3, h4]
    refine ⟨by simp [disbandMember, World.setParty, World.setPlayer, World.emit],
      by simp [disbandMember, World.setParty, World.setPlayer, World.emit],
      by simp [disbandMember, World.setParty, World.setPlayer, World.emit],
      fun q => ?_⟩
    by_cases hq : q = m <;> by_cases hr : q ∈ rest <;>
      simp [disbandMember, World.setParty, World.setPlayer, World.emit, hq, hr]

theorem disband_veto (env : Env) (w : World) (h : env.eventPartyOnDisband = false) :
    disband env w = some w := by
  simp [disband, h]

theorem disband_ok (env : Env) (w : World) (l : PlayerRef)
    (h : env.eventPartyOnDisband = true) (hl : w.party.leader = some l) :
    Succeeds (disband env w) (fun w' =>
      w'.alive = false ∧ w'.party.leader = none ∧ w'.party.memberList = [] ∧
      w'.party.inviteList = [] ∧ w'.this = w.this ∧
      w'.party.sharedExpActive = w.party.sharedExpActive ∧
      w'.party.sharedExpEnabled = w.party.sharedExpEnabled ∧
      w'.party.ticksMap = w.party.ticksMap ∧
      ∀ q, w'.players q =
        { w.players q with
          party := if q = l ∨ q ∈ w.party.memberList then none else (w.players q).party
          invitePartyList :=
            if q ∈ w.party.inviteList then
              (w.players q).invitePartyList.filter (fun x => x != w.this)
            else (w.players q).invitePartyList }) := by
  unfold disband
  simp only [h, hl, Bool.not_true, Bool.false_eq_true, if_false, Option.bind_eq_bind,
    Option.some_bind, Option.pure_def, ite_emit]
  refine Succeeds.pure ⟨?_, ?_, ?_, ?_, ?_, ?_, ?_, ?_, fun q => ?_⟩ <;>
    simp only [World.setMemberList, World.setInviteList, World.emit,
      (foldl_disbandMember _ _).1, (foldl_disbandMember _ _).2.1,
      (foldl_disbandMember _ _).2.2.2, (foldl_disbandInvitee _ _ _).1,
      (foldl_disbandInvitee _ _ _).2.1, (foldl_disbandInvitee _ _ _).2.2.2,
      World.setParty, World.setPlayer, World.setLeader]
  rcases eq_or_ne q l with rfl | hq
  · by_cases hm : q ∈ w.party.memberList <;> by_cases hi : q ∈ w.party.inviteList <;>
      simp [hm, hi]
  · by_cases hm : q ∈ w.party.memberList <;> by_cases hi : q ∈ w.party.inviteList <;>
      simp [hm, hi, hq]

/-! ## Membership: join -/

/-- C1. With a leader in place and `inviteList` free of repetitions (it is a
set of invitees), a candidate that is invited and whose join the on-join hook
permits is accepted: `joinParty` returns `true`, the candidate is gone from
`inviteList`, `memberList` is the old list with the candidate appended at the
end, the leader is unchanged and the candidate's party back-reference is this
party. -/
theorem joinParty_accepts (env : Env) (w : World) (candidate l : PlayerRef)
    (hl : w.party.leader = some l)
    (hset : w.party.inviteList.Nodup)
    (hinv : candidate ∈ w.party.inviteList)
    (hhook : env.eventPartyOnJoin = true) :
    ∃ w', joinParty env w candidate = some (true, w') ∧
      candidate ∉ w'.party.inviteList ∧
      w'.party.inviteList = w.party.inviteList.erase candidate ∧
      w'.party.memberList = w.party.memberList ++ [candidate] ∧
      w'.party.leader = w.party.leader ∧
      w'.this = w.this ∧ w'.alive = w.alive ∧
      (w'.players candidate).party = some w'.this := by
  have key : Succeeds (joinParty env w candidate) (fun r => r.1 = true ∧
      r.2.party.inviteList = w.party.inviteList.erase candidate ∧
      r.2.party.memberList = w.party.memberList ++ [candidate] ∧
      r.2.party.leader = w.party.leader ∧
      r.2.this = w.this ∧ r.2.alive = w.alive ∧
      (r.2.players candidate).party = some r.2.this) := by
    unfold joinParty
    simp only [hhook, hinv, Bool.not_true, Bool.false_eq_true, if_false, not_true_eq_false,
      Option.bind_eq_bind, Option.pure_def, ite_emit]
    refine Succeeds.bind (broadcastPartyMessage_ok _ _ _ _ l ?_) ?_
    · simpa [World.setInviteList] using hl
    rintro _ ⟨es, rfl⟩
    refine Succeeds.bind (leader_ok _ l ?_) ?_
    · simpa [World.setInviteList, World.emit, World.setParty, World.setPlayer] using hl
    rintro _ rfl
    split
    · refine Succeeds.bind (updatePlayerStatus_ok env _ l ?_ _) ?_
      · simpa [World.setInviteList, World.emit, World.setParty, World.setPlayer,
          World.setMemberList] using hl
      rintro _ ⟨fs, rfl⟩
      refine Succeeds.bind (updateSharedExperience_ok env _ l ?_) ?_
      · simpa [World.setInviteList, World.emit, World.setParty, World.setPlayer,
          World.setMemberList, World.removePartyInvitation] using hl
      rintro _ ⟨b, gs, rfl⟩
      refine Succeeds.bind (leader_ok _ l ?_) ?_
      · simpa [World.setInviteList, World.emit, World.setParty, World.setPlayer,
          World.setMemberList, World.removePartyInvitation, World.setSharedExpEnabled] using hl
      rintro _ rfl
      refine Succeeds.pure ?_
      simp [World.setInviteList, World.emit, World.setParty, World.setPlayer,
        World.setMemberList, World.removePartyInvitation, World.setSharedExpEnabled, hl]
    · simp only [Option.some_bind]
      refine Succeeds.bind (updateSharedExperience_ok env _ l ?_) ?_
      · simpa [World.setInviteList, World.emit, World.setParty, World.setPlayer,
          World.setMemberList, World.removePartyInvitation] using hl
      rintro _ ⟨b, gs, rfl⟩
      refine Succeeds.bind (leader_ok _ l ?_) ?_
      · simpa [World.setInviteList, World.emit, World.setParty, World.setPlayer,
          World.setMemberList, World.removePartyInvitation, World.setSharedExpEnabled] using hl
      rintro _ rfl
      refine Succeeds.pure ?_
      simp [World.setInviteList, World.emit, World.setParty, World.setPlayer,
        World.setMemberList, World.removePartyInvitation, World.setSharedExpEnabled, hl]
  obtain ⟨⟨b, w'⟩, hr, hb, h1, h2, h3, h4, h5, h6⟩ := key
  simp only at hb h1 h2 h3 h4 h5 h6
  subst hb
  exact ⟨w', hr, by rw [h1]; exact fun h => (List.Nodup.mem_erase_iff hset).1 h |>.1 rfl,
    h1, h2, h3, h4, h5, h6⟩

theorem joinParty_accepts_witness :
    (sampleWorld [1, 2] [3]).party.leader = some 0 ∧
    (sampleWorld [1, 2] [3]).party.inviteList.Nodup ∧
    3 ∈ (sampleWorld [1, 2] [3]).party.inviteList ∧
    (sampleEnv true true true).eventPartyOnJoin = true ∧
    ∃ w', joinParty (sampleEnv true true true) (sampleWorld [1, 2] [3]) 3 = some (true, w') ∧
      3 ∉ w'.party.inviteList ∧
      w'.party.inviteList = (sampleWorld [1, 2] [3]).party.inviteList.erase 3 ∧
      w'.party.memberList = (sampleWorld [1, 2] [3]).party.memberList ++ [3] ∧
      w'.party.leader = (sampleWorld [1, 2] [3]).party.leader ∧
      w'.this = (sampleWorld [1, 2] [3]).this ∧ w'.alive = (sampleWorld [1, 2] [3]).alive ∧
      (w'.players 3).party = some w'.this :=
  ⟨rfl, by decide, by decide, rfl,
    joinParty_accepts (sampleEnv true true true) (sampleWorld [1, 2] [3]) 3 0 rfl
      (by decide) (by decide) rfl⟩

/-! ## Membership: leadership transfer -/

theorem passPartyLeadership_ok (env : Env) (w : World) (candidate l : PlayerRef)
    (hl : w.party.leader = some l) (hne : candidate ≠ l)
    (hback : (w.players candidate).party = some w.this) :
    Succeeds (passPartyLeadership env w (some candidate)) (fun r => r.1 = true ∧
      r.2.party.leader = some candidate ∧
      r.2.party.memberList = l :: w.party.memberList.erase candidate ∧
      r.2.party.inviteList = w.party.inviteList ∧
      r.2.party.sharedExpActive = w.party.sharedExpActive ∧
      r.2.party.ticksMap = w.party.ticksMap ∧
      r.2.this = w.this ∧ r.2.alive = w.alive ∧ r.2.players = w.players) := by
  have hne' : ¬ (l = candidate) := fun h => hne h.symm
  unfold passPartyLeadership
  simp only [hl, hback, Option.some.injEq, hne', ne_eq, not_true_eq_false, or_self, if_false,
    Option.bind_eq_bind, Option.pure_def]
  refine Succeeds.bind (broadcastPartyMessage_ok _ _ _ _ l ?_) ?_
  · simpa [World.setMemberList] using hl
  rintro _ ⟨es, rfl⟩
  refine Succeeds.bind (leader_ok _ l ?_) ?_
  · simpa [World.setMemberList, World.emit] using hl
  rintro _ rfl
  refine Succeeds.bind (updateSharedExperience_ok env _ candidate ?_) ?_
  · simp [World.setMemberList, World.emit, World.setLeader]
  rintro _ ⟨b, fs, rfl⟩
  refine Succeeds.bind (leader_ok _ candidate ?_) ?_
  · simp [World.setMemberList, World.emit, World.setLeader, World.setSharedExpEnabled]
  rintro _ rfl
  refine Succeeds.pure ?_
  simp [World.setMemberList, World.emit, World.setLeader, World.setSharedExpEnabled]

/-- C2. With leader `l` in place, a candidate other than the leader whose party
back-reference is this party is promoted: `passPartyLeadership` returns `true`,
the candidate is the leader afterwards, `memberList` is the old leader followed
by the old list with the candidate erased (so the demoted leader is at the
front, the others keep their order, and the candidate is gone from a list
without duplicates), and `inviteList` is unchanged. -/
theorem passPartyLeadership_promotes (env : Env) (w : World) (candidate l : PlayerRef)
    (hl : w.party.leader = some l) (hne : candidate ≠ l)
    (hback : (w.players candidate).party = some w.this) :
    ∃ w', passPartyLeadership env w (some candidate) = some (true, w') ∧
      w'.party.leader = some candidate ∧
      w'.party.memberList = l :: w.party.memberList.erase candidate ∧
      w'.party.memberList.head? = some l ∧
      (w.party.memberList.Nodup → candidate ∉ w'.party.memberList) ∧
      w'.party.inviteList = w.party.inviteList := by
  obtain ⟨⟨b, w'⟩, hr, hb, h1, h2, h3, -⟩ := passPartyLeadership_ok env w candidate l hl hne hback
  simp only at hb h1 h2 h3
  subst hb
  refine ⟨w', hr, h1, h2, by rw [h2]; rfl, fun hnd hmem => ?_, h3⟩
  rw [h2] at hmem
  rcases List.mem_cons.1 hmem with h | h
  · exact hne h
  · exact ((List.Nodup.mem_erase_iff hnd).1 h).1 rfl

theorem passPartyLeadership_promotes_witness :
    (sampleWorld [1, 2] [3]).party.leader = some 0 ∧ (2 : PlayerRef) ≠ 0 ∧
    ((sampleWorld [1, 2] [3]).players 2).party = some (sampleWorld [1, 2] [3]).this ∧
    ∃ w', passPartyLeadership (sampleEnv true true true) (sampleWorld [1, 2] [3]) (some 2) =
        some (true, w') ∧
      w'.party.leader = some 2 ∧
      w'.party.memberList = 0 :: (sampleWorld [1, 2] [3]).party.memberList.erase 2 ∧
      w'.party.memberList.head? = some 0 ∧
      ((sampleWorld [1, 2] [3]).party.memberList.Nodup → 2 ∉ w'.party.memberList) ∧
      w'.party.inviteList = (sampleWorld [1, 2] [3]).party.inviteList :=
  ⟨rfl, by decide, rfl,
    passPartyLeadership_promotes (sampleEnv true true true) (sampleWorld [1, 2] [3]) 2 0 rfl
      (by decide) rfl⟩

/-! ## Membership: leave -/

theorem disband_when_ok (env : Env) (W : World) (ml : Bool) (l : PlayerRef)
    (hl : W.party.leader = some l) :
    Succeeds
      (if (ml || empty W) = true then (disband env W).bind fun w => some (true, w)
       else some (true, W))
      (fun r => r.1 = true ∧
        (((ml = true ∨ (W.party.memberList = [] ∧ W.party.inviteList = [])) ∧
            env.eventPartyOnDisband = true) →
          r.2.alive = false ∧ r.2.party.leader = none ∧ r.2.party.memberList = [] ∧
          r.2.party.inviteList = [] ∧ r.2.this = W.this ∧
          r.2.party.sharedExpActive = W.party.sharedExpActive ∧
          r.2.party.sharedExpEnabled = W.party.sharedExpEnabled ∧
          r.2.party.ticksMap = W.party.ticksMap ∧
          ∀ q, r.2.players q =
            { W.players q with
              party := if q = l ∨ q ∈ W.party.memberList then none else (W.players q).party
              invitePartyList :=
                if q ∈ W.party.inviteList then
                  (W.players q).invitePartyList.filter (fun x => x != W.this)
                else (W.players q).invitePartyList }) ∧
        (¬ ((ml = true ∨ (W.party.memberList = [] ∧ W.party.inviteList = [])) ∧
            env.eventPartyOnDisband = true) → r.2 = W)) := by
  have hempty : empty W = true ↔ (W.party.memberList = [] ∧ W.party.inviteList = []) := by
    simp [empty, List.isEmpty_iff]
  by_cases hc : (ml || empty W) = true
  · have hc' : ml = true ∨ (W.party.memberList = [] ∧ W.party.inviteList = []) := by
      rw [← hempty]; simpa using hc
    simp only [hc, if_true]
    cases hd : env.eventPartyOnDisband
    · rw [disband_veto env W hd]
      exact ⟨_, rfl, rfl, by simp, fun _ => rfl⟩
    · refine Succeeds.bind (disband_ok env W l hd hl) ?_
      intro w' hw'
      refine Succeeds.pure ⟨rfl, fun _ => ?_, fun h => absurd ⟨hc', rfl⟩ h⟩
      obtain ⟨h1, h2, h3, h4, h5, h6, h7, h8, h9⟩ := hw'
      exact ⟨h1, h2, h3, h4, h5, h6, h7, h8, h9⟩
  · have hc' : ¬ (ml = true ∨ (W.party.memberList = [] ∧ W.party.inviteList = [])) := by
      rw [← hempty]; simpa using hc
    simp only [hc, if_false]
    exact ⟨_, rfl, rfl, fun h => absurd h.1 hc', fun _ => rfl⟩

theorem leavePartyRemoval_ok (env : Env) (w : World) (p l : PlayerRef) (ml : Bool)
    (hl : w.party.leader = some l) :
    Succeeds (leavePartyRemoval env w p ml) (fun r => r.1 = true ∧ r.2.this = w.this ∧
      r.2.party.sharedExpActive = w.party.sharedExpActive ∧
      (((ml = true ∨ (w.party.memberList.erase p = [] ∧ w.party.inviteList = [])) ∧
          env.eventPartyOnDisband = true) →
        r.2.alive = false ∧ r.2.party.leader = none ∧ r.2.party.memberList = [] ∧
        r.2.party.inviteList = [] ∧
        ∀ q, (r.2.players q).party =
          if q = p ∨ q = l ∨ q ∈ w.party.memberList.erase p then none
          else (w.players q).party) ∧
      (¬ ((ml = true ∨ (w.party.memberList.erase p = [] ∧ w.party.inviteList = [])) ∧
          env.eventPartyOnDisband = true) →
        r.2.alive = w.alive ∧ r.2.party.leader = some l ∧
        r.2.party.memberList = w.party.memberList.erase p ∧
        r.2.party.inviteList = w.party.inviteList ∧
        ∀ q, r.2.players q =
          if q = p then { w.players p with party := none } else w.players q)) := by
  unfold leavePartyRemoval
  simp only [Option.bind_eq_bind, Option.pure_def, ite_emit]
  refine Succeeds.bind (leader_ok _ l ?_) ?_
  · simpa [World.setMemberList, World.emit, World.setParty, World.setPlayer] using hl
  rintro _ rfl
  refine Succeeds.bind (updateSharedExperience_ok env _ l ?_) ?_
  · simpa [World.setMemberList, World.emit, World.setParty, World.setPlayer] using hl
  rintro _ ⟨b, es, rfl⟩
  refine Succeeds.bind (clearPlayerPoints_ok env _ l ?_ _) ?_
  · simpa [World.setMemberList, World.emit, World.setParty, World.setPlayer,
      World.setSharedExpEnabled] using hl
  rintro _ ⟨t, b', fs, rfl⟩
  refine Succeeds.bind (broadcastPartyMessage_ok _ _ _ _ l ?_) ?_
  · simpa [World.setMemberList, World.emit, World.setParty, World.setPlayer,
      World.setSharedExpEnabled, World.setTicksMap] using hl
  rintro _ ⟨gs, rfl⟩
  refine (disband_when_ok env _ ml l ?_).mono ?_
  · simpa [World.setMemberList, World.emit, World.setParty, World.setPlayer,
      World.setSharedExpEnabled, World.setTicksMap] using hl
  rintro ⟨r1, r2⟩ ⟨h1, h2, h3⟩
  simp only [World.setMemberList, World.emit, World.setParty, World.setPlayer,
    World.setSharedExpEnabled, World.setTicksMap] at h1 h2 h3
  refine ⟨h1, ?_, ?_, ?_, ?_⟩
  · by_cases hc : ((ml = true ∨ (w.party.memberList.erase p = [] ∧ w.party.inviteList = [])) ∧
        env.eventPartyOnDisband = true)
    · exact (h2 hc).2.2.2.2.1
    · rw [h3 hc]
  · by_cases hc : ((ml = true ∨ (w.party.memberList.erase p = [] ∧ w.party.inviteList = [])) ∧
        env.eventPartyOnDisband = true)
    · exact (h2 hc).2.2.2.2.2.1
    · rw [h3 hc]
  · intro hc
    obtain ⟨k1, k2, k3, k4, -, -, -, -, k9⟩ := h2 hc
    refine ⟨k1, k2, k3, k4, fun q => ?_⟩
    rw [k9 q]
    by_cases hq : q = p <;> simp [hq]
  · intro hc
    rw [h3 hc]
    exact ⟨rfl, hl, rfl, rfl, fun q => rfl⟩

theorem leaveParty_success_hook (env : Env) (w w' : World) (p : Option PlayerRef)
    (h : leaveParty env w p = some (true, w')) : env.eventPartyOnLeave = true := by
  cases p with
  | none => simp [leaveParty] at h
  | some p =>
    cases hh : env.eventPartyOnLeave
    · unfold leaveParty at h
      simp only [hh] at h
      split at h <;> simp at h
    · rfl

theorem leaveParty_leader_eq (env : Env) (w : World) (l : PlayerRef)
    (hl : w.party.leader = some l) (hh : env.eventPartyOnLeave = true) :
    leaveParty env w (some l) =
      (leavePartyLeadership env w l).bind fun r => leavePartyRemoval env r.2 l r.1 := by
  simp [leaveParty, hl, hh]

/-- C3, amended. For a party with leader `l`, exactly one member `m` and no
invitees, `leaveParty` of the leader succeeds as soon as the on-leave hook
permits, and whenever it returns success while the on-disband hook permits the
disband, the party is disbanded: the object is destroyed, no leader reference
remains, the roster is empty and the party back-references of `l` and of `m`
are cleared. -/
theorem leaveParty_leader_of_pair_disbands (env : Env) (w : World) (l m : PlayerRef)
    (hl : w.party.leader = some l) (hm : w.party.memberList = [m])
    (hi : w.party.inviteList = []) (hd : env.eventPartyOnDisband = true) :
    (env.eventPartyOnLeave = true → ∃ w', leaveParty env w (some l) = some (true, w')) ∧
    ∀ w', leaveParty env w (some l) = some (true, w') →
      w'.alive = false ∧ w'.party.leader = none ∧ w'.party.memberList = [] ∧
      w'.party.inviteList = [] ∧ (w'.players l).party = none ∧
      (w'.players m).party = none := by
  have main : env.eventPartyOnLeave = true →
      Succeeds (leaveParty env w (some l)) (fun r => r.1 = true ∧
        r.2.alive = false ∧ r.2.party.leader = none ∧ r.2.party.memberList = [] ∧
        r.2.party.inviteList = [] ∧ (r.2.players l).party = none ∧
        (r.2.players m).party = none) := by
    intro hh
    rw [leaveParty_leader_eq env w l hl hh]
    have hlead : leavePartyLeadership env w l = some (true, w) := by
      simp [leavePartyLeadership, hl, hm, hi]
    rw [hlead]
    refine (leavePartyRemoval_ok env w l l true hl).mono ?_
    rintro ⟨b, w'⟩ ⟨h1, -, -, h2, -⟩
    obtain ⟨k1, k2, k3, k4, k5⟩ := h2 ⟨Or.inl rfl, hd⟩
    refine ⟨h1, k1, k2, k3, k4, ?_, ?_⟩
    · rw [k5 l]; simp
    · rw [k5 m, hm]
      by_cases hml : m = l
      · simp [hml]
      · have : l ≠ m := fun h => hml h.symm
        simp [hml, List.erase_cons, this]
  refine ⟨fun hh => ?_, fun w' hw' => ?_⟩
  · obtain ⟨⟨b, w'⟩, hr, hb, -⟩ := main hh
    simp only at hb
    subst hb
    exact ⟨w', hr⟩
  · obtain ⟨⟨b, w''⟩, hr, -, hrest⟩ := main (leaveParty_success_hook env w w' _ hw')
    rw [hw'] at hr
    simp only [Option.some.injEq, Prod.mk.injEq] at hr
    obtain ⟨-, rfl⟩ := hr
    exact hrest

theorem leaveParty_leader_of_pair_disbands_witness :
    (sampleWorld [1] []).party.leader = some 0 ∧
    (sampleWorld [1] []).party.memberList = [1] ∧
    (sampleWorld [1] []).party.inviteList = [] ∧
    (sampleEnv true true true).eventPartyOnDisband = true ∧
    ((sampleEnv true true true).eventPartyOnLeave = true →
      ∃ w', leaveParty (sampleEnv true true true) (sampleWorld [1] []) (some 0) =
        some (true, w')) ∧
    ∀ w', leaveParty (sampleEnv true true true) (sampleWorld [1] []) (some 0) =
        some (true, w') →
      w'.alive = false ∧ w'.party.leader = none ∧ w'.party.memberList = [] ∧
      w'.party.inviteList = [] ∧ (w'.players 0).party = none ∧
      (w'.players 1).party = none :=
  ⟨rfl, rfl, rfl, rfl,
    leaveParty_leader_of_pair_disbands (sampleEnv true true true) (sampleWorld [1] []) 0 1
      rfl rfl rfl rfl⟩

/-- C3 as stated fails: with the on-disband hook vetoing, the leader of a party
with one member and no invitees leaves successfully, yet the party object
survives with the departed player still recorded as leader, the member still
listed and the member's back-reference still pointing at the party. -/
theorem leaveParty_leader_of_pair_veto :
    (sampleWorld [1] []).party.leader = some 0 ∧
    (sampleWorld [1] []).party.memberList = [1] ∧
    (sampleWorld [1] []).party.inviteList = [] ∧
    outcome (leaveParty (sampleEnv false true true) (sampleWorld [1] []) (some 0)) =
      some { result := true, alive := true, leader := some 0, memberList := [1],
             inviteList := [] } ∧
    backReferences (leaveParty (sampleEnv false true true) (sampleWorld [1] []) (some 0))
      [0, 1] = some [none, some 7] :=
  ⟨rfl, rfl, rfl, by decide, by decide⟩

theorem leaveParty_result_unique {env : Env} {w w' : World} {p : Option PlayerRef}
    {P : Bool × World → Prop} (h : Succeeds (leaveParty env w p) P)
    (hw' : leaveParty env w p = some (true, w')) : P (true, w') := by
  obtain ⟨r, hr, hP⟩ := h
  rw [hw'] at hr
  cases hr
  exact hP

/-- C4. In a party that satisfies the roster invariants, with leader `l` and
members `m1 :: rest` where `rest` or `inviteList` is non-empty, `leaveParty` of
the leader succeeds as soon as the on-leave hook permits, and whenever it
returns success the first member has taken over: the leader is `m1`,
`memberList` is `rest` in the same order, `l` is neither leader nor member,
`inviteList` is unchanged, the back-reference of `l` is cleared and the party
object lives on as before. -/
theorem leaveParty_leader_hands_over (env : Env) (w : World) (l m1 : PlayerRef)
    (rest : List PlayerRef) (hinv : RosterInvariants w)
    (hl : w.party.leader = some l) (hm : w.party.memberList = m1 :: rest)
    (hrest : rest ≠ [] ∨ w.party.inviteList ≠ []) :
    (env.eventPartyOnLeave = true → ∃ w', leaveParty env w (some l) = some (true, w')) ∧
    ∀ w', leaveParty env w (some l) = some (true, w') →
      w'.party.leader = some m1 ∧ w'.party.memberList = rest ∧
      w'.party.leader ≠ some l ∧ l ∉ w'.party.memberList ∧
      w'.party.inviteList = w.party.inviteList ∧
      (w'.players l).party = none ∧ w'.alive = w.alive ∧ w'.this = w.this := by
  obtain ⟨hnodup, hlead, -, hback⟩ := hinv
  have hlm : l ∉ m1 :: rest := hm ▸ hlead l hl
  have hne : m1 ≠ l := fun h => hlm (h ▸ List.mem_cons_self _ _)
  have hlrest : l ∉ rest := fun h => hlm (List.mem_cons_of_mem _ h)
  have hb1 : (w.players m1).party = some w.this :=
    hback m1 (Or.inr (hm ▸ List.mem_cons_self _ _))
  have main : env.eventPartyOnLeave = true →
      Succeeds (leaveParty env w (some l)) (fun r => r.1 = true ∧
        r.2.party.leader = some m1 ∧ r.2.party.memberList = rest ∧
        r.2.party.leader ≠ some l ∧ l ∉ r.2.party.memberList ∧
        r.2.party.inviteList = w.party.inviteList ∧
        (r.2.players l).party = none ∧ r.2.alive = w.alive ∧ r.2.this = w.this) := by
    intro hh
    rw [leaveParty_leader_eq env w l hl hh]
    have hcond : ¬ ((m1 :: rest).length = 1 ∧ w.party.inviteList.isEmpty = true) := by
      rintro ⟨h1, h2⟩
      rcases hrest with h | h
      · exact h (List.length_eq_zero.1 (by simpa using h1))
      · exact h (List.isEmpty_iff.1 h2)
    have hlead' : leavePartyLeadership env w l =
        (passPartyLeadership env w (some m1)).bind fun r => some (false, r.2) := by
      unfold leavePartyLeadership
      rw [if_pos hl, hm, if_pos (by simp), if_neg hcond]
      rfl
    rw [hlead']
    have hpass : Succeeds
        ((passPartyLeadership env w (some m1)).bind fun r => some (false, r.2))
        (fun r => r.1 = false ∧ r.2.party.leader = some m1 ∧
          r.2.party.memberList = l :: rest ∧ r.2.party.inviteList = w.party.inviteList ∧
          r.2.this = w.this ∧ r.2.alive = w.alive ∧ r.2.players = w.players) := by
      refine Succeeds.bind (passPartyLeadership_ok env w m1 l hl hne hb1) ?_
      rintro ⟨b, w1⟩ ⟨-, k1, k2, k3, -, -, k6, k7, k8⟩
      refine Succeeds.pure ⟨rfl, k1, ?_, k3, k6, k7, k8⟩
      simp only at k2 ⊢
      rw [k2, hm]
      simp
    refine Succeeds.bind hpass ?_
    · rintro ⟨b, w1⟩ ⟨kb, k1, k2, k3, k6, k7, k8⟩
      simp only at kb k1 k2 k3 k6 k7 k8 ⊢
      subst kb
      refine (leavePartyRemoval_ok env w1 l m1 false k1).mono ?_
      rintro ⟨b', w2⟩ ⟨j1, j2, -, -, j4⟩
      have herase : w1.party.memberList.erase l = rest := by rw [k2]; simp
      have hno : ¬ ((false = true ∨ (w1.party.memberList.erase l = [] ∧
          w1.party.inviteList = [])) ∧ env.eventPartyOnDisband = true) := by
        rintro ⟨h | ⟨h1, h2⟩, -⟩
        · cases h
        · rcases hrest with h | h
          · exact h (herase ▸ h1)
          · exact h (k3 ▸ h2)
      obtain ⟨i1, i2, i3, i4, i5⟩ := j4 hno
      simp only at j1 j2 i1 i2 i3 i4 i5 ⊢
      refine ⟨j1, i2, i3.trans herase, ?_, ?_, i4.trans k3, ?_, i1.trans k7, j2.trans k6⟩
      · rw [i2]; exact fun h => hne (Option.some.inj h)
      · rw [i3, herase]; exact hlrest
      · rw [i5 l]; simp
  refine ⟨fun hh => ?_, fun w' hw' => ?_⟩
  · obtain ⟨⟨b, w'⟩, hr, hb, -⟩ := main hh
    simp only at hb
    subst hb
    exact ⟨w', hr⟩
  · exact (leaveParty_result_unique (main (leaveParty_success_hook env w w' _ hw')) hw').2

theorem sampleWorld_invariants (members : List PlayerRef) (hn : members.Nodup)
    (hm : ∀ q ∈ members, q = 1 ∨ q = 2) : RosterInvariants (sampleWorld members []) := by
  refine ⟨hn, ?_, ?_, ?_⟩
  · intro l hl hmem
    cases hl
    rcases hm 0 hmem with h | h <;> cases h
  · intro q hq
    cases hq
  · rintro q (hq | hq)
    · cases hq
      rfl
    · rcases hm q hq with rfl | rfl <;> rfl

theorem leaveParty_leader_hands_over_witness :
    RosterInvariants (sampleWorld [1, 2] []) ∧
    (sampleWorld [1, 2] []).party.leader = some 0 ∧
    (sampleWorld [1, 2] []).party.memberList = 1 :: [2] ∧
    (([2] : List PlayerRef) ≠ [] ∨ (sampleWorld [1, 2] []).party.inviteList ≠ []) ∧
    ((sampleEnv true true true).eventPartyOnLeave = true →
      ∃ w', leaveParty (sampleEnv true true true) (sampleWorld [1, 2] []) (some 0) =
        some (true, w')) ∧
    ∀ w', leaveParty (sampleEnv true true true) (sampleWorld [1, 2] []) (some 0) =
        some (true, w') →
      w'.party.leader = some 1 ∧ w'.party.memberList = [2] ∧
      w'.party.leader ≠ some 0 ∧ 0 ∉ w'.party.memberList ∧
      w'.party.inviteList = (sampleWorld [1, 2] []).party.inviteList ∧
      (w'.players 0).party = none ∧ w'.alive = (sampleWorld [1, 2] []).alive ∧
      w'.this = (sampleWorld [1, 2] []).this :=
  ⟨sampleWorld_invariants [1, 2] (by decide) (by simp), rfl, rfl, Or.inl (by decide),
    leaveParty_leader_hands_over (sampleEnv true true true) (sampleWorld [1, 2] []) 0 1 [2]
      (sampleWorld_invariants [1, 2] (by decide) (by simp)) rfl rfl (Or.inl (by decide))⟩

theorem leaveParty_success_guard (env : Env) (w w' : World) (p : PlayerRef)
    (h : leaveParty env w (some p) = some (true, w')) :
    (w.players p).party = some w.this ∨ w.party.leader = some p := by
  by_contra hc
  have hg : (w.players p).party ≠ some w.this ∧ w.party.leader ≠ some p :=
    ⟨fun h => hc (Or.inl h), fun h => hc (Or.inr h)⟩
  unfold leaveParty at h
  simp only [if_pos hg] at h
  simp at h

/-- C5. For a live party with leader `l` and a member `p` other than the
leader, `leaveParty` succeeds as soon as `p` holds this party as back-reference
and the on-leave hook permits. Whenever it returns success, `memberList` is the
old list with `p` erased and the back-reference of `p` is cleared; as long as
the party object exists the leader is still `l`, `inviteList` is unchanged and
no other player is touched; and, the on-disband hook permitting, the party is
disbanded exactly when neither members nor invitees remain, in which case no
leader reference is left. -/
theorem leaveParty_member_leaves (env : Env) (w : World) (l p : PlayerRef)
    (hl : w.party.leader = some l) (hp : p ∈ w.party.memberList) (hpl : p ≠ l)
    (halive : w.alive = true) :
    (env.eventPartyOnLeave = true → (w.players p).party = some w.this →
      ∃ w', leaveParty env w (some p) = some (true, w')) ∧
    ∀ w', leaveParty env w (some p) = some (true, w') →
      w'.party.memberList = w.party.memberList.erase p ∧
      (w'.players p).party = none ∧
      (w'.alive = true →
        w'.party.leader = some l ∧ w'.party.inviteList = w.party.inviteList ∧
        ∀ q, q ≠ p → w'.players q = w.players q) ∧
      (env.eventPartyOnDisband = true →
        (w'.alive = false ↔
          (w.party.memberList.erase p = [] ∧ w.party.inviteList = []))) ∧
      (w'.alive = false →
        w'.party.leader = none ∧ w'.party.inviteList = [] ∧ (w'.players l).party = none) := by
  have hlp : w.party.leader ≠ some p := by
    rw [hl]; exact fun h => hpl (Option.some.inj h).symm
  have main : env.eventPartyOnLeave = true → (w.players p).party = some w.this →
      Succeeds (leaveParty env w (some p)) (fun r => r.1 = true ∧
        r.2.party.memberList = w.party.memberList.erase p ∧
        (r.2.players p).party = none ∧
        (r.2.alive = true →
          r.2.party.leader = some l ∧ r.2.party.inviteList = w.party.inviteList ∧
          ∀ q, q ≠ p → r.2.players q = w.players q) ∧
        (env.eventPartyOnDisband = true →
          (r.2.alive = false ↔
            (w.party.memberList.erase p = [] ∧ w.party.inviteList = []))) ∧
        (r.2.alive = false →
          r.2.party.leader = none ∧ r.2.party.inviteList = [] ∧
          (r.2.players l).party = none)) := by
    intro hh hback
    have heq : leaveParty env w (some p) = leavePartyRemoval env w p false := by
      simp [leaveParty, hback, hh, leavePartyLeadership, hlp]
    rw [heq]
    refine (leavePartyRemoval_ok env w p l false hl).mono ?_
    rintro ⟨b, w'⟩ ⟨h1, -, -, h2, h3⟩
    simp only at h1 h2 h3 ⊢
    by_cases hc : ((false = true ∨ (w.party.memberList.erase p = [] ∧
        w.party.inviteList = [])) ∧ env.eventPartyOnDisband = true)
    · obtain ⟨k1, k2, k3, k4, k5⟩ := h2 hc
      have hem : w.party.memberList.erase p = [] ∧ w.party.inviteList = [] := by
        rcases hc.1 with h | h
        · cases h
        · exact h
      refine ⟨h1, by rw [k3, hem.1], by rw [k5 p]; simp, ?_, ?_, ?_⟩
      · intro ha; rw [k1] at ha; cases ha
      · intro _; exact ⟨fun _ => hem, fun _ => k1⟩
      · intro _; exact ⟨k2, k4, by rw [k5 l]; simp⟩
    · obtain ⟨k1, k2, k3, k4, k5⟩ := h3 hc
      refine ⟨h1, k3, by rw [k5 p]; simp, ?_, ?_, ?_⟩
      · intro _; exact ⟨k2, k4, fun q hq => by rw [k5 q]; simp [hq]⟩
      · intro hd
        rw [k1, halive]
        constructor
        · intro h; cases h
        · intro hem; exact absurd ⟨Or.inr hem, hd⟩ hc
      · intro ha; rw [k1, halive] at ha; cases ha
  refine ⟨fun hh hback => ?_, fun w' hw' => ?_⟩
  · obtain ⟨⟨b, w'⟩, hr, hb, -⟩ := main hh hback
    simp only at hb
    subst hb
    exact ⟨w', hr⟩
  · have hback : (w.players p).party = some w.this := by
      rcases leaveParty_success_guard env w w' p hw' with h | h
      · exact h
      · exact absurd h hlp
    exact (leaveParty_result_unique
      (main (leaveParty_success_hook env w w' _ hw') hback) hw').2

theorem leaveParty_member_leaves_witness :
    ((sampleWorld [1, 2] []).party.leader = some 0 ∧
      1 ∈ (sampleWorld [1, 2] []).party.memberList ∧ (1 : PlayerRef) ≠ 0 ∧
      (sampleWorld [1, 2] []).alive = true) ∧
    (((sampleEnv true true true).eventPartyOnLeave = true →
        ((sampleWorld [1, 2] []).players 1).party = some (sampleWorld [1, 2] []).this →
        ∃ w', leaveParty (sampleEnv true true true) (sampleWorld [1, 2] []) (some 1) =
          some (true, w')) ∧
      ∀ w', leaveParty (sampleEnv true true true) (sampleWorld [1, 2] []) (some 1) =
          some (true, w') →
        w'.party.memberList = (sampleWorld [1, 2] []).party.memberList.erase 1 ∧
        (w'.players 1).party = none ∧
        (w'.alive = true →
          w'.party.leader = some 0 ∧
          w'.party.inviteList = (sampleWorld [1, 2] []).party.inviteList ∧
          ∀ q, q ≠ 1 → w'.players q = (sampleWorld [1, 2] []).players q) ∧
        ((sampleEnv true true true).eventPartyOnDisband = true →
          (w'.alive = false ↔
            ((sampleWorld [1, 2] []).party.memberList.erase 1 = [] ∧
              (sampleWorld [1, 2] []).party.inviteList = []))) ∧
        (w'.alive = false →
          w'.party.leader = none ∧ w'.party.inviteList = [] ∧ (w'.players 0).party = none)) ∧
    outcome (leaveParty (sampleEnv true true true) (sampleWorld [1, 2] []) (some 1)) =
      some { result := true, alive := true, leader := some 0, memberList := [2],
             inviteList := [] } ∧
    outcome (leaveParty (sampleEnv true true true) (sampleWorld [2] []) (some 2)) =
      some { result := true, alive := false, leader := none, memberList := [],
             inviteList := [] } :=
  ⟨⟨rfl, by decide, by decide, rfl⟩,
    leaveParty_member_leaves (sampleEnv true true true) (sampleWorld [1, 2] []) 0 1 rfl
      (by decide) (by decide) rfl,
    by decide, by decide⟩

/-! ## Failure leaves everything as it was -/

theorem bind_ne_false {α : Type} (x : Option α) (f : α → Option (Bool × World))
    (hf : ∀ a w', f a ≠ some (false, w')) (w' : World) : x.bind f ≠ some (false, w') := by
  cases x with
  | none => simp
  | some a => simpa using hf a w'

theorem leavePartyRemoval_ne_false (env : Env) (w : World) (p : PlayerRef) (ml : Bool)
    (w' : World) : leavePartyRemoval env w p ml ≠ some (false, w') := by
  unfold leavePartyRemoval
  simp only [Option.bind_eq_bind, Option.pure_def]
  refine bind_ne_false _ _ (fun l _ => ?_) w'
  refine bind_ne_false _ _ (fun w1 _ => ?_) _
  refine bind_ne_false _ _ (fun w2 _ => ?_) _
  refine bind_ne_false _ _ (fun w3 _ => ?_) _
  split
  · exact bind_ne_false _ _ (fun w4 _ => by simp) _
  · simp

theorem invitePlayer_failure (env : Env) (w w' : World) (c : PlayerRef)
    (h : invitePlayer env w c = some (false, w')) : w' = w ∧ c ∈ w.party.inviteList := by
  unfold invitePlayer at h
  by_cases hc : c ∈ w.party.inviteList
  · simp only [isPlayerInvited, hc, decide_True, if_true, Option.some.injEq,
      Prod.mk.injEq, true_and] at h
    exact ⟨h.symm, hc⟩
  · simp only [isPlayerInvited, hc, decide_False, Bool.false_eq_true, if_false,
      Option.bind_eq_bind, Option.pure_def] at h
    exact absurd h (bind_ne_false _ _ (fun l _ => by simp) _)

theorem joinParty_failure (env : Env) (w w' : World) (c : PlayerRef)
    (h : joinParty env w c = some (false, w')) :
    w' = w ∧ (c ∉ w.party.inviteList ∨ env.eventPartyOnJoin = false) := by
  unfold joinParty at h
  cases hh : env.eventPartyOnJoin
  · simp only [hh, Bool.not_false, if_true, Option.some.injEq, Prod.mk.injEq, true_and] at h
    exact ⟨h.symm, Or.inr rfl⟩
  · by_cases hc : c ∈ w.party.inviteList
    · simp only [hh, hc, Bool.not_true, Bool.false_eq_true, if_false, not_true_eq_false,
        Option.bind_eq_bind, Option.pure_def] at h
      refine absurd h (bind_ne_false _ _ (fun w1 _ => ?_) _)
      refine bind_ne_false _ _ (fun l _ => ?_) _
      split
      · refine bind_ne_false _ _ (fun w2 _ => ?_) _
        refine bind_ne_false _ _ (fun w3 _ => ?_) _
        exact bind_ne_false _ _ (fun l2 _ => by simp) _
      · refine bind_ne_false _ _ (fun w2 _ => ?_) _
        refine bind_ne_false _ _ (fun w3 _ => ?_) _
        exact bind_ne_false _ _ (fun l2 _ => by simp) _
    · simp only [hh, hc, Bool.not_true, Bool.false_eq_true, if_false, not_false_eq_true,
        if_true, Option.some.injEq, Prod.mk.injEq, true_and] at h
      exact ⟨h.symm, Or.inl hc⟩

theorem leaveParty_failure (env : Env) (w w' : World) (p : PlayerRef)
    (h : leaveParty env w (some p) = some (false, w')) :
    w' = w ∧ (((w.players p).party ≠ some w.this ∧ w.party.leader ≠ some p) ∨
      env.eventPartyOnLeave = false) := by
  unfold leaveParty at h
  by_cases hg : (w.players p).party ≠ some w.this ∧ w.party.leader ≠ some p
  · simp only [if_pos hg, Option.some.injEq, Prod.mk.injEq, true_and] at h
    exact ⟨h.symm, Or.inl hg⟩
  · cases hh : env.eventPartyOnLeave
    · simp only [if_neg hg, hh, Bool.not_false, if_true, Option.some.injEq, Prod.mk.injEq,
        true_and] at h
      exact ⟨h.symm, Or.inr rfl⟩
    · simp only [if_neg hg, hh, Bool.not_true, Bool.false_eq_true, if_false,
        Option.bind_eq_bind] at h
      exact absurd h (bind_ne_false _ _ (fun r _ => leavePartyRemoval_ne_false _ _ _ _ _) _)

theorem passPartyLeadership_failure (env : Env) (w w' : World) (p : PlayerRef)
    (h : passPartyLeadership env w (some p) = some (false, w')) :
    w' = w ∧ (w.party.leader = some p ∨ (w.players p).party ≠ some w.this) := by
  unfold passPartyLeadership at h
  by_cases hg : w.party.leader = some p ∨ (w.players p).party ≠ some w.this
  · simp only [if_pos hg, Option.some.injEq, Prod.mk.injEq, true_and] at h
    exact ⟨h.symm, hg⟩
  · simp only [if_neg hg, Option.bind_eq_bind, Option.pure_def] at h
    refine absurd h (bind_ne_false _ _ (fun w1 _ => ?_) _)
    refine bind_ne_false _ _ (fun l _ => ?_) _
    refine bind_ne_false _ _ (fun w2 _ => ?_) _
    exact bind_ne_false _ _ (fun l2 _ => by simp) _

theorem removeInvite_failure (env : Env) (w w' : World) (c : PlayerRef) (b : Bool)
    (h : removeInvite env w c b = some (false, w')) : w' = w ∧ c ∉ w.party.inviteList := by
  unfold removeInvite at h
  by_cases hc : c ∈ w.party.inviteList
  · cases b <;>
    · simp only [hc, not_true_eq_false, if_false, Option.bind_eq_bind, Option.pure_def,
        if_true, Bool.false_eq_true] at h
      refine absurd h (bind_ne_false _ _ (fun l _ => ?_) _)
      split
      · exact bind_ne_false _ _ (fun w1 _ => by simp) _
      · split <;> simp
  · simp only [hc, not_false_eq_true, if_true, Option.some.injEq, Prod.mk.injEq,
      true_and] at h
    exact ⟨h.symm, hc⟩

theorem setSharedExperience_failure (env : Env) (w w' : World) (p : PlayerRef) (b : Bool)
    (h : setSharedExperience env w (some p) b = some (false, w')) :
    w' = w ∧ w.party.leader ≠ some p := by
  unfold setSharedExperience at h
  by_cases hg : w.party.leader ≠ some p
  · simp only [if_pos hg, Option.some.injEq, Prod.mk.injEq, true_and] at h
    exact ⟨h.symm, hg⟩
  · simp only [if_neg hg] at h
    split at h
    · simp at h
    · cases b
      · simp only [Option.bind_eq_bind, Option.pure_def, Bool.false_eq_true, if_false,
          Option.some_bind] at h
        exact absurd h (bind_ne_false _ _ (fun w2 _ => by simp) _)
      · simp only [Option.bind_eq_bind, Option.pure_def, if_true] at h
        refine absurd h (bind_ne_false _ _ (fun r _ => ?_) _)
        split
        · simp only [Option.some_bind]
          exact bind_ne_false _ _ (fun w2 _ => by simp) _
        · simp only [Option.some_bind]
          exact bind_ne_false _ _ (fun w2 _ => by simp) _

/-- The converse of C6: each failure cause named by the specification makes
the call return failure at once, with the world untouched. -/
theorem run_of_failureCause (env : Env) (w : World) (c : Call)
    (h : failureCause env w c) : run env w c = some (false, w) := by
  cases c with
  | invite c =>
    have hi : isPlayerInvited w c = true := by simpa [isPlayerInvited] using h
    simp only [run, invitePlayer, hi, if_true]
  | join c =>
    rcases h with h | h
    · cases hh : env.eventPartyOnJoin <;> simp [run, joinParty, hh, h]
    · simp [run, joinParty, h]
  | leave a =>
    cases a with
    | none => rfl
    | some p =>
      rcases h with h | h
      · simp [run, leaveParty, h]
      · by_cases hg : (w.players p).party ≠ some w.this ∧ w.party.leader ≠ some p
        · simp [run, leaveParty, hg]
        · simp only [run, leaveParty, if_neg hg, h, Bool.not_false, if_true]
  | passLeadership a =>
    cases a with
    | none => rfl
    | some p =>
      simp only [run, passPartyLeadership]
      exact if_pos h
  | removeInvite c b =>
    simp only [run, removeInvite]
    exact if_pos h
  | setSharedExperience a b =>
    cases a with
    | none => rfl
    | some p =>
      simp only [run, setSharedExperience]
      exact if_pos h

/-- C6. Whenever `invitePlayer`, `joinParty`, `leaveParty`,
`passPartyLeadership`, `removeInvite` or `setSharedExperience` returns failure,
the whole world is exactly as before the call: leader, members, invitees, both
shared-experience flags, the timestamp map, every player (so every party
back-reference) and the notification log, to which nothing was added; and the
failure has one of the causes the specification names. -/
theorem failure_changes_nothing (env : Env) (w w' : World) (c : Call)
    (h : run env w c = some (false, w')) : w' = w ∧ failureCause env w c := by
  cases c with
  | invite c => exact invitePlayer_failure env w w' c h
  | join c => exact joinParty_failure env w w' c h
  | leave a =>
    cases a with
    | none =>
      simp only [run, leaveParty, Option.some.injEq, Prod.mk.injEq, true_and] at h
      exact ⟨h.symm, trivial⟩
    | some p => exact leaveParty_failure env w w' p h
  | passLeadership a =>
    cases a with
    | none =>
      simp only [run, passPartyLeadership, Option.some.injEq, Prod.mk.injEq, true_and] at h
      exact ⟨h.symm, trivial⟩
    | some p => exact passPartyLeadership_failure env w w' p h
  | removeInvite c b => exact removeInvite_failure env w w' c b h
  | setSharedExperience a b =>
    cases a with
    | none =>
      simp only [run, setSharedExperience, Option.some.injEq, Prod.mk.injEq, true_and] at h
      exact ⟨h.symm, trivial⟩
    | some p => exact setSharedExperience_failure env w w' p b h

theorem failure_changes_nothing_witness :
    run (sampleEnv true true true) (sampleWorld [1, 2] [3]) (Call.join 1) =
      some (false, sampleWorld [1, 2] [3]) ∧
    (sampleWorld [1, 2] [3] = sampleWorld [1, 2] [3] ∧
      failureCause (sampleEnv true true true) (sampleWorld [1, 2] [3]) (Call.join 1)) :=
  ⟨rfl, failure_changes_nothing (sampleEnv true true true) (sampleWorld [1, 2] [3])
    (sampleWorld [1, 2] [3]) (Call.join 1) rfl⟩

/-! ## Shared experience: eligibility -/

theorem foldl_level_le (players : PlayerRef → Player) (ms : List PlayerRef) (a : Nat) :
    a ≤ ms.foldl
        (fun hl member => if (players member).level > hl then (players member).level else hl) a ∧
    (∀ m ∈ ms, (players m).level ≤ ms.foldl
        (fun hl member => if (players member).level > hl then (players member).level else hl)
        a) ∧
    (ms.foldl
        (fun hl member => if (players member).level > hl then (players member).level else hl)
        a = a ∨
      ∃ m ∈ ms, ms.foldl
        (fun hl member => if (players member).level > hl then (players member).level else hl)
        a = (players m).level) := by
  induction ms generalizing a with
  | nil => simp
  | cons m rest ih =>
    simp only [List.foldl, List.mem_cons]
    obtain ⟨h1, h2, h3⟩ := ih (if (players m).level > a then (players m).level else a)
    refine ⟨?_, ?_, ?_⟩
    · refine le_trans ?_ h1
      split <;> omega
    · rintro q (rfl | hq)
      · refine le_trans ?_ h1
        split <;> omega
      · exact h2 q hq
    · rcases h3 with h | ⟨q, hq, h⟩
      · rw [h]
        split
        · exact Or.inr ⟨m, Or.inl rfl, rfl⟩
        · exact Or.inl rfl
      · exact Or.inr ⟨q, Or.inr hq, h⟩

theorem timeDiff_le_iff (env : Env) (ticks : Int) (h0 : 0 ≤ env.OTSYS_TIME - ticks)
    (h1 : env.OTSYS_TIME - ticks < 2 ^ 64) (h2 : 0 ≤ env.PZ_LOCKED)
    (h3 : env.PZ_LOCKED < 2 ^ 64) :
    timeDiff env ticks ≤ pzLocked env ↔ env.OTSYS_TIME - ticks ≤ env.PZ_LOCKED := by
  unfold timeDiff pzLocked
  rw [Int.emod_eq_of_lt h0 h1, Int.emod_eq_of_lt h2 h3]
  omega

/-- C7. With a leader `l` in place, `canUseSharedExperience` answers, and it
answers `true` exactly when all of these hold: `memberList` is non-empty; the
participant's level is at least `minLevel` of the highest level among the
leader and the members; the participant is within 30 tiles in `x`, 30 in `y`
and 1 in `z` of the leader; and the participant either holds the
`NotGainInFight` flag or has a timestamp recorded under its id whose distance
`timeDiff` from the clock does not exceed the lock duration `pzLocked` (equality
still qualifies). `highestLevel` is the maximum of the levels of the leader and
the members, and on a clock that has not run backwards `timeDiff` and `pzLocked`
are the plain difference `OTSYS_TIME - ticks` and the configured `PZ_LOCKED`. -/
theorem canUseSharedExperience_iff (env : Env) (w : World) (l p : PlayerRef)
    (hl : w.party.leader = some l) :
    (∃ b, canUseSharedExperience env w p = some b ∧
      (b = true ↔
        w.party.memberList ≠ [] ∧
        minLevel (highestLevel w l) ≤ (w.players p).level ∧
        (Int.natAbs ((w.players l).position.x - (w.players p).position.x) ≤ 30 ∧
          Int.natAbs ((w.players l).position.y - (w.players p).position.y) ≤ 30 ∧
          Int.natAbs ((w.players l).position.z - (w.players p).position.z) ≤ 1) ∧
        ((w.players p).flagNotGainInFight = true ∨
          ∃ ticks, w.party.ticksMap (w.players p).id = some ticks ∧
            timeDiff env ticks ≤ pzLocked env))) ∧
    ((w.players l).level ≤ highestLevel w l ∧
      (∀ m ∈ w.party.memberList, (w.players m).level ≤ highestLevel w l) ∧
      (highestLevel w l = (w.players l).level ∨
        ∃ m ∈ w.party.memberList, highestLevel w l = (w.players m).level)) ∧
    (∀ ticks, 0 ≤ env.OTSYS_TIME - ticks → env.OTSYS_TIME - ticks < 2 ^ 64 →
      0 ≤ env.PZ_LOCKED → env.PZ_LOCKED < 2 ^ 64 →
      (timeDiff env ticks ≤ pzLocked env ↔ env.OTSYS_TIME - ticks ≤ env.PZ_LOCKED)) := by
  refine ⟨?_, foldl_level_le w.players w.party.memberList (w.players l).level,
    fun ticks h0 h1 h2 h3 => timeDiff_le_iff env ticks h0 h1 h2 h3⟩
  unfold canUseSharedExperience
  simp only [hl, Option.bind_eq_bind, Option.some_bind, Option.pure_def]
  by_cases hm : w.party.memberList = []
  · simp [hm]
  have hm' : w.party.memberList.isEmpty = false := by
    cases hq : w.party.memberList with
    | nil => exact absurd hq hm
    | cons a t => rfl
  simp only [hm', Bool.false_eq_true, if_false]
  by_cases hlev : (w.players p).level < minLevel (highestLevel w l)
  · simp only [hlev, if_true]
    exact ⟨false, rfl, by simp; intro _ h; omega⟩
  simp only [hlev, if_false]
  have hlev' : minLevel (highestLevel w l) ≤ (w.players p).level := by omega
  cases hr : Position.areInRange 30 30 1 (w.players l).position (w.players p).position
  · simp only [Bool.not_false, if_true]
    refine ⟨false, rfl, ?_⟩
    simp only [Position.areInRange, Position.getDistanceX, Position.getDistanceY,
      Position.getDistanceZ, Bool.and_eq_false_iff, decide_eq_false_iff_not] at hr
    simp only [Bool.false_eq_true, false_iff, not_and]
    intro _ _ h
    rcases hr with (hr | hr) | hr
    · exact absurd h.1 hr
    · exact absurd h.2.1 hr
    · exact absurd h.2.2 hr
  have hr' : Int.natAbs ((w.players l).position.x - (w.players p).position.x) ≤ 30 ∧
      Int.natAbs ((w.players l).position.y - (w.players p).position.y) ≤ 30 ∧
      Int.natAbs ((w.players l).position.z - (w.players p).position.z) ≤ 1 := by
    simpa [Position.areInRange, Position.getDistanceX, Position.getDistanceY,
      Position.getDistanceZ, and_assoc] using hr
  simp only [Bool.not_true, Bool.false_eq_true, if_false]
  cases hf : (w.players p).flagNotGainInFight
  · simp only [Bool.not_false, if_true]
    cases ht : w.party.ticksMap (w.players p).id with
    | none => exact ⟨false, rfl, by simp [hm]⟩
    | some ticks =>
      by_cases hd : timeDiff env ticks > pzLocked env
      · simp only [hd, if_true]
        exact ⟨false, rfl, by simp; intro _ _ _ ; omega⟩
      · simp only [hd, if_false]
        exact ⟨true, rfl, by simp [hm, hlev', hr']; omega⟩
  · simp only [Bool.not_true, Bool.false_eq_true, if_false]
    exact ⟨true, rfl, by simp [hm, hlev', hr']⟩

theorem canUseSharedExperience_iff_witness :
    (sampleWorld [1, 2] []).party.leader = some 0 ∧
    ((∃ b, canUseSharedExperience (sampleEnv true true true) (sampleWorld [1, 2] []) 1 =
          some b ∧
        (b = true ↔
          (sampleWorld [1, 2] []).party.memberList ≠ [] ∧
          minLevel (highestLevel (sampleWorld [1, 2] []) 0) ≤
            ((sampleWorld [1, 2] []).players 1).level ∧
          (Int.natAbs (((sampleWorld [1, 2] []).players 0).position.x -
              ((sampleWorld [1, 2] []).players 1).position.x) ≤ 30 ∧
            Int.natAbs (((sampleWorld [1, 2] []).players 0).position.y -
              ((sampleWorld [1, 2] []).players 1).position.y) ≤ 30 ∧
            Int.natAbs (((sampleWorld [1, 2] []).players 0).position.z -
              ((sampleWorld [1, 2] []).players 1).position.z) ≤ 1) ∧
          (((sampleWorld [1, 2] []).players 1).flagNotGainInFight = true ∨
            ∃ ticks, (sampleWorld [1, 2] []).party.ticksMap
                ((sampleWorld [1, 2] []).players 1).id = some ticks ∧
              timeDiff (sampleEnv true true true) ticks ≤ pzLocked (sampleEnv true true true)))) ∧
      (((sampleWorld [1, 2] []).players 0).level ≤ highestLevel (sampleWorld [1, 2] []) 0 ∧
        (∀ m ∈ (sampleWorld [1, 2] []).party.memberList,
          ((sampleWorld [1, 2] []).players m).level ≤ highestLevel (sampleWorld [1, 2] []) 0) ∧
        (highestLevel (sampleWorld [1, 2] []) 0 = ((sampleWorld [1, 2] []).players 0).level ∨
          ∃ m ∈ (sampleWorld [1, 2] []).party.memberList,
            highestLevel (sampleWorld [1, 2] []) 0 = ((sampleWorld [1, 2] []).players m).level)) ∧
      (∀ ticks, 0 ≤ (sampleEnv true true true).OTSYS_TIME - ticks →
        (sampleEnv true true true).OTSYS_TIME - ticks < 2 ^ 64 →
        0 ≤ (sampleEnv true true true).PZ_LOCKED →
        (sampleEnv true true true).PZ_LOCKED < 2 ^ 64 →
        (timeDiff (sampleEnv true true true) ticks ≤ pzLocked (sampleEnv true true true) ↔
          (sampleEnv true true true).OTSYS_TIME - ticks ≤
            (sampleEnv true true true).PZ_LOCKED))) :=
  ⟨rfl, canUseSharedExperience_iff (sampleEnv true true true) (sampleWorld [1, 2] []) 0 1 rfl⟩

/-! ## The level bound in single precision -/

theorem bitLengthAux_le (fuel n k : Nat) (h : n < 2 ^ k) : bitLengthAux fuel n ≤ k := by
  induction fuel generalizing n k with
  | zero => simp [bitLengthAux]
  | succ f ih =>
    unfold bitLengthAux
    split
    · omega
    · rename_i hn
      cases k with
      | zero => simp at h; exact absurd h hn
      | succ k =>
        have : n / 2 < 2 ^ k := by
          rw [Nat.div_lt_iff_lt_mul (by norm_num)]
          rw [pow_succ] at h
          exact h
        have := ih (n / 2) k this
        omega

theorem ceil_roundHalfEven_thirds (N P : Nat) (hP : 2 ≤ P) :
    (roundHalfEven (N * P) 3 + P - 1) / P = (N + 2) / 3 := by
  obtain ⟨k, r, hr, rfl⟩ : ∃ k r, r < 3 ∧ N = 3 * k + r :=
    ⟨N / 3, N % 3, Nat.mod_lt _ (by norm_num), by omega⟩
  have hmul : (3 * k + r) * P = 3 * (k * P) + r * P := by ring
  rw [hmul]
  obtain ⟨K, hK⟩ : ∃ K, K = k * P := ⟨_, rfl⟩
  rw [← hK]
  have e1 : (k + 1) * P = K + P := by rw [hK]; ring
  have e2 : (k + 1 + 1) * P = K + 2 * P := by rw [hK]; ring
  have key : (r = 0 ∧ roundHalfEven (3 * K + r * P) 3 = K) ∨
      (1 ≤ r ∧ K + 1 ≤ roundHalfEven (3 * K + r * P) 3 ∧
        roundHalfEven (3 * K + r * P) 3 ≤ K + P) := by
    unfold roundHalfEven
    simp only []
    interval_cases r <;> split_ifs <;> omega
  rcases key with ⟨rfl, h⟩ | ⟨h1, h2, h3⟩
  · rw [h]
    have : (3 * k + 0 + 2) / 3 = k := by omega
    rw [this]
    apply Nat.div_eq_of_lt_le
    · rw [← hK]; omega
    · rw [e1]; omega
  · have : (3 * k + r + 2) / 3 = k + 1 := by omega
    rw [this]
    apply Nat.div_eq_of_lt_le
    · rw [e1]; omega
    · rw [e2]; omega

theorem floatDiv_thirds_ceil (N : Nat) (hN : N < 3 * 2 ^ 23) :
    (floatDiv N 3).ceil = (N + 2) / 3 := by
  unfold floatDiv
  by_cases h0 : N = 0
  · subst h0
    simp [Dyadic.ceil]
  simp only [h0, if_false]
  have hlen : bitLength (N * 2 ^ 40 / 3) ≤ 63 := by
    apply bitLengthAux_le
    rw [Nat.div_lt_iff_lt_mul (by norm_num)]
    have : N * 2 ^ 40 < 3 * 2 ^ 23 * 2 ^ 40 := Nat.mul_lt_mul_of_pos_right hN (by norm_num)
    calc N * 2 ^ 40 < 3 * 2 ^ 23 * 2 ^ 40 := this
      _ = 2 ^ 63 * 3 := by norm_num
  have hnot : ¬ 64 ≤ bitLength (N * 2 ^ 40 / 3) := by omega
  simp only [hnot, if_false, Dyadic.ceil]
  apply ceil_roundHalfEven_thirds
  have : 1 ≤ 64 - bitLength (N * 2 ^ 40 / 3) := by omega
  calc 2 = 2 ^ 1 := by norm_num
    _ ≤ 2 ^ (64 - bitLength (N * 2 ^ 40 / 3)) := Nat.pow_le_pow_right (by norm_num) this

/-- Below `3 * 2 ^ 22 = 12582912` the single-precision bound is the exact one. -/
theorem minLevel_eq_ceilTwoThirds (h : Nat) (hh : h < 12582912) :
    minLevel h = ceilTwoThirds h := by
  unfold minLevel ceilTwoThirds floatOfNat
  have h24 : h < 2 ^ 24 := by omega
  simp only [h24, if_true]
  rw [floatDiv_thirds_ceil (h * 2) (by omega)]
  have : h * 2 + 2 = 2 * h + 2 := by ring
  rw [this]
  apply Nat.mod_eq_of_lt
  omega

/-- C8 at the failing input. For the highest level 12582914 the bound computed
by `canUseSharedExperience` is 8388609, while `ceil(12582914 * 2 / 3)` is
8388610: single-precision numbers of this size are whole, so the quotient
8388609.33 is rounded to 8388609 before `std::ceil` sees it. A member of level
8388609 therefore passes the level test and is eligible. -/
theorem minLevel_below_ceiling :
    highestLevel veteranWorld 0 = 12582914 ∧
    minLevel 12582914 = 8388609 ∧
    ceilTwoThirds 12582914 = 8388610 ∧
    (veteranWorld.players 1).level < ceilTwoThirds (highestLevel veteranWorld 0) ∧
    ¬ ((veteranWorld.players 1).level < minLevel (highestLevel veteranWorld 0)) ∧
    canUseSharedExperience (sampleEnv true true true) veteranWorld 1 = some true := by
  decide

/-- C9 at the failing input (the defect of C8). The leader has level 12582914
and the single member level 8388609, below `ceil(12582914 * 2 / 3) = 8388610`;
yet `setSharedExperience(leader, true)` enables the bonus and tells the leader
that shared experience is now active. -/
theorem setSharedExperience_enables_below_ceiling :
    veteranWorld.party.memberList ≠ [] ∧
    veteranWorld.party.sharedExpActive = false ∧
    (veteranWorld.players 1).level < ceilTwoThirds (highestLevel veteranWorld 0) ∧
    (setSharedExperience (sampleEnv true true true) veteranWorld (some 0) true).map
        (fun r => (r.1, r.2.party.sharedExpActive, r.2.party.sharedExpEnabled,
          textMessages r.2.log)) =
      some (true, true, true, [(0, "Shared Experience is now active.")]) := by
  decide

theorem canEnableMembers_false (env : Env) (w : World) (l : PlayerRef)
    (hl : w.party.leader = some l) (q : PlayerRef) (ms : List PlayerRef) (hq : q ∈ ms)
    (hfalse : canUseSharedExperience env w q = some false) :
    canEnableMembers env w ms = some false := by
  induction ms with
  | nil => cases hq
  | cons m rest ih =>
    obtain ⟨b, hb⟩ := canUseSharedExperience_isSome env w l hl m
    cases b
    · simp [canEnableMembers, hb]
    · rcases List.mem_cons.1 hq with rfl | h
      · rw [hfalse] at hb; cases hb
      · simp [canEnableMembers, hb, ih h]

theorem canEnableSharedExperience_false (env : Env) (w : World) (l q : PlayerRef)
    (hl : w.party.leader = some l) (hq : q = l ∨ q ∈ w.party.memberList)
    (hfalse : canUseSharedExperience env w q = some false) :
    canEnableSharedExperience env w = some false := by
  unfold canEnableSharedExperience
  simp only [hl, Option.bind_eq_bind, Option.pure_def]
  rcases hq with rfl | hq
  · simp [hfalse]
  · obtain ⟨b, hb⟩ := canUseSharedExperience_isSome env w l hl l
    cases b
    · simp [hb]
    · simp [hb, canEnableMembers_false env w l hl q _ hq hfalse]

theorem canUseSharedExperience_low_level (env : Env) (w : World) (l q : PlayerRef)
    (hl : w.party.leader = some l)
    (hlow : (w.players q).level < minLevel (highestLevel w l)) :
    canUseSharedExperience env w q = some false := by
  unfold canUseSharedExperience
  split
  · rfl
  · simp [hl, hlow]

theorem textMessages_append (es fs : List Event) :
    textMessages (es ++ fs) = textMessages es ++ textMessages fs := by
  simp [textMessages]

theorem updateAllPartyIcons_text (env : Env) (w : World) (l : PlayerRef)
    (hl : w.party.leader = some l) :
    ∃ es, updateAllPartyIcons env w = some (w.emit es) ∧ textMessages es = [] := by
  refine ⟨(w.party.memberList.flatMap fun member =>
      (w.party.memberList.map fun otherMember => partyShield env member otherMember) ++
        [partyShield env member l, partyShield env l member]) ++ [partyShield env l l],
    by simp only [updateAllPartyIcons, hl, Option.bind_eq_bind, Option.some_bind,
      Option.pure_def, emit_emit], ?_⟩
  simp only [textMessages, List.filterMap_eq_nil_iff]
  intro e he
  simp only [List.mem_append, List.mem_flatMap, List.mem_map, List.mem_cons,
    List.mem_singleton, List.not_mem_nil, or_false] at he
  rcases he with ⟨m, -, (⟨o, -, rfl⟩ | rfl | rfl)⟩ | rfl <;>
    (simp only [partyShield]; cases env.partyList <;> rfl)

/-- The behaviour C9 describes, on the bound the code computes: in a party
with a member, shared experience off and a participant below
`minLevel (highestLevel w l)`, the leader's request to switch it on succeeds,
sets `sharedExpActive`, leaves `sharedExpEnabled` off and sends exactly one text
message, the "activated, but some members of your party are inactive" one, to
the leader. -/
theorem setSharedExperience_inactive (env : Env) (w : World) (l q : PlayerRef)
    (hl : w.party.leader = some l) (hact : w.party.sharedExpActive = false)
    (hq : q = l ∨ q ∈ w.party.memberList)
    (hlow : (w.players q).level < minLevel (highestLevel w l)) :
    ∃ w', setSharedExperience env w (some l) true = some (true, w') ∧
      w'.party.sharedExpActive = true ∧ w'.party.sharedExpEnabled = false ∧
      textMessages w'.log = textMessages w.log ++
        [(l, "Shared Experience has been activated, but some members of your party are inactive.")]
      := by
  have hfalse : canEnableSharedExperience env (w.setSharedExpActive true) = some false :=
    canEnableSharedExperience_false env (w.setSharedExpActive true) l q hl hq
      (canUseSharedExperience_low_level env (w.setSharedExpActive true) l q hl hlow)
  obtain ⟨es, hes, htext⟩ := updateAllPartyIcons_text env
    (((w.setSharedExpActive true).setSharedExpEnabled false).emit
      [sendTextMessage l MESSAGE_INFO_DESCR
        "Shared Experience has been activated, but some members of your party are inactive."])
    l hl
  refine ⟨(((w.setSharedExpActive true).setSharedExpEnabled false).emit
      [sendTextMessage l MESSAGE_INFO_DESCR
        "Shared Experience has been activated, but some members of your party are inactive."]).emit
      es, ?_, ?_⟩
  · unfold setSharedExperience
    simp only [hl, ne_eq, not_true_eq_false, if_false, hact, Bool.false_eq_true, if_true,
      Option.bind_eq_bind, Option.pure_def, hfalse, Option.some_bind]
    have he : ((w.setSharedExpActive true).setSharedExpEnabled false).party.sharedExpEnabled
        = false := rfl
    simp only [he, Bool.false_eq_true, if_false, Option.some_bind, hes]
  · refine ⟨rfl, rfl, ?_⟩
    simp only [World.emit, World.setSharedExpEnabled, World.setSharedExpActive,
      textMessages_append, htext, List.append_nil]
    rfl

/-- The same on the exact bound of the specification, for parties whose highest
level is below 12582912. -/
theorem setSharedExperience_inactive_exact (env : Env) (w : World) (l q : PlayerRef)
    (hl : w.party.leader = some l) (hact : w.party.sharedExpActive = false)
    (hq : q = l ∨ q ∈ w.party.memberList) (hsmall : highestLevel w l < 12582912)
    (hlow : (w.players q).level < ceilTwoThirds (highestLevel w l)) :
    ∃ w', setSharedExperience env w (some l) true = some (true, w') ∧
      w'.party.sharedExpActive = true ∧ w'.party.sharedExpEnabled = false ∧
      textMessages w'.log = textMessages w.log ++
        [(l, "Shared Experience has been activated, but some members of your party are inactive.")]
      :=
  setSharedExperience_inactive env w l q hl hact hq
    (by rw [minLevel_eq_ceilTwoThirds _ hsmall]; exact hlow)

/-! ## Shared experience: distance -/

theorem canUseSharedExperience_out_of_range (env : Env) (w : World) (l p : PlayerRef)
    (hl : w.party.leader = some l)
    (hout : 30 < Int.natAbs ((w.players l).position.x - (w.players p).position.x) ∨
      30 < Int.natAbs ((w.players l).position.y - (w.players p).position.y) ∨
      1 < Int.natAbs ((w.players l).position.z - (w.players p).position.z)) :
    canUseSharedExperience env w p = some false := by
  have hr : Position.areInRange 30 30 1 (w.players l).position (w.players p).position
      = false := by
    simp only [Position.areInRange, Position.getDistanceX, Position.getDistanceY,
      Position.getDistanceZ, Bool.and_eq_false_iff, decide_eq_false_iff_not]
    rcases hout with h | h | h
    · exact Or.inl (Or.inl (by omega))
    · exact Or.inl (Or.inr (by omega))
    · exact Or.inr (by omega)
  unfold canUseSharedExperience
  split
  · rfl
  · simp only [hl, Option.bind_eq_bind, Option.some_bind, Option.pure_def, hr]
    split <;> rfl

/-- C10. With a leader `l` in place, a participant `p` (the leader or a member)
standing more than 30 tiles away from the leader in `x` or in `y`, or more
than 1 floor away in `z`, is not eligible whatever its level, flag and
timestamp; hence `canEnableSharedExperience` is `false`, and when
`sharedExpActive` holds `updateSharedExperience` leaves `sharedExpEnabled`
`false`. -/
theorem out_of_range_disables (env : Env) (w : World) (l p : PlayerRef)
    (hl : w.party.leader = some l) (hp : p = l ∨ p ∈ w.party.memberList)
    (hout : 30 < Int.natAbs ((w.players l).position.x - (w.players p).position.x) ∨
      30 < Int.natAbs ((w.players l).position.y - (w.players p).position.y) ∨
      1 < Int.natAbs ((w.players l).position.z - (w.players p).position.z)) :
    canUseSharedExperience env w p = some false ∧
    canEnableSharedExperience env w = some false ∧
    (w.party.sharedExpActive = true →
      ∃ w', updateSharedExperience env w = some w' ∧ w'.party.sharedExpEnabled = false) := by
  have h1 := canUseSharedExperience_out_of_range env w l p hl hout
  have h2 := canEnableSharedExperience_false env w l p hl hp h1
  refine ⟨h1, h2, fun hact => ?_⟩
  unfold updateSharedExperience
  simp only [hact, if_true, h2, Option.bind_eq_bind, Option.some_bind, Option.pure_def]
  cases he : w.party.sharedExpEnabled
  · exact ⟨w, by simp, he⟩
  · obtain ⟨es, hes⟩ := updateAllPartyIcons_eq env (w.setSharedExpEnabled false) l hl
    exact ⟨_, by simpa using hes, rfl⟩

theorem out_of_range_disables_witness :
    farWorld.party.leader = some 0 ∧
    ((1 : PlayerRef) = 0 ∨ 1 ∈ farWorld.party.memberList) ∧
    (30 < Int.natAbs ((farWorld.players 0).position.x - (farWorld.players 1).position.x) ∨
      30 < Int.natAbs ((farWorld.players 0).position.y - (farWorld.players 1).position.y) ∨
      1 < Int.natAbs ((farWorld.players 0).position.z - (farWorld.players 1).position.z)) ∧
    (canUseSharedExperience (sampleEnv true true true) farWorld 1 = some false ∧
      canEnableSharedExperience (sampleEnv true true true) farWorld = some false ∧
      (farWorld.party.sharedExpActive = true →
        ∃ w', updateSharedExperience (sampleEnv true true true) farWorld = some w' ∧
          w'.party.sharedExpEnabled = false)) :=
  ⟨rfl, Or.inr (by decide), Or.inl (by decide),
    out_of_range_disables (sampleEnv true true true) farWorld 0 1 rfl (Or.inr (by decide))
      (Or.inl (by decide))⟩

/-! ## Shared experience: repeating the current setting -/

/-- C12. When the leader asks for the value `sharedExpActive` already has,
`setSharedExperience` returns `true` and hands back the very same world: no
field of the party, no player and no entry of the notification log (neither a
text message nor an icon or shield refresh) is different. -/
theorem setSharedExperience_same_value (env : Env) (w : World) (l : PlayerRef)
    (hl : w.party.leader = some l) :
    setSharedExperience env w (some l) w.party.sharedExpActive = some (true, w) := by
  simp [setSharedExperience, hl]

theorem setSharedExperience_same_value_witness :
    (sampleWorld [1, 2] [3]).party.leader = some 0 ∧
    setSharedExperience (sampleEnv true true true) (sampleWorld [1, 2] [3]) (some 0) (sampleWorld [1, 2] [3]).party.sharedExpActive = some (true, (sampleWorld [1, 2] [3])) :=
  ⟨rfl, setSharedExperience_same_value (sampleEnv true true true) (sampleWorld [1, 2] [3]) 0 rfl⟩

/-! ## Corpse ownership -/

/-- C13. With a leader `l` in place, `canOpenCorpse` answers `false` when the
lookup finds no live player for `ownerId`; when it finds one, the answer is
`true` exactly when `ownerId` is the leader's id or the owner found has this
party as back-reference. In particular the answer is `true` for the id of the
leader and for the id of a player `b` of this party, and `false` for the id of
a live player `c` whose back-reference is not this party (the leader itself
being of this party, and the lookup returning each of them for its own id). -/
theorem canOpenCorpse_iff (env : Env) (w : World) (l : PlayerRef)
    (hl : w.party.leader = some l) :
    (∀ ownerId, env.getPlayerByID ownerId = none → canOpenCorpse env w ownerId = some false) ∧
    (∀ ownerId owner, env.getPlayerByID ownerId = some owner →
      ∃ b, canOpenCorpse env w ownerId = some b ∧
        (b = true ↔ ((w.players l).id = ownerId ∨ (w.players owner).party = some w.this))) ∧
    (∀ owner, env.getPlayerByID (w.players l).id = some owner →
      canOpenCorpse env w (w.players l).id = some true) ∧
    (∀ b, env.getPlayerByID (w.players b).id = some b → (w.players b).party = some w.this →
      canOpenCorpse env w (w.players b).id = some true) ∧
    (∀ c, env.getPlayerByID (w.players c).id = some c →
      env.getPlayerByID (w.players l).id = some l → (w.players l).party = some w.this →
      (w.players c).party ≠ some w.this →
      canOpenCorpse env w (w.players c).id = some false) := by
  refine ⟨?_, ?_, ?_, ?_, ?_⟩
  · intro ownerId h
    simp [canOpenCorpse, h]
  · intro ownerId owner h
    refine ⟨decide ((w.players l).id = ownerId) ||
        decide ((w.players owner).party = some w.this),
      by simp only [canOpenCorpse, h, hl, Option.bind_eq_bind, Option.some_bind,
        Option.pure_def], ?_⟩
    simp
  · intro owner h
    simp [canOpenCorpse, h, hl]
  · intro b h hb
    simp [canOpenCorpse, h, hl, hb]
  · intro c h hlook hlp hc
    have hid : ¬ (w.players l).id = (w.players c).id := by
      intro e
      rw [e, h] at hlook
      cases hlook
      exact hc hlp
    simp [canOpenCorpse, h, hl, hc, hid]

theorem canOpenCorpse_iff_witness :
    (sampleWorld [1, 2] [3]).party.leader = some 0 ∧
    (
    (∀ ownerId, (sampleEnv true true true).getPlayerByID ownerId = none → canOpenCorpse (sampleEnv true true true) (sampleWorld [1, 2] [3]) ownerId = some false) ∧
    (∀ ownerId owner, (sampleEnv true true true).getPlayerByID ownerId = some owner →
      ∃ b, canOpenCorpse (sampleEnv true true true) (sampleWorld [1, 2] [3]) ownerId = some b ∧
        (b = true ↔ (((sampleWorld [1, 2] [3]).players 0).id = ownerId ∨ ((sampleWorld [1, 2] [3]).players owner).party = some (sampleWorld [1, 2] [3]).this))) ∧
    (∀ owner, (sampleEnv true true true).getPlayerByID ((sampleWorld [1, 2] [3]).players 0).id = some owner →
      canOpenCorpse (sampleEnv true true true) (sampleWorld [1, 2] [3]) ((sampleWorld [1, 2] [3]).players 0).id = some true) ∧
    (∀ b, (sampleEnv true true true).getPlayerByID ((sampleWorld [1, 2] [3]).players b).id = some b → ((sampleWorld [1, 2] [3]).players b).party = some (sampleWorld [1, 2] [3]).this →
      canOpenCorpse (sampleEnv true true true) (sampleWorld [1, 2] [3]) ((sampleWorld [1, 2] [3]).players b).id = some true) ∧
    (∀ c, (sampleEnv true true true).getPlayerByID ((sampleWorld [1, 2] [3]).players c).id = some c →
      (sampleEnv true true true).getPlayerByID ((sampleWorld [1, 2] [3]).players 0).id = some 0 → ((sampleWorld [1, 2] [3]).players 0).party = some (sampleWorld [1, 2] [3]).this →
      ((sampleWorld [1, 2] [3]).players c).party ≠ some (sampleWorld [1, 2] [3]).this →
      canOpenCorpse (sampleEnv true true true) (sampleWorld [1, 2] [3]) ((sampleWorld [1, 2] [3]).players c).id = some false)) ∧
    canOpenCorpse (sampleEnv true true true) (sampleWorld [1, 2] [3]) 100 = some true ∧
    canOpenCorpse (sampleEnv true true true) (sampleWorld [1, 2] [3]) 102 = some true ∧
    canOpenCorpse (sampleEnv true true true) (sampleWorld [1, 2] [3]) 103 = some false ∧
    canOpenCorpse (sampleEnv true true true) (sampleWorld [1, 2] [3]) 7 = some false :=
  ⟨rfl, canOpenCorpse_iff (sampleEnv true true true) (sampleWorld [1, 2] [3]) 0 rfl,
    by decide, by decide, by decide, by decide⟩

/-! ## Disband: all or nothing -/

/-- C15. With a leader `l` in place: if the on-disband hook vetoes, `disband`
hands back the very same world (leader, members, invitees, every player and
the party object are as before); if the hook permits, then afterwards the
party object no longer exists, no leader reference remains, `memberList` and
`inviteList` are empty, the back-references of the former leader and of every
former member are cleared, and no former invitee holds an invitation to this
party any more; players outside the roster keep their back-reference, players
outside `inviteList` their invitations. -/
theorem disband_all_or_nothing (env : Env) (w : World) (l : PlayerRef)
    (hl : w.party.leader = some l) :
    (env.eventPartyOnDisband = false → disband env w = some w) ∧
    (env.eventPartyOnDisband = true →
      ∃ w', disband env w = some w' ∧
        w'.alive = false ∧ w'.party.leader = none ∧
        w'.party.memberList = [] ∧ w'.party.inviteList = [] ∧
        (w'.players l).party = none ∧
        (∀ m ∈ w.party.memberList, (w'.players m).party = none) ∧
        (∀ i ∈ w.party.inviteList, w.this ∉ (w'.players i).invitePartyList) ∧
        (∀ q, q ≠ l → q ∉ w.party.memberList →
          (w'.players q).party = (w.players q).party) ∧
        (∀ q, q ∉ w.party.inviteList →
          (w'.players q).invitePartyList = (w.players q).invitePartyList)) := by
  refine ⟨disband_veto env w, fun hd => ?_⟩
  obtain ⟨w', hr, h1, h2, h3, h4, -, -, -, -, h9⟩ := disband_ok env w l hd hl
  refine ⟨w', hr, h1, h2, h3, h4, ?_, ?_, ?_, ?_, ?_⟩
  · rw [h9 l]; simp
  · intro m hm; rw [h9 m]; simp [hm]
  · intro i hi; rw [h9 i]; simp [hi]
  · intro q hq hm; rw [h9 q]; simp [hq, hm]
  · intro q hq; rw [h9 q]; simp [hq]

theorem disband_all_or_nothing_witness :
    (sampleWorld [1, 2] [3]).party.leader = some 0 ∧
    (
    ((sampleEnv true true true).eventPartyOnDisband = false → disband (sampleEnv true true true) (sampleWorld [1, 2] [3]) = some (sampleWorld [1, 2] [3])) ∧
    ((sampleEnv true true true).eventPartyOnDisband = true →
      ∃ w', disband (sampleEnv true true true) (sampleWorld [1, 2] [3]) = some w' ∧
        w'.alive = false ∧ w'.party.leader = none ∧
        w'.party.memberList = [] ∧ w'.party.inviteList = [] ∧
        (w'.players 0).party = none ∧
        (∀ m ∈ (sampleWorld [1, 2] [3]).party.memberList, (w'.players m).party = none) ∧
        (∀ i ∈ (sampleWorld [1, 2] [3]).party.inviteList, (sampleWorld [1, 2] [3]).this ∉ (w'.players i).invitePartyList) ∧
        (∀ q, q ≠ 0 → q ∉ (sampleWorld [1, 2] [3]).party.memberList →
          (w'.players q).party = ((sampleWorld [1, 2] [3]).players q).party) ∧
        (∀ q, q ∉ (sampleWorld [1, 2] [3]).party.inviteList →
          (w'.players q).invitePartyList = ((sampleWorld [1, 2] [3]).players q).invitePartyList))) :=
  ⟨rfl, disband_all_or_nothing (sampleEnv true true true) (sampleWorld [1, 2] [3]) 0 rfl⟩

/-! ## Shared experience: recomputation -/

theorem updateAllPartyIcons_events (env : Env) (w : World) (l : PlayerRef)
    (hl : w.party.leader = some l) :
    updateAllPartyIcons env w = some (w.emit (partyIconEvents env w.party.memberList l)) := by
  simp only [updateAllPartyIcons, hl, Option.bind_eq_bind, Option.some_bind, Option.pure_def,
    emit_emit, partyIconEvents]

theorem canUseSharedExperience_congr (env : Env) (w w' : World)
    (h1 : w'.party.leader = w.party.leader) (h2 : w'.party.memberList = w.party.memberList)
    (h3 : w'.party.ticksMap = w.party.ticksMap) (h4 : w'.players = w.players)
    (p : PlayerRef) :
    canUseSharedExperience env w' p = canUseSharedExperience env w p := by
  simp only [canUseSharedExperience, highestLevel, h1, h2, h3, h4]

theorem canEnableMembers_congr (env : Env) (w w' : World)
    (h1 : w'.party.leader = w.party.leader) (h2 : w'.party.memberList = w.party.memberList)
    (h3 : w'.party.ticksMap = w.party.ticksMap) (h4 : w'.players = w.players)
    (ms : List PlayerRef) :
    canEnableMembers env w' ms = canEnableMembers env w ms := by
  induction ms with
  | nil => rfl
  | cons m rest ih =>
    simp only [canEnableMembers, canUseSharedExperience_congr env w w' h1 h2 h3 h4, ih]

theorem canEnableSharedExperience_congr (env : Env) (w w' : World)
    (h1 : w'.party.leader = w.party.leader) (h2 : w'.party.memberList = w.party.memberList)
    (h3 : w'.party.ticksMap = w.party.ticksMap) (h4 : w'.players = w.players) :
    canEnableSharedExperience env w' = canEnableSharedExperience env w := by
  simp only [canEnableSharedExperience, h1, h2,
    canUseSharedExperience_congr env w w' h1 h2 h3 h4,
    canEnableMembers_congr env w w' h1 h2 h3 h4]

/-- C20. With a leader `l` in place: when `sharedExpActive` is off,
`updateSharedExperience` hands back the very same world. When it is on, let
`r` be the value of `canEnableSharedExperience`: if `r` is the current
`sharedExpEnabled` the world is again handed back unchanged (nothing is
emitted); otherwise `sharedExpEnabled` becomes `r` and the log grows by exactly
the notifications of `updateAllPartyIcons`, a non-empty list. In every case the
result has `sharedExpEnabled = r`, `canEnableSharedExperience` evaluates to `r`
on it as well, and no other field of the party and no player has changed. -/
theorem updateSharedExperience_recomputes (env : Env) (w : World) (l : PlayerRef)
    (hl : w.party.leader = some l) :
    (w.party.sharedExpActive = false → updateSharedExperience env w = some w) ∧
    (w.party.sharedExpActive = true →
      ∃ r, canEnableSharedExperience env w = some r ∧
        (r = w.party.sharedExpEnabled → updateSharedExperience env w = some w) ∧
        (r ≠ w.party.sharedExpEnabled →
          updateSharedExperience env w =
            some ((w.setSharedExpEnabled r).emit (partyIconEvents env w.party.memberList l)) ∧
          updateAllPartyIcons env (w.setSharedExpEnabled r) =
            some ((w.setSharedExpEnabled r).emit (partyIconEvents env w.party.memberList l)) ∧
          partyIconEvents env w.party.memberList l ≠ []) ∧
        ∀ w', updateSharedExperience env w = some w' →
          w'.party.sharedExpEnabled = r ∧
          canEnableSharedExperience env w' = some r ∧
          w'.party.leader = w.party.leader ∧ w'.party.memberList = w.party.memberList ∧
          w'.party.inviteList = w.party.inviteList ∧
          w'.party.sharedExpActive = w.party.sharedExpActive ∧
          w'.party.ticksMap = w.party.ticksMap ∧ w'.players = w.players ∧
          w'.this = w.this ∧ w'.alive = w.alive) := by
  refine ⟨fun h => by simp [updateSharedExperience, h], fun hact => ?_⟩
  obtain ⟨r, hr⟩ := canEnableSharedExperience_isSome env w l hl
  have hicons := updateAllPartyIcons_events env (w.setSharedExpEnabled r) l hl
  have hsame : r = w.party.sharedExpEnabled → updateSharedExperience env w = some w := by
    intro h
    simp [updateSharedExperience, hact, hr, h]
  have hdiff : r ≠ w.party.sharedExpEnabled → updateSharedExperience env w =
      some ((w.setSharedExpEnabled r).emit (partyIconEvents env w.party.memberList l)) := by
    intro h
    simp only [updateSharedExperience, hact, if_true, hr, Option.bind_eq_bind,
      Option.some_bind, bne_iff_ne, ne_eq, h, not_false_eq_true]
    exact hicons
  refine ⟨r, hr, hsame, fun h => ⟨hdiff h, hicons, by simp [partyIconEvents]⟩, ?_⟩
  intro w' hw'
  by_cases h : r = w.party.sharedExpEnabled
  · rw [hsame h] at hw'
    cases hw'
    exact ⟨h.symm, hr, rfl, rfl, rfl, rfl, rfl, rfl, rfl, rfl⟩
  · rw [hdiff h] at hw'
    cases hw'
    refine ⟨rfl, ?_, rfl, rfl, rfl, rfl, rfl, rfl, rfl, rfl⟩
    exact (canEnableSharedExperience_congr env w
      ((w.setSharedExpEnabled r).emit (partyIconEvents env w.party.memberList l))
      rfl rfl rfl rfl).trans hr


theorem updateSharedExperience_recomputes_witness :
    farWorld.party.leader = some 0 ∧
    (
    (farWorld.party.sharedExpActive = false → updateSharedExperience (sampleEnv true true true) farWorld = some farWorld) ∧
    (farWorld.party.sharedExpActive = true →
      ∃ r, canEnableSharedExperience (sampleEnv true true true) farWorld = some r ∧
        (r = farWorld.party.sharedExpEnabled → updateSharedExperience (sampleEnv true true true) farWorld = some farWorld) ∧
        (r ≠ farWorld.party.sharedExpEnabled →
          updateSharedExperience (sampleEnv true true true) farWorld =
            some ((farWorld.setSharedExpEnabled r).emit (partyIconEvents (sampleEnv true true true) farWorld.party.memberList 0)) ∧
          updateAllPartyIcons (sampleEnv true true true) (farWorld.setSharedExpEnabled r) =
            some ((farWorld.setSharedExpEnabled r).emit (partyIconEvents (sampleEnv true true true) farWorld.party.memberList 0)) ∧
          partyIconEvents (sampleEnv true true true) farWorld.party.memberList 0 ≠ []) ∧
        ∀ w', updateSharedExperience (sampleEnv true true true) farWorld = some w' →
          w'.party.sharedExpEnabled = r ∧
          canEnableSharedExperience (sampleEnv true true true) w' = some r ∧
          w'.party.leader = farWorld.party.leader ∧ w'.party.memberList = farWorld.party.memberList ∧
          w'.party.inviteList = farWorld.party.inviteList ∧
          w'.party.sharedExpActive = farWorld.party.sharedExpActive ∧
          w'.party.ticksMap = farWorld.party.ticksMap ∧ w'.players = farWorld.players ∧
          w'.this = farWorld.this ∧ w'.alive = farWorld.alive)) :=
  ⟨rfl, updateSharedExperience_recomputes (sampleEnv true true true) farWorld 0 rfl⟩

/-! ## Invitations: removal -/

theorem removeInvite_ok (env : Env) (w : World) (c l : PlayerRef) (notify : Bool)
    (hl : w.party.leader = some l) (hc : c ∈ w.party.inviteList) :
    Succeeds (removeInvite env w c notify) (fun r => r.1 = true ∧ r.2.this = w.this ∧
      r.2.party.sharedExpActive = w.party.sharedExpActive ∧
      r.2.party.sharedExpEnabled = w.party.sharedExpEnabled ∧
      r.2.party.ticksMap = w.party.ticksMap ∧
      (((w.party.memberList = [] ∧ w.party.inviteList.erase c = []) ∧
          env.eventPartyOnDisband = true) →
        r.2.alive = false ∧ r.2.party.leader = none ∧ r.2.party.memberList = [] ∧
        r.2.party.inviteList = [] ∧
        ∀ q, r.2.players q =
          if q = l then { uninvited w c notify q with party := none }
          else uninvited w c notify q) ∧
      (¬ ((w.party.memberList = [] ∧ w.party.inviteList.erase c = []) ∧
          env.eventPartyOnDisband = true) →
        r.2.alive = w.alive ∧ r.2.party.leader = some l ∧
        r.2.party.memberList = w.party.memberList ∧
        r.2.party.inviteList = w.party.inviteList.erase c ∧
        ∀ q, r.2.players q = uninvited w c notify q)) := by
  unfold removeInvite
  simp only [hc, not_true_eq_false, if_false, Option.bind_eq_bind, Option.pure_def]
  refine Succeeds.bind (leader_ok _ l ?_) ?_
  · simpa [World.setInviteList] using hl
  rintro _ rfl
  generalize hW : (if notify = true then
      ((w.setInviteList (w.party.inviteList.erase c)).emit
        [sendCreatureShield l c, sendCreatureShield c l]).removePartyInvitation c
        ((w.setInviteList (w.party.inviteList.erase c)).emit
          [sendCreatureShield l c, sendCreatureShield c l]).this
    else (w.setInviteList (w.party.inviteList.erase c)).emit
        [sendCreatureShield l c, sendCreatureShield c l]) = W
  have hWl : W.party.leader = some l := by
    subst hW; cases notify <;>
      simpa [World.setInviteList, World.emit, World.removePartyInvitation, World.setPlayer]
        using hl
  have hWm : W.party.memberList = w.party.memberList := by
    subst hW; cases notify <;>
      simp [World.setInviteList, World.emit, World.removePartyInvitation, World.setPlayer]
  have hWi : W.party.inviteList = w.party.inviteList.erase c := by
    subst hW; cases notify <;>
      simp [World.setInviteList, World.emit, World.removePartyInvitation, World.setPlayer]
  have hWt : W.this = w.this := by
    subst hW; cases notify <;>
      simp [World.setInviteList, World.emit, World.removePartyInvitation, World.setPlayer]
  have hWa : W.alive = w.alive := by
    subst hW; cases notify <;>
      simp [World.setInviteList, World.emit, World.removePartyInvitation, World.setPlayer]
  have hWf : W.party.sharedExpActive = w.party.sharedExpActive ∧
      W.party.sharedExpEnabled = w.party.sharedExpEnabled ∧
      W.party.ticksMap = w.party.ticksMap := by
    subst hW; cases notify <;>
      simp [World.setInviteList, World.emit, World.removePartyInvitation, World.setPlayer]
  have hWp : ∀ q, W.players q = uninvited w c notify q := by
    intro q
    subst hW; cases notify
    · simp [uninvited, World.setInviteList, World.emit]
    · by_cases hq : q = c <;>
        simp [uninvited, World.setInviteList, World.emit, World.removePartyInvitation,
          World.setPlayer, hq]
  have hempty : empty W = true ↔ (w.party.memberList = [] ∧ w.party.inviteList.erase c = []) := by
    simp [empty, List.isEmpty_iff, hWm, hWi]
  by_cases he : empty W = true
  · simp only [he, if_true]
    have hem := hempty.1 he
    cases hd : env.eventPartyOnDisband
    · rw [disband_veto env W hd]
      refine Succeeds.pure ⟨rfl, hWt, hWf.1, hWf.2.1, hWf.2.2, fun h => by simp at h,
        fun _ => ⟨hWa, hWl, hWm, hWi, hWp⟩⟩
    · refine Succeeds.bind (disband_ok env W l hd hWl) ?_
      rintro w' ⟨k1, k2, k3, k4, k5, k6, k7, k8, k9⟩
      refine Succeeds.pure ⟨rfl, k5.trans hWt, k6.trans hWf.1, k7.trans hWf.2.1,
        k8.trans hWf.2.2, fun _ => ⟨k1, k2, k3, k4, fun q => ?_⟩,
        fun h => absurd ⟨hem, rfl⟩ h⟩
      rw [k9 q, hWm, hWi, hem.1, hem.2, ← hWp q]
      by_cases hq : q = l <;> simp [hq]
  · simp only [he, if_false, Bool.false_eq_true]
    have hne : ¬ ((w.party.memberList = [] ∧ w.party.inviteList.erase c = []) ∧
        env.eventPartyOnDisband = true) := fun h => he (hempty.2 h.1)
    split
    · refine Succeeds.pure ⟨rfl, hWt, hWf.1, hWf.2.1, hWf.2.2, fun h => absurd h hne,
        fun _ => ⟨hWa, hWl, hWm, hWi, hWp⟩⟩
    · refine Succeeds.pure ⟨rfl, hWt, hWf.1, hWf.2.1, hWf.2.2, fun h => absurd h hne,
        fun _ => ⟨hWa, hWl, hWm, hWi, hWp⟩⟩

/-- C18. With a leader `l` in place, `inviteList` free of repetitions and the
party object alive, `removeInvite` of an invited candidate returns `true`; the
candidate is gone from `inviteList`, and `memberList`, `sharedExpActive` and
`sharedExpEnabled` are unchanged; as long as the party object exists the leader
is still `l` and `inviteList` is the old list with the candidate erased. The
candidate's own record of the invitation is removed when `removeFromPlayer` is
set and untouched otherwise. The on-disband hook permitting, the party is
disbanded exactly when `memberList` and the remaining `inviteList` are both
empty, and then no leader reference is left. -/
theorem removeInvite_removes (env : Env) (w : World) (c l : PlayerRef) (notify : Bool)
    (hl : w.party.leader = some l) (hset : w.party.inviteList.Nodup)
    (hc : c ∈ w.party.inviteList) (halive : w.alive = true) :
    ∃ w', removeInvite env w c notify = some (true, w') ∧
      c ∉ w'.party.inviteList ∧
      w'.party.memberList = w.party.memberList ∧
      w'.party.sharedExpActive = w.party.sharedExpActive ∧
      w'.party.sharedExpEnabled = w.party.sharedExpEnabled ∧
      (w'.alive = true →
        w'.party.leader = some l ∧ w'.party.inviteList = w.party.inviteList.erase c) ∧
      (notify = true → w.this ∉ (w'.players c).invitePartyList) ∧
      (notify = false →
        (w'.players c).invitePartyList = (w.players c).invitePartyList) ∧
      (w.this ∈ (w.players c).invitePartyList →
        (w.this ∉ (w'.players c).invitePartyList ↔ notify = true)) ∧
      (env.eventPartyOnDisband = true →
        (w'.alive = false ↔
          (w.party.memberList = [] ∧ w.party.inviteList.erase c = []))) ∧
      (w'.alive = false →
        w'.party.leader = none ∧ w'.party.inviteList = [] ∧ (w'.players l).party = none) := by
  obtain ⟨⟨b, w'⟩, hr, hb, -, h3, h4, -, hD, hN⟩ := removeInvite_ok env w c l notify hl hc
  simp only at hb h3 h4 hD hN
  subst hb
  have hnot : c ∉ w.party.inviteList.erase c :=
    fun h => ((List.Nodup.mem_erase_iff hset).1 h).1 rfl
  have hinv : (w'.players c).invitePartyList = (uninvited w c notify c).invitePartyList := by
    by_cases hcase : ((w.party.memberList = [] ∧ w.party.inviteList.erase c = []) ∧
        env.eventPartyOnDisband = true)
    · rw [(hD hcase).2.2.2.2 c]
      split <;> rfl
    · rw [(hN hcase).2.2.2.2 c]
  have hyes : notify = true → w.this ∉ (w'.players c).invitePartyList := by
    intro hn
    rw [hinv]
    simp [uninvited, hn]
  have hno : notify = false →
      (w'.players c).invitePartyList = (w.players c).invitePartyList := by
    intro hn
    rw [hinv]
    simp [uninvited, hn]
  refine ⟨w', hr, ?_, ?_, h3, h4, ?_, hyes, hno, ?_, ?_, ?_⟩
  · by_cases hcase : ((w.party.memberList = [] ∧ w.party.inviteList.erase c = []) ∧
        env.eventPartyOnDisband = true)
    · rw [(hD hcase).2.2.2.1]; simp
    · rw [(hN hcase).2.2.2.1]; exact hnot
  · by_cases hcase : ((w.party.memberList = [] ∧ w.party.inviteList.erase c = []) ∧
        env.eventPartyOnDisband = true)
    · rw [(hD hcase).2.2.1, hcase.1.1]
    · exact (hN hcase).2.2.1
  · intro ha
    by_cases hcase : ((w.party.memberList = [] ∧ w.party.inviteList.erase c = []) ∧
        env.eventPartyOnDisband = true)
    · rw [(hD hcase).1] at ha; cases ha
    · exact ⟨(hN hcase).2.1, (hN hcase).2.2.2.1⟩
  · intro hrec
    cases notify
    · simp only [Bool.false_eq_true, iff_false, not_not]
      rw [hno rfl]; exact hrec
    · simp only [iff_true]
      exact hyes rfl
  · intro hd
    by_cases hcase : ((w.party.memberList = [] ∧ w.party.inviteList.erase c = []) ∧
        env.eventPartyOnDisband = true)
    · rw [(hD hcase).1]
      exact ⟨fun _ => hcase.1, fun _ => rfl⟩
    · rw [(hN hcase).1, halive]
      simp only [Bool.true_eq_false, false_iff]
      exact fun h => hcase ⟨h, hd⟩
  · intro ha
    by_cases hcase : ((w.party.memberList = [] ∧ w.party.inviteList.erase c = []) ∧
        env.eventPartyOnDisband = true)
    · obtain ⟨-, k2, -, k4, k5⟩ := hD hcase
      refine ⟨k2, k4, ?_⟩
      rw [k5 l]; simp
    · rw [(hN hcase).1, halive] at ha; cases ha


theorem removeInvite_removes_witness :
    ((sampleWorld [] [3]).party.leader = some 0 ∧
      (sampleWorld [] [3]).party.inviteList.Nodup ∧
      3 ∈ (sampleWorld [] [3]).party.inviteList ∧ (sampleWorld [] [3]).alive = true) ∧
    (
    ∃ w', removeInvite (sampleEnv true true true) (sampleWorld [] [3]) 3 true = some (true, w') ∧
      3 ∉ w'.party.inviteList ∧
      w'.party.memberList = (sampleWorld [] [3]).party.memberList ∧
      w'.party.sharedExpActive = (sampleWorld [] [3]).party.sharedExpActive ∧
      w'.party.sharedExpEnabled = (sampleWorld [] [3]).party.sharedExpEnabled ∧
      (w'.alive = true →
        w'.party.leader = some 0 ∧ w'.party.inviteList = (sampleWorld [] [3]).party.inviteList.erase 3) ∧
      (true = true → (sampleWorld [] [3]).this ∉ (w'.players 3).invitePartyList) ∧
      (true = false →
        (w'.players 3).invitePartyList = ((sampleWorld [] [3]).players 3).invitePartyList) ∧
      ((sampleWorld [] [3]).this ∈ ((sampleWorld [] [3]).players 3).invitePartyList →
        ((sampleWorld [] [3]).this ∉ (w'.players 3).invitePartyList ↔ true = true)) ∧
      ((sampleEnv true true true).eventPartyOnDisband = true →
        (w'.alive = false ↔
          ((sampleWorld [] [3]).party.memberList = [] ∧ (sampleWorld [] [3]).party.inviteList.erase 3 = []))) ∧
      (w'.alive = false →
        w'.party.leader = none ∧ w'.party.inviteList = [] ∧ (w'.players 0).party = none)) ∧
    outcome (removeInvite (sampleEnv true true true) (sampleWorld [] [3]) 3 true) =
      some { result := true, alive := false, leader := none, memberList := [],
             inviteList := [] } ∧
    outcome (removeInvite (sampleEnv true true true) (sampleWorld [1] [3]) 3 false) =
      some { result := true, alive := true, leader := some 0, memberList := [1],
             inviteList := [] } :=
  ⟨⟨rfl, by decide, by decide, rfl⟩,
    removeInvite_removes (sampleEnv true true true) (sampleWorld [] [3]) 3 0 true rfl
      (by decide) (by decide) rfl,
    by decide, by decide⟩

/-! ## Membership: the join message -/

theorem log_extends_refl (l : List Event) : ∃ es, l = l ++ es := ⟨[], by simp⟩

theorem log_extends_append {l x : List Event} (ys : List Event) (h : ∃ es, x = l ++ es) :
    ∃ es, x ++ ys = l ++ es := by
  obtain ⟨es, rfl⟩ := h
  exact ⟨es ++ ys, by simp⟩

theorem joinParty_tail (env : Env) (Y : World) (c l : PlayerRef)
    (hl : Y.party.leader = some l) :
    Succeeds
      ((updateSharedExperience env (Y.removePartyInvitation c Y.this)).bind fun w1 =>
        w1.party.leader.bind fun leader =>
          some (true, w1.emit [sendTextMessage c MESSAGE_INFO_DESCR
            ("You have joined " ++ (w1.players leader).name ++ "\x27" ++
              (if endsWithS (w1.players leader).name = true then "" else "s") ++
              " party. Open the party channel to communicate with your companions.")]))
      (fun r => r.1 = true ∧
        r.2.party.inviteList = Y.party.inviteList ∧
        r.2.party.memberList = Y.party.memberList ∧
        r.2.party.leader = Y.party.leader ∧
        r.2.this = Y.this ∧ r.2.alive = Y.alive ∧
        r.2.party.sharedExpActive = Y.party.sharedExpActive ∧
        r.2.party.ticksMap = Y.party.ticksMap ∧
        (∀ q, r.2.players q =
          if q = c then
            { Y.players c with
              invitePartyList := (Y.players c).invitePartyList.filter (fun x => x != Y.this) }
          else Y.players q) ∧
        ∃ gs, r.2.log = Y.log ++ gs ++ [sendTextMessage c MESSAGE_INFO_DESCR
          ("You have joined " ++ (Y.players l).name ++ "\x27" ++
            (if endsWithS (Y.players l).name then "" else "s") ++
            " party. Open the party channel to communicate with your companions.")]) := by
  refine Succeeds.bind (updateSharedExperience_ok env _ l ?_) ?_
  · simpa [World.removePartyInvitation, World.setPlayer] using hl
  rintro _ ⟨b, gs, rfl⟩
  refine Succeeds.bind (leader_ok _ l ?_) ?_
  · simpa [World.removePartyInvitation, World.setPlayer, World.emit,
      World.setSharedExpEnabled] using hl
  rintro _ rfl
  have hn : ((((Y.removePartyInvitation c Y.this).setSharedExpEnabled b).emit gs).players
      l).name = (Y.players l).name := by
    by_cases hq : l = c <;>
      simp [World.emit, World.setPlayer, World.removePartyInvitation,
        World.setSharedExpEnabled, hq]
  rw [hn]
  refine Succeeds.pure ⟨rfl, rfl, rfl, rfl, rfl, rfl, rfl, rfl, ?_, gs, ?_⟩
  · intro q
    by_cases hq : q = c <;>
      simp [World.emit, World.setPlayer, World.removePartyInvitation,
        World.setSharedExpEnabled, hq]
  · simp [World.emit, World.setPlayer, World.removePartyInvitation, World.setSharedExpEnabled]

theorem joinParty_ok (env : Env) (w : World) (c l : PlayerRef)
    (hl : w.party.leader = some l) (hinv : c ∈ w.party.inviteList)
    (hhook : env.eventPartyOnJoin = true) :
    Succeeds (joinParty env w c) (fun r => r.1 = true ∧
      r.2.party.inviteList = w.party.inviteList.erase c ∧
      r.2.party.memberList = w.party.memberList ++ [c] ∧
      r.2.party.leader = w.party.leader ∧
      r.2.this = w.this ∧ r.2.alive = w.alive ∧
      r.2.party.sharedExpActive = w.party.sharedExpActive ∧
      r.2.party.ticksMap = w.party.ticksMap ∧
      (∀ q, r.2.players q =
        if q = c then
          { w.players c with
            party := some w.this
            invitePartyList := (w.players c).invitePartyList.filter (fun x => x != w.this) }
        else w.players q) ∧
      ∃ es, r.2.log = w.log ++ es ++ [sendTextMessage c MESSAGE_INFO_DESCR
        ("You have joined " ++ (w.players l).name ++ "\x27" ++
          (if endsWithS (w.players l).name then "" else "s") ++
          " party. Open the party channel to communicate with your companions.")]) := by
  have hx : ∀ (x gs : List Event) (e : Event), (∃ fs, x = w.log ++ fs) →
      ∃ fs, x ++ gs ++ [e] = w.log ++ fs ++ [e] := by
    rintro x gs e ⟨fs, rfl⟩
    exact ⟨fs ++ gs, by simp⟩
  unfold joinParty
  simp only [hhook, hinv, Bool.not_true, Bool.false_eq_true, if_false, not_true_eq_false,
    Option.bind_eq_bind, Option.pure_def, ite_emit]
  refine Succeeds.bind (broadcastPartyMessage_ok _ _ _ _ l ?_) ?_
  · simpa [World.setInviteList] using hl
  rintro _ ⟨es, rfl⟩
  refine Succeeds.bind (leader_ok _ l ?_) ?_
  · simpa [World.setInviteList, World.emit, World.setParty, World.setPlayer] using hl
  rintro _ rfl
  split
  · refine Succeeds.bind (updatePlayerStatus_ok env _ l ?_ _) ?_
    · simpa [World.setInviteList, World.emit, World.setParty, World.setPlayer,
        World.setMemberList] using hl
    rintro _ ⟨fs, rfl⟩
    refine (joinParty_tail env _ c l ?_).mono ?_
    · simpa [World.setInviteList, World.emit, World.setParty, World.setPlayer,
        World.setMemberList] using hl
    rintro ⟨b, w'⟩ ⟨h1, h2, h3, h4, h5, h6, h7, h8, h9, gs, h10⟩
    simp only [World.setInviteList, World.emit, World.setParty, World.setPlayer,
      World.setMemberList] at h1 h2 h3 h4 h5 h6 h7 h8 h9 h10
    refine ⟨h1, h2, h3, h4, h5, h6, h7, h8, ?_, ?_⟩
    · intro q
      rw [h9 q]
      by_cases hq : q = c <;> simp [hq]
    · have hnm : (if l = c then (w.players c).name else (w.players l).name)
          = (w.players l).name := by
        split
        · next h => rw [h]
        · rfl
      simp only [apply_ite Player.name, hnm] at h10
      simp only [h10]
      apply hx
      repeat (first | exact log_extends_refl _ | apply log_extends_append)
  · simp only [Option.some_bind]
    refine (joinParty_tail env _ c l ?_).mono ?_
    · simpa [World.setInviteList, World.emit, World.setParty, World.setPlayer,
        World.setMemberList] using hl
    rintro ⟨b, w'⟩ ⟨h1, h2, h3, h4, h5, h6, h7, h8, h9, gs, h10⟩
    simp only [World.setInviteList, World.emit, World.setParty, World.setPlayer,
      World.setMemberList] at h1 h2 h3 h4 h5 h6 h7 h8 h9 h10
    refine ⟨h1, h2, h3, h4, h5, h6, h7, h8, ?_, ?_⟩
    · intro q
      rw [h9 q]
      by_cases hq : q = c <;> simp [hq]
    · have hnm : (if l = c then (w.players c).name else (w.players l).name)
          = (w.players l).name := by
        split
        · next h => rw [h]
        · rfl
      simp only [apply_ite Player.name, hnm] at h10
      simp only [h10]
      apply hx
      repeat (first | exact log_extends_refl _ | apply log_extends_append)

theorem endsWithS_iff (n : String) : endsWithS n = true ↔ n.data.getLast? = some 's' := by
  unfold endsWithS
  cases n.data.getLast? with
  | none => simp
  | some ch => simp

/-- C19. For every successful `joinParty` in a party whose leader `l` has a
non-empty name `n`, the notifications of the call end with the text message to
the candidate, and its text is exactly `"You have joined " ++ n ++ "\x27" ++
" party. Open the party channel to communicate with your companions."` when `n`
ends with the character `s`, and the same with `"\x27s"` in place of `"\x27"`
otherwise. (The hypothesis on the name is the one of the claim; the source
does not define the test on an empty name.) -/
theorem joinParty_message (env : Env) (w w' : World) (c l : PlayerRef)
    (hl : w.party.leader = some l) (hname : (w.players l).name ≠ "")
    (hjoin : joinParty env w c = some (true, w')) :
    ∃ es, w'.log = w.log ++ es ++ [sendTextMessage c MESSAGE_INFO_DESCR
      (if (w.players l).name.data.getLast? = some 's' then
        "You have joined " ++ (w.players l).name ++ "\x27" ++
          " party. Open the party channel to communicate with your companions."
      else
        "You have joined " ++ (w.players l).name ++ "\x27s" ++
          " party. Open the party channel to communicate with your companions.")] := by
  have hhook : env.eventPartyOnJoin = true := by
    cases h : env.eventPartyOnJoin
    · have := run_of_failureCause env w (Call.join c) (Or.inr h)
      simp only [run] at this
      rw [this] at hjoin
      cases hjoin
    · rfl
  have hinv : c ∈ w.party.inviteList := by
    by_contra h
    have := run_of_failureCause env w (Call.join c) (Or.inl h)
    simp only [run] at this
    rw [this] at hjoin
    cases hjoin
  obtain ⟨r, hr, -, -, -, -, -, -, -, -, -, es, hlog⟩ := joinParty_ok env w c l hl hinv hhook
  rw [hjoin] at hr
  cases hr
  refine ⟨es, ?_⟩
  rw [hlog]
  by_cases hs : (w.players l).name.data.getLast? = some 's'
  · have he : endsWithS (w.players l).name = true := (endsWithS_iff _).2 hs
    simp only [he, hs, if_true, String.append_empty]
  · have he : ¬ endsWithS (w.players l).name = true := fun h => hs ((endsWithS_iff _).1 h)
    simp only [he, hs, if_false, String.append_assoc]
    rfl


theorem joinParty_message_witness :
    ((sampleWorld [1, 2] [3]).party.leader = some 0 ∧
      ((sampleWorld [1, 2] [3]).players 0).name ≠ "" ∧
      joinParty (sampleEnv true true true) (sampleWorld [1, 2] [3]) 3 =
        some (true, joinedWorld)) ∧
    (
    ∃ es, joinedWorld.log = (sampleWorld [1, 2] [3]).log ++ es ++ [sendTextMessage 3 MESSAGE_INFO_DESCR
      (if ((sampleWorld [1, 2] [3]).players 0).name.data.getLast? = some 's' then
        "You have joined " ++ ((sampleWorld [1, 2] [3]).players 0).name ++ "\x27" ++
          " party. Open the party channel to communicate with your companions."
      else
        "You have joined " ++ ((sampleWorld [1, 2] [3]).players 0).name ++ "\x27s" ++
          " party. Open the party channel to communicate with your companions.")]) ∧
    textMessages joinedWorld.log =
      [(1, "Cy has joined the party."), (2, "Cy has joined the party."),
       (0, "Cy has joined the party."),
       (3, "You have joined Lars\x27 party. Open the party channel to communicate with your companions.")] :=
  ⟨⟨rfl, by decide, rfl⟩,
    joinParty_message (sampleEnv true true true) (sampleWorld [1, 2] [3]) joinedWorld 3 0 rfl
      (by decide) rfl,
    by decide⟩

/-! ## Status visibility: the delta refresh -/

theorem showPlayerStatus_events (env : Env) (w : World) (p m : PlayerRef) (b : Bool) :
    showPlayerStatus env w p m b = w.emit (statusEvents env w p m b) := by
  cases b <;> simp [showPlayerStatus, statusEvents, World.emit]

theorem statusEvents_congr (env : Env) (w w' : World) (h : w'.players = w.players)
    (p m : PlayerRef) (b : Bool) : statusEvents env w' p m b = statusEvents env w p m b := by
  cases b <;> simp [showPlayerStatus, statusEvents, World.emit, h]

theorem withinDistance_iff (d : Int) (a b : Position) :
    withinDistance d a b = true ↔
      ((Int.natAbs (a.x - b.x) : Int) ≤ d ∧ (Int.natAbs (a.y - b.y) : Int) ≤ d) := by
  simp [withinDistance, Position.getDistanceX, Position.getDistanceY]

theorem moveStep_eq (env : Env) (w acc : World) (h : acc.players = w.players)
    (p : PlayerRef) (oldPos newPos : Position) (q : PlayerRef) :
    (if (withinDistance env.PARTY_LIST_MAX_DISTANCE oldPos (acc.players q).position &&
          !withinDistance env.PARTY_LIST_MAX_DISTANCE newPos (acc.players q).position) = true
      then showPlayerStatus env acc p q false
      else if (!withinDistance env.PARTY_LIST_MAX_DISTANCE oldPos (acc.players q).position &&
          withinDistance env.PARTY_LIST_MAX_DISTANCE newPos (acc.players q).position) = true
      then showPlayerStatus env acc p q true
      else acc) = acc.emit (moveTransition env w p oldPos newPos q) := by
  rw [h]
  unfold moveTransition
  simp only [Bool.and_eq_true, Bool.not_eq_true', ← Bool.not_eq_true, withinDistance_iff]
  split
  · rw [showPlayerStatus_events, statusEvents_congr env w acc h]
  · split
    · rw [showPlayerStatus_events, statusEvents_congr env w acc h]
    · rw [emit_nil]

theorem foldl_moveStep (env : Env) (w : World) (p : PlayerRef) (oldPos newPos : Position)
    (ms : List PlayerRef) (acc : World) (h : acc.players = w.players) :
    ms.foldl
      (fun acc member =>
        if (withinDistance env.PARTY_LIST_MAX_DISTANCE oldPos (acc.players member).position &&
            !withinDistance env.PARTY_LIST_MAX_DISTANCE newPos
              (acc.players member).position) = true
        then showPlayerStatus env acc p member false
        else if (!withinDistance env.PARTY_LIST_MAX_DISTANCE oldPos
              (acc.players member).position &&
            withinDistance env.PARTY_LIST_MAX_DISTANCE newPos
              (acc.players member).position) = true
        then showPlayerStatus env acc p member true
        else acc) acc =
      acc.emit (ms.flatMap (moveTransition env w p oldPos newPos)) := by
  induction ms generalizing acc with
  | nil => simp [emit_nil]
  | cons m rest ih =>
    simp only [List.foldl, List.flatMap_cons]
    rw [moveStep_eq env w acc h, ih _ (by simpa [World.emit] using h), emit_emit]

theorem updatePlayerStatusMove_eq (env : Env) (w : World) (l p : PlayerRef)
    (oldPos newPos : Position) (hl : w.party.leader = some l)
    (hd : env.PARTY_LIST_MAX_DISTANCE ≠ 0) :
    updatePlayerStatusMove env w p oldPos newPos =
      some (w.emit ((w.party.memberList ++ [l]).flatMap
        (moveTransition env w p oldPos newPos))) := by
  unfold updatePlayerStatusMove
  simp only [hd, ne_eq, not_false_eq_true, if_true, Option.bind_eq_bind, Option.pure_def]
  rw [foldl_moveStep env w p oldPos newPos w.party.memberList w rfl]
  have hl' : (w.emit (w.party.memberList.flatMap (moveTransition env w p oldPos newPos))
      ).party.leader = some l := hl
  simp only [hl', Option.some_bind]
  have := moveStep_eq env w
    (w.emit (w.party.memberList.flatMap (moveTransition env w p oldPos newPos))) rfl p
    oldPos newPos l
  simp only [List.flatMap_append, List.flatMap_cons, List.flatMap_nil, List.append_nil,
    ← emit_emit, ← this]
  split
  · rfl
  · split <;> rfl

/-- C14. With a leader `l` in place, the delta refresh
`updatePlayerStatus(player, oldPos, newPos)` adds nothing to the log when the
configured maximum distance is `0`; for every other distance (so for every
`d > 0`) it adds, for each member in list order and then for the leader, exactly
`moveTransition` of that pair: the notifications of `showPlayerStatus(.., false)`
iff `oldPos` was within distance of that player (`|dx| <= d` and `|dy| <= d`) and
`newPos` is not, those of `showPlayerStatus(.., true)` iff `oldPos` was not and
`newPos` is, and nothing when the in-range state is the same at both positions.
Either transition starts by telling both sides of the pair the new visibility. -/
theorem updatePlayerStatusMove_transitions (env : Env) (w : World) (l p : PlayerRef)
    (oldPos newPos : Position) (hl : w.party.leader = some l) :
    (env.PARTY_LIST_MAX_DISTANCE = 0 →
      updatePlayerStatusMove env w p oldPos newPos = some w) ∧
    (env.PARTY_LIST_MAX_DISTANCE ≠ 0 →
      updatePlayerStatusMove env w p oldPos newPos =
        some (w.emit ((w.party.memberList ++ [l]).flatMap
          (moveTransition env w p oldPos newPos)))) ∧
    (∀ q b, ∃ rest, statusEvents env w p q b =
      sendPartyCreatureShowStatus p (Target.player q) b ::
        sendPartyCreatureShowStatus q (Target.player p) b :: rest) := by
  refine ⟨fun h => by simp [updatePlayerStatusMove, h],
    fun h => updatePlayerStatusMove_eq env w l p oldPos newPos hl h, fun q b => ?_⟩
  cases b <;> simp [statusEvents, showPlayerStatus, World.emit]

theorem updatePlayerStatusMove_transitions_witness :
    marchWorld.party.leader = some 0 ∧
    (
    ((sampleEnv true true true).PARTY_LIST_MAX_DISTANCE = 0 →
      updatePlayerStatusMove (sampleEnv true true true) marchWorld 1 ⟨108, 100, 7⟩ ⟨112, 100, 7⟩ = some marchWorld) ∧
    ((sampleEnv true true true).PARTY_LIST_MAX_DISTANCE ≠ 0 →
      updatePlayerStatusMove (sampleEnv true true true) marchWorld 1 ⟨108, 100, 7⟩ ⟨112, 100, 7⟩ =
        some (marchWorld.emit ((marchWorld.party.memberList ++ [0]).flatMap
          (moveTransition (sampleEnv true true true) marchWorld 1 ⟨108, 100, 7⟩ ⟨112, 100, 7⟩)))) ∧
    (∀ q b, ∃ rest, statusEvents (sampleEnv true true true) marchWorld 1 q b =
      sendPartyCreatureShowStatus 1 (Target.player q) b ::
        sendPartyCreatureShowStatus q (Target.player 1) b :: rest)) ∧
    (sampleEnv true true true).PARTY_LIST_MAX_DISTANCE = 10 ∧
    (updatePlayerStatusMove (sampleEnv true true true) marchWorld 1 ⟨108, 100, 7⟩
        ⟨112, 100, 7⟩).map (fun w => w.log) =
      some [sendPartyCreatureShowStatus 1 (Target.player 0) false,
        sendPartyCreatureShowStatus 0 (Target.player 1) false] :=
  ⟨rfl,
    updatePlayerStatusMove_transitions (sampleEnv true true true) marchWorld 0 1
      ⟨108, 100, 7⟩ ⟨112, 100, 7⟩ rfl,
    rfl, by decide⟩

/-! ## Reachable states and the roster invariants -/

theorem SameRoster.sound {w w' : World} (h : SameRoster w w') (hs : Sound w) : Sound w' := by
  obtain ⟨-, h2, h3, -, h5, -⟩ := h
  exact ⟨h5 ▸ hs.1, fun ha => by rw [h3]; exact hs.2 (h2 ▸ ha)⟩

theorem SameRoster.separated {w w' : World} (h : SameRoster w w') (hs : Separated w) :
    Separated w' := by
  obtain ⟨h1, -, h3, h4, h5, h6⟩ := h
  unfold Separated
  rw [h1, h3, h4, h5]
  exact ⟨hs.1, hs.2.1, hs.2.2.1, fun q hq => hs.2.2.2 q (by rw [← h6 q]; exact hq)⟩

theorem SameRoster.attached {w w' : World} (h : SameRoster w w') (hs : Attached w) :
    Attached w' := by
  obtain ⟨h1, -, h3, h4, -, h6⟩ := h
  unfold Attached
  rw [h1, h3, h4]
  exact fun q hq => by rw [h6 q]; exact hs q hq

theorem SameRoster.refl (w : World) : SameRoster w w := ⟨rfl, rfl, rfl, rfl, rfl, fun _ => rfl⟩

theorem sameRoster_emit (w : World) (es : List Event) : SameRoster w (w.emit es) :=
  ⟨rfl, rfl, rfl, rfl, rfl, fun _ => rfl⟩

theorem sameRoster_enabled_emit (w : World) (b : Bool) (es : List Event) :
    SameRoster w ((w.setSharedExpEnabled b).emit es) :=
  ⟨rfl, rfl, rfl, rfl, rfl, fun _ => rfl⟩

theorem updateSharedExperience_sameRoster (env : Env) (w w' : World) (l : PlayerRef)
    (hl : w.party.leader = some l) (h : updateSharedExperience env w = some w') :
    SameRoster w w' := by
  obtain ⟨b, es, he⟩ := updateSharedExperience_eq env w l hl
  rw [he] at h
  cases h
  exact sameRoster_enabled_emit w b es

theorem updatePlayerTicks_sameRoster (env : Env) (w w' : World) (l p : PlayerRef) (n : Nat)
    (hl : w.party.leader = some l) (h : updatePlayerTicks env w p n = some w') :
    SameRoster w w' := by
  unfold updatePlayerTicks at h
  split at h
  · exact updateSharedExperience_sameRoster env
      (w.setTicksMap fun k =>
        if k = (w.players p).id then some env.OTSYS_TIME else w.party.ticksMap k) w' l hl h
  · cases h
    exact SameRoster.refl w

theorem updatePlayerStatus_sameRoster (env : Env) (w w' : World) (l p : PlayerRef)
    (hl : w.party.leader = some l) (h : updatePlayerStatus env w p = some w') :
    SameRoster w w' := by
  obtain ⟨es, he⟩ := updatePlayerStatus_eq env w l hl p
  rw [he] at h
  cases h
  exact sameRoster_emit w es

theorem updatePlayerStatusMove_sameRoster (env : Env) (w w' : World) (l p : PlayerRef)
    (oldPos newPos : Position)
    (hl : w.party.leader = some l) (h : updatePlayerStatusMove env w p oldPos newPos = some w') :
    SameRoster w w' := by
  by_cases hd : env.PARTY_LIST_MAX_DISTANCE = 0
  · simp [updatePlayerStatusMove, hd] at h
    subst h
    exact SameRoster.refl w
  · rw [updatePlayerStatusMove_eq env w l p oldPos newPos hl hd] at h
    cases h
    exact sameRoster_emit w _

theorem setSharedExperience_sameRoster (env : Env) (w : World) (p : Option PlayerRef)
    (b : Bool) (r : Bool × World) (h : setSharedExperience env w p b = some r) :
    SameRoster w r.2 := by
  unfold setSharedExperience at h
  cases p with
  | none => simp at h; subst h; exact SameRoster.refl w
  | some p =>
    simp only at h
    split at h
    · cases h; exact SameRoster.refl w
    · next hlp =>
      have hl : w.party.leader = some p := not_not.1 hlp
      split at h
      · cases h; exact SameRoster.refl w
      · simp only [Option.bind_eq_bind, Option.pure_def] at h
        cases b
        · simp only [Bool.false_eq_true, if_false, Option.some_bind] at h
          obtain ⟨es, he⟩ := updateAllPartyIcons_eq env
            ((w.setSharedExpActive false).emit
              [sendTextMessage p MESSAGE_INFO_DESCR "Shared Experience has been deactivated."])
            p hl
          rw [he] at h
          simp at h
          subst h
          exact ⟨rfl, rfl, rfl, rfl, rfl, fun _ => rfl⟩
        · simp only [if_true] at h
          obtain ⟨e, hce⟩ := canEnableSharedExperience_isSome env (w.setSharedExpActive true) p hl
          simp only [hce, Option.some_bind] at h
          split at h
          · obtain ⟨es, he⟩ := updateAllPartyIcons_eq env
              (((w.setSharedExpActive true).setSharedExpEnabled e).emit
                [sendTextMessage p MESSAGE_INFO_DESCR "Shared Experience is now active."])
              p hl
            rw [he] at h
            simp at h
            subst h
            exact ⟨rfl, rfl, rfl, rfl, rfl, fun _ => rfl⟩
          · obtain ⟨es, he⟩ := updateAllPartyIcons_eq env
              (((w.setSharedExpActive true).setSharedExpEnabled e).emit
                [sendTextMessage p MESSAGE_INFO_DESCR
                  "Shared Experience has been activated, but some members of your party are inactive."])
              p hl
            rw [he] at h
            simp at h
            subst h
            exact ⟨rfl, rfl, rfl, rfl, rfl, fun _ => rfl⟩

theorem Preserves.of_sameRoster {g v : Prop} {w w' : World} (h : SameRoster w w') :
    Preserves g v w w' :=
  ⟨h.sound, fun _ _ hs => h.separated hs, fun _ _ _ _ ha => h.attached ha⟩

theorem Preserves.trans {g v : Prop} {w w1 w2 : World} (h1 : Preserves g v w w1)
    (h2 : Preserves g v w1 w2) : Preserves g v w w2 :=
  ⟨fun hs => h2.1 (h1.1 hs),
    fun hg hs hp => h2.2.1 hg (h1.1 hs) (h1.2.1 hg hs hp),
    fun hg hv hs hp ha =>
      h2.2.2 hg hv (h1.1 hs) (h1.2.1 hg hs hp) (h1.2.2 hg hv hs hp ha)⟩

theorem preserves_passed (g v : Prop) (w w' : World) (l p : PlayerRef)
    (hl : w.party.leader = some l) (hpl : p ≠ l) (hback : (w.players p).party = some w.this)
    (h1 : w'.party.leader = some p) (h2 : w'.party.memberList = l :: w.party.memberList.erase p)
    (h3 : w'.party.inviteList = w.party.inviteList) (h4 : w'.this = w.this)
    (h5 : w'.alive = w.alive) (h6 : w'.players = w.players) : Preserves g v w w' := by
  refine ⟨fun hs => ⟨h3 ▸ hs.1, fun _ => ⟨p, h1⟩⟩, fun _ hs hp => ?_, fun _ _ hs hp ha => ?_⟩
  · obtain ⟨n1, n2, n3, n4⟩ := hp
    have hlm : l ∉ w.party.memberList := n2 l hl
    have hpm : p ∈ w.party.memberList := by
      rcases n4 p hback with h | h
      · rw [hl] at h; exact absurd (Option.some.inj h).symm hpl
      · exact h
    refine ⟨?_, ?_, ?_, ?_⟩
    · rw [h2]
      exact List.nodup_cons.2 ⟨fun h => hlm (List.mem_of_mem_erase h), n1.erase p⟩
    · intro x hx
      rw [h1] at hx
      cases hx
      rw [h2]
      intro hmem
      rcases List.mem_cons.1 hmem with h | h
      · exact hpl h
      · exact ((List.Nodup.mem_erase_iff n1).1 h).1 rfl
    · intro q hq
      rw [h3] at hq
      obtain ⟨k1, k2⟩ := n3 q hq
      rw [h2, h1]
      refine ⟨fun hmem => ?_, fun h => ?_⟩
      · rcases List.mem_cons.1 hmem with h | h
        · exact k2 (by rw [hl, h])
        · exact k1 (List.mem_of_mem_erase h)
      · cases h
        exact k1 hpm
    · intro q hq
      rw [h6, h4] at hq
      rw [h1, h2]
      by_cases hqp : q = p
      · exact Or.inl (by rw [hqp])
      · right
        rcases n4 q hq with h | h
        · rw [hl] at h
          cases h
          exact List.mem_cons_self _ _
        · exact List.mem_cons_of_mem _ ((List.mem_erase_of_ne hqp).2 h)
  · intro q hq
    rw [h6, h4]
    rw [h1, h2] at hq
    rcases hq with h | h
    · cases h; exact hback
    · rcases List.mem_cons.1 h with h | h
      · exact ha q (Or.inl (by rw [hl, h]))
      · exact ha q (Or.inr (List.mem_of_mem_erase h))

theorem preserves_left (g v : Prop) (w w' : World) (l p : PlayerRef)
    (hl : w.party.leader = some l) (hpl : g → v → Separated w → Attached w → p ≠ l)
    (h1 : w'.party.leader = some l) (h2 : w'.party.memberList = w.party.memberList.erase p)
    (h3 : w'.party.inviteList = w.party.inviteList) (h4 : w'.this = w.this)
    (h5 : w'.alive = w.alive)
    (h6 : ∀ q, w'.players q = if q = p then { w.players p with party := none } else w.players q) :
    Preserves g v w w' := by
  refine ⟨fun hs => ⟨h3 ▸ hs.1, fun _ => ⟨l, h1⟩⟩, fun _ hs hp => ?_, fun hg hv hs hp ha => ?_⟩
  · obtain ⟨n1, n2, n3, n4⟩ := hp
    refine ⟨h2 ▸ n1.erase p, ?_, ?_, ?_⟩
    · intro x hx
      rw [h1] at hx
      cases hx
      rw [h2]
      exact fun h => n2 l hl (List.mem_of_mem_erase h)
    · intro q hq
      rw [h3] at hq
      obtain ⟨k1, k2⟩ := n3 q hq
      rw [h2, h1, ← hl]
      exact ⟨fun h => k1 (List.mem_of_mem_erase h), k2⟩
    · intro q hq
      rw [h6 q, h4] at hq
      by_cases hqp : q = p
      · simp [hqp] at hq
      · simp only [hqp, if_false] at hq
        rw [h1, h2, ← hl]
        rcases n4 q hq with h | h
        · exact Or.inl h
        · exact Or.inr ((List.mem_erase_of_ne hqp).2 h)
  · have hne := hpl hg hv hp ha
    intro q hq
    rw [h1, h2] at hq
    rw [h6 q, h4]
    have hqp : q ≠ p := by
      rcases hq with h | h
      · cases h; exact fun e => hne e.symm
      · exact fun e => ((List.Nodup.mem_erase_iff hp.1).1 (e ▸ h)).1 rfl
    simp only [hqp, if_false]
    rcases hq with h | h
    · exact ha q (Or.inl (by rw [hl, h]))
    · exact ha q (Or.inr (List.mem_of_mem_erase h))

theorem preserves_disbanded (g v : Prop) (w w' : World) (cleared : PlayerRef → Prop)
    (hc : ∀ q, w.party.leader = some q ∨ q ∈ w.party.memberList → cleared q)
    (h1 : w'.party.leader = none) (h2 : w'.party.memberList = [])
    (h3 : w'.party.inviteList = []) (h4 : w'.this = w.this) (h5 : w'.alive = false)
    (h6 : ∀ q, cleared q → (w'.players q).party = none)
    (h7 : ∀ q, ¬ cleared q → (w'.players q).party = (w.players q).party) :
    Preserves g v w w' := by
  have e3 : w'.party.inviteList.Nodup := by rw [h3]; exact List.nodup_nil
  have e2 : w'.party.memberList.Nodup := by rw [h2]; exact List.nodup_nil
  refine ⟨fun _ => ⟨e3, fun ha => ?_⟩, fun _ _ hp => ?_, fun _ _ _ _ _ => ?_⟩
  · rw [h5] at ha
    cases ha
  · refine ⟨e2, fun x hx => ?_, fun q hq => ?_, fun q hq => ?_⟩
    · rw [h1] at hx
      cases hx
    · rw [h3] at hq
      cases hq
    exfalso
    by_cases hcq : cleared q
    · rw [h6 q hcq] at hq; cases hq
    · rw [h7 q hcq, h4] at hq
      exact hcq (hc q (hp.2.2.2 q hq))
  · intro q hq
    rw [h1, h2] at hq
    rcases hq with h | h
    · cases h
    · cases h

theorem Preserves.of_sound {g v : Prop} {w w' : World} (h : Sound w → Preserves g v w w') :
    Preserves g v w w' :=
  ⟨fun hs => (h hs).1 hs, fun hg hs => (h hs).2.1 hg hs, fun hg hv hs => (h hs).2.2 hg hv hs⟩

theorem Preserves.guard_mono {g g' v : Prop} {w w' : World} (hgg : g' → g)
    (h : Preserves g v w w') : Preserves g' v w w' :=
  ⟨h.1, fun hg => h.2.1 (hgg hg), fun hg => h.2.2 (hgg hg)⟩

theorem preserves_invited (v : Prop) (w w' : World) (c : PlayerRef)
    (hc : c ∉ w.party.inviteList)
    (h1 : w'.party.leader = w.party.leader) (h2 : w'.party.memberList = w.party.memberList)
    (h3 : w'.party.inviteList = w.party.inviteList ++ [c]) (h4 : w'.this = w.this)
    (h5 : w'.alive = w.alive) (h6 : ∀ q, (w'.players q).party = (w.players q).party) :
    Preserves (c ∉ w.party.memberList ∧ w.party.leader ≠ some c) v w w' := by
  refine ⟨fun hs => ⟨?_, fun ha => ?_⟩, fun hg _ hp => ?_, fun _ _ _ _ ha => ?_⟩
  · rw [h3]
    refine List.Nodup.append hs.1 (List.nodup_singleton c) ?_
    intro x hx hx'
    rw [List.mem_singleton] at hx'
    exact hc (hx' ▸ hx)
  · rw [h1]
    exact hs.2 (h5 ▸ ha)
  · obtain ⟨n1, n2, n3, n4⟩ := hp
    refine ⟨h2 ▸ n1, ?_, ?_, ?_⟩
    · rw [h1, h2]; exact n2
    · intro q hq
      rw [h1, h2]
      rw [h3] at hq
      rcases List.mem_append.1 hq with h | h
      · exact n3 q h
      · rw [List.mem_singleton] at h
        rw [h]
        exact hg
    · intro q hq
      rw [h6 q, h4] at hq
      rw [h1, h2]
      exact n4 q hq
  · intro q hq
    rw [h1, h2] at hq
    rw [h6 q, h4]
    exact ha q hq

theorem preserves_joined (g v : Prop) (w w' : World) (c : PlayerRef)
    (hc : c ∈ w.party.inviteList)
    (h1 : w'.party.leader = w.party.leader)
    (h2 : w'.party.memberList = w.party.memberList ++ [c])
    (h3 : w'.party.inviteList = w.party.inviteList.erase c) (h4 : w'.this = w.this)
    (h5 : w'.alive = w.alive)
    (h6 : ∀ q, (w'.players q).party = if q = c then some w.this else (w.players q).party) :
    Preserves g v w w' := by
  refine ⟨fun hs => ⟨h3 ▸ hs.1.erase c, fun ha => ?_⟩, fun _ hs hp => ?_,
    fun _ _ _ _ ha => ?_⟩
  · rw [h1]
    exact hs.2 (h5 ▸ ha)
  · obtain ⟨n1, n2, n3, n4⟩ := hp
    obtain ⟨k1, k2⟩ := n3 c hc
    refine ⟨?_, ?_, ?_, ?_⟩
    · rw [h2]
      refine List.Nodup.append n1 (List.nodup_singleton c) ?_
      intro x hx hx'
      rw [List.mem_singleton] at hx'
      exact k1 (hx' ▸ hx)
    · intro x hx
      rw [h1] at hx
      rw [h2]
      intro hmem
      rcases List.mem_append.1 hmem with h | h
      · exact n2 x hx h
      · rw [List.mem_singleton] at h
        exact k2 (h ▸ hx)
    · intro q hq
      rw [h3] at hq
      obtain ⟨hqc, hqi⟩ := (List.Nodup.mem_erase_iff hs.1).1 hq
      obtain ⟨j1, j2⟩ := n3 q hqi
      rw [h1, h2]
      refine ⟨fun hmem => ?_, j2⟩
      rcases List.mem_append.1 hmem with h | h
      · exact j1 h
      · exact hqc (List.mem_singleton.1 h)
    · intro q hq
      rw [h1, h2]
      rw [h6 q, h4] at hq
      by_cases hqc : q = c
      · exact Or.inr (List.mem_append.2 (Or.inr (List.mem_singleton.2 hqc)))
      · simp only [hqc, if_false] at hq
        rcases n4 q hq with h | h
        · exact Or.inl h
        · exact Or.inr (List.mem_append.2 (Or.inl h))
  · intro q hq
    rw [h1, h2] at hq
    rw [h6 q, h4]
    by_cases hqc : q = c
    · simp [hqc]
    · simp only [hqc, if_false]
      rcases hq with h | h
      · exact ha q (Or.inl h)
      · rcases List.mem_append.1 h with h | h
        · exact ha q (Or.inr h)
        · exact absurd (List.mem_singleton.1 h) hqc

theorem preserves_uninvited (g v : Prop) (w w' : World) (c : PlayerRef)
    (h1 : w'.party.leader = w.party.leader) (h2 : w'.party.memberList = w.party.memberList)
    (h3 : w'.party.inviteList = w.party.inviteList.erase c) (h4 : w'.this = w.this)
    (h5 : w'.alive = w.alive) (h6 : ∀ q, (w'.players q).party = (w.players q).party) :
    Preserves g v w w' := by
  refine ⟨fun hs => ⟨h3 ▸ hs.1.erase c, fun ha => ?_⟩, fun _ _ hp => ?_,
    fun _ _ _ _ ha => ?_⟩
  · rw [h1]
    exact hs.2 (h5 ▸ ha)
  · obtain ⟨n1, n2, n3, n4⟩ := hp
    refine ⟨h2 ▸ n1, ?_, ?_, ?_⟩
    · rw [h1, h2]; exact n2
    · intro q hq
      rw [h1, h2]
      rw [h3] at hq
      exact n3 q (List.mem_of_mem_erase hq)
    · intro q hq
      rw [h6 q, h4] at hq
      rw [h1, h2]
      exact n4 q hq
  · intro q hq
    rw [h1, h2] at hq
    rw [h6 q, h4]
    exact ha q hq

theorem uninvited_party (w : World) (c : PlayerRef) (b : Bool) (q : PlayerRef) :
    (uninvited w c b q).party = (w.players q).party := by
  unfold uninvited
  split <;> rfl

theorem invitePlayer_ok (env : Env) (w : World) (c l : PlayerRef)
    (hl : w.party.leader = some l) (hc : c ∉ w.party.inviteList) :
    Succeeds (invitePlayer env w c) (fun r => r.1 = true ∧
      r.2.party.leader = w.party.leader ∧ r.2.party.memberList = w.party.memberList ∧
      r.2.party.inviteList = w.party.inviteList ++ [c] ∧ r.2.this = w.this ∧
      r.2.alive = w.alive ∧ ∀ q, (r.2.players q).party = (w.players q).party) := by
  unfold invitePlayer
  simp only [isPlayerInvited, hc, decide_False, Bool.false_eq_true, if_false, hl,
    Option.bind_eq_bind, Option.some_bind, Option.pure_def]
  cases empty w <;> cases env.helpers <;>
    refine Succeeds.pure ⟨rfl, ?_, ?_, ?_, ?_, ?_, fun q => ?_⟩ <;>
    simp [World.emit, World.setInviteList, World.addPartyInvitation, World.setPlayer, hl] <;>
    (split <;> first | rfl | (rename_i e; rw [e]))

theorem passPartyLeadership_cases (env : Env) (w : World) (m l : PlayerRef)
    (r : Bool × World) (hl : w.party.leader = some l)
    (h : passPartyLeadership env w (some m) = some r) :
    (r = (false, w) ∧ (l = m ∨ (w.players m).party ≠ some w.this)) ∨
    (m ≠ l ∧ (w.players m).party = some w.this ∧ r.2.party.leader = some m ∧
      r.2.party.memberList = l :: w.party.memberList.erase m ∧
      r.2.party.inviteList = w.party.inviteList ∧ r.2.this = w.this ∧
      r.2.alive = w.alive ∧ r.2.players = w.players) := by
  by_cases hf : failureCause env w (Call.passLeadership (some m))
  · have hr := run_of_failureCause env w _ hf
    simp only [run] at hr
    rw [hr] at h
    refine Or.inl ⟨(Option.some.inj h).symm, ?_⟩
    rcases hf with hf | hf
    · rw [hl] at hf
      exact Or.inl (Option.some.inj hf)
    · exact Or.inr hf
  · simp only [failureCause, not_or, ne_eq, not_not] at hf
    have hne : m ≠ l := fun e => hf.1 (by rw [hl, e])
    obtain ⟨r', hr', hP⟩ := passPartyLeadership_ok env w m l hl hne hf.2
    rw [h] at hr'
    cases hr'
    exact Or.inr ⟨hne, hf.2, hP.2.1, hP.2.2.1, hP.2.2.2.1, hP.2.2.2.2.2.2.1,
      hP.2.2.2.2.2.2.2.1, hP.2.2.2.2.2.2.2.2⟩

theorem preserves_of_failure (g v : Prop) (env : Env) (w : World) (c : Call)
    (r : Bool × World) (hf : failureCause env w c) (h : run env w c = some r) :
    Preserves g v w r.2 := by
  rw [run_of_failureCause env w c hf] at h
  cases h
  exact Preserves.of_sameRoster (SameRoster.refl w)

theorem invitePlayer_preserves (v : Prop) (env : Env) (w : World) (c : PlayerRef)
    (r : Bool × World) (halive : w.alive = true) (h : invitePlayer env w c = some r) :
    Preserves (c ∉ w.party.memberList ∧ w.party.leader ≠ some c) v w r.2 := by
  refine Preserves.of_sound fun hs => ?_
  obtain ⟨l, hl⟩ := hs.2 halive
  by_cases hc : c ∈ w.party.inviteList
  · exact preserves_of_failure _ v env w (Call.invite c) r hc h
  · obtain ⟨r', hr', hP⟩ := invitePlayer_ok env w c l hl hc
    rw [h] at hr'
    cases hr'
    exact preserves_invited v w r.2 c hc hP.2.1 hP.2.2.1 hP.2.2.2.1 hP.2.2.2.2.1
      hP.2.2.2.2.2.1 hP.2.2.2.2.2.2

theorem joinParty_preserves (g v : Prop) (env : Env) (w : World) (c : PlayerRef)
    (r : Bool × World) (halive : w.alive = true) (h : joinParty env w c = some r) :
    Preserves g v w r.2 := by
  refine Preserves.of_sound fun hs => ?_
  obtain ⟨l, hl⟩ := hs.2 halive
  by_cases hf : failureCause env w (Call.join c)
  · exact preserves_of_failure g v env w (Call.join c) r hf h
  · simp only [failureCause, not_or, not_not, Bool.not_eq_false] at hf
    obtain ⟨r', hr', hP⟩ := joinParty_ok env w c l hl hf.1 hf.2
    rw [h] at hr'
    cases hr'
    refine preserves_joined g v w r.2 c hf.1 hP.2.2.2.1 hP.2.2.1 hP.2.1 hP.2.2.2.2.1
      hP.2.2.2.2.2.1 (fun q => ?_)
    rw [hP.2.2.2.2.2.2.2.2.1 q]
    split <;> rfl

theorem passPartyLeadership_preserves (g v : Prop) (env : Env) (w : World)
    (m : Option PlayerRef) (r : Bool × World) (halive : w.alive = true)
    (h : passPartyLeadership env w m = some r) : Preserves g v w r.2 := by
  refine Preserves.of_sound fun hs => ?_
  obtain ⟨l, hl⟩ := hs.2 halive
  cases m with
  | none => exact preserves_of_failure g v env w (Call.passLeadership none) r trivial h
  | some m =>
    rcases passPartyLeadership_cases env w m l r hl h with ⟨hr, _⟩ | hP
    · rw [hr]
      exact Preserves.of_sameRoster (SameRoster.refl w)
    · exact preserves_passed g v w r.2 l m hl hP.1 hP.2.1 hP.2.2.1 hP.2.2.2.1 hP.2.2.2.2.1
        hP.2.2.2.2.2.1 hP.2.2.2.2.2.2.1 hP.2.2.2.2.2.2.2

theorem disband_preserves (g v : Prop) (env : Env) (w w' : World) (halive : w.alive = true)
    (h : disband env w = some w') : Preserves g v w w' := by
  refine Preserves.of_sound fun hs => ?_
  obtain ⟨l, hl⟩ := hs.2 halive
  cases hh : env.eventPartyOnDisband
  · rw [disband_veto env w hh] at h
    cases h
    exact Preserves.of_sameRoster (SameRoster.refl w)
  · obtain ⟨r', hr', hP⟩ := disband_ok env w l hh hl
    rw [h] at hr'
    cases hr'
    refine preserves_disbanded g v w w' (fun q => q = l ∨ q ∈ w.party.memberList) ?_
      hP.2.1 hP.2.2.1 hP.2.2.2.1 hP.2.2.2.2.1 hP.1 (fun q hq => ?_) (fun q hq => ?_)
    · intro q hq
      rcases hq with h | h
      · rw [hl] at h
        exact Or.inl (Option.some.inj h).symm
      · exact Or.inr h
    · rw [hP.2.2.2.2.2.2.2.2 q]
      simp only [if_pos hq]
    · rw [hP.2.2.2.2.2.2.2.2 q]
      simp only [if_neg hq]

theorem removeInvite_preserves (g v : Prop) (env : Env) (w : World) (c : PlayerRef)
    (notify : Bool) (r : Bool × World) (halive : w.alive = true)
    (h : removeInvite env w c notify = some r) : Preserves g v w r.2 := by
  refine Preserves.of_sound fun hs => ?_
  obtain ⟨l, hl⟩ := hs.2 halive
  by_cases hc : c ∈ w.party.inviteList
  · obtain ⟨r', hr', hP⟩ := removeInvite_ok env w c l notify hl hc
    rw [h] at hr'
    cases hr'
    obtain ⟨_, hthis, _, _, _, hyes, hno⟩ := hP
    by_cases hd : (w.party.memberList = [] ∧ w.party.inviteList.erase c = []) ∧
        env.eventPartyOnDisband = true
    · obtain ⟨d1, d2, d3, d4, d5⟩ := hyes hd
      refine preserves_disbanded g v w r.2 (fun q => q = l) ?_ d2 d3 d4 hthis d1
        (fun q hq => ?_) (fun q hq => ?_)
      · intro q hq
        rcases hq with h | h
        · rw [hl] at h
          exact (Option.some.inj h).symm
        · rw [hd.1.1] at h
          cases h
      · rw [d5 q]
        simp only [if_pos hq]
      · rw [d5 q]
        simp only [if_neg hq, uninvited_party]
    · obtain ⟨d1, d2, d3, d4, d5⟩ := hno hd
      refine preserves_uninvited g v w r.2 c (d2.trans hl.symm) d3 d4 hthis d1 (fun q => ?_)
      rw [d5 q, uninvited_party]
  · exact preserves_of_failure g v env w (Call.removeInvite c notify) r hc h

theorem revokeInvitation_preserves (g v : Prop) (env : Env) (w w' : World) (c : PlayerRef)
    (halive : w.alive = true) (h : revokeInvitation env w c = some w') :
    Preserves g v w w' := by
  refine Preserves.of_sound fun hs => ?_
  obtain ⟨l, hl⟩ := hs.2 halive
  unfold revokeInvitation at h
  simp only [hl, Option.bind_eq_bind, Option.some_bind, Option.pure_def, emit_emit] at h
  cases hr : removeInvite env (w.emit
      ([sendTextMessage c MESSAGE_INFO_DESCR
          ((w.players l).name ++ " has revoked " ++
            (if (w.players l).female then "her" else "his") ++ " invitation.")] ++
        [sendTextMessage l MESSAGE_INFO_DESCR
          ("Invitation for " ++ (w.players c).name ++ " has been revoked.")])) c true with
  | none =>
    simp [World.emit] at hr h
    rw [hr] at h
    cases h
  | some r =>
    simp [World.emit] at hr h
    rw [hr] at h
    cases h
    exact (Preserves.of_sameRoster (sameRoster_emit w _)).trans
      (removeInvite_preserves g v env _ c true r halive (by simpa [World.emit] using hr))

theorem leavePartyRemoval_preserves (g : Prop) (env : Env) (W : World) (p L : PlayerRef)
    (ml : Bool) (r : Bool × World) (hL : W.party.leader = some L)
    (hne : ml = false → g → Separated W → Attached W → p ≠ L)
    (h : leavePartyRemoval env W p ml = some r) :
    Preserves g (env.eventPartyOnDisband = true) W r.2 := by
  obtain ⟨r', hr', hP⟩ := leavePartyRemoval_ok env W p L ml hL
  rw [h] at hr'
  cases hr'
  obtain ⟨_, hthis, _, hyes, hno⟩ := hP
  by_cases hd : (ml = true ∨ (W.party.memberList.erase p = [] ∧ W.party.inviteList = [])) ∧
      env.eventPartyOnDisband = true
  · obtain ⟨d1, d2, d3, d4, d5⟩ := hyes hd
    refine preserves_disbanded g _ W r.2
      (fun q => q = p ∨ q = L ∨ q ∈ W.party.memberList.erase p) ?_ d2 d3 d4 hthis d1
      (fun q hq => ?_) (fun q hq => ?_)
    · intro q hq
      rcases hq with h | h
      · rw [hL] at h
        exact Or.inr (Or.inl (Option.some.inj h).symm)
      · by_cases hqp : q = p
        · exact Or.inl hqp
        · exact Or.inr (Or.inr ((List.mem_erase_of_ne hqp).2 h))
    · rw [d5 q]
      simp only [if_pos hq]
    · rw [d5 q]
      simp only [if_neg hq]
  · obtain ⟨d1, d2, d3, d4, d5⟩ := hno hd
    refine preserves_left g _ W r.2 L p hL (fun hg hv hp ha => ?_) d2 d3 d4 hthis d1 d5
    refine hne ?_ hg hp ha
    cases ml with
    | false => rfl
    | true => exact absurd ⟨Or.inl rfl, hv⟩ hd

theorem leavePartyLeadership_cases (env : Env) (w : World) (p l : PlayerRef)
    (x : Bool × World) (hl : w.party.leader = some l)
    (h : leavePartyLeadership env w p = some x) :
    (p ≠ l ∧ x = (false, w)) ∨ (p = l ∧ x = (true, w)) ∨
    (p = l ∧ ∃ m r, m ∈ w.party.memberList ∧
      passPartyLeadership env w (some m) = some r ∧ x = (false, r.2)) := by
  unfold leavePartyLeadership at h
  by_cases hp : p = l
  · subst hp
    simp only [hl, if_true] at h
    cases hm : w.party.memberList with
    | nil =>
      simp only [hm, List.isEmpty_nil, Bool.not_true, Bool.false_eq_true, if_false] at h
      exact Or.inr (Or.inl ⟨rfl, (Option.some.inj h).symm⟩)
    | cons m ms =>
      simp only [hm, List.isEmpty_cons, Bool.not_false, if_true, List.head?_cons] at h
      split at h
      · exact Or.inr (Or.inl ⟨rfl, (Option.some.inj h).symm⟩)
      · cases hr : passPartyLeadership env w (some m) with
        | none => simp [hr] at h
        | some r =>
          simp only [hr, Option.bind_eq_bind, Option.some_bind, Option.pure_def,
            Option.some.injEq] at h
          exact Or.inr (Or.inr ⟨rfl, m, r, List.mem_cons_self _ _, hr, h.symm⟩)
  · have hne : w.party.leader ≠ some p := fun e => hp (by rw [hl] at e; exact (Option.some.inj e).symm)
    simp only [hne, if_false] at h
    exact Or.inl ⟨hp, (Option.some.inj h).symm⟩

theorem leaveParty_preserves (g : Prop) (env : Env) (w : World) (p : Option PlayerRef)
    (r : Bool × World) (halive : w.alive = true) (h : leaveParty env w p = some r) :
    Preserves g (env.eventPartyOnDisband = true) w r.2 := by
  refine Preserves.of_sound fun hs => ?_
  obtain ⟨l, hl⟩ := hs.2 halive
  by_cases hf : failureCause env w (Call.leave p)
  · exact preserves_of_failure g _ env w (Call.leave p) r hf h
  cases p with
  | none => exact absurd trivial hf
  | some p =>
    simp only [failureCause, not_or, Bool.not_eq_false] at hf
    unfold leaveParty at h
    simp only [if_neg hf.1, hf.2, Bool.not_true, Bool.false_eq_true, if_false,
      Option.bind_eq_bind] at h
    cases hx : leavePartyLeadership env w p with
    | none => simp [hx] at h
    | some x =>
      simp only [hx, Option.some_bind] at h
      rcases leavePartyLeadership_cases env w p l x hl hx with ⟨hpl, rfl⟩ | ⟨_, rfl⟩ |
        ⟨rfl, m, r', hm, hr', rfl⟩
      · exact leavePartyRemoval_preserves g env w p l false r hl (fun _ _ _ _ => hpl) h
      · exact leavePartyRemoval_preserves g env w p l true r hl
          (fun e => Bool.noConfusion e) h
      · rcases passPartyLeadership_cases env w m p r' hl hr' with ⟨e, hbad⟩ | hP
        · rw [e] at h
          refine leavePartyRemoval_preserves g env w p p false r hl (fun _ _ hp ha => ?_) h
          exfalso
          rcases hbad with hb | hb
          · exact hp.2.1 p hl (hb ▸ hm)
          · exact hb (ha m (Or.inr hm))
        · exact (preserves_passed g _ w r'.2 p m hl hP.1 hP.2.1 hP.2.2.1 hP.2.2.2.1
            hP.2.2.2.2.1 hP.2.2.2.2.2.1 hP.2.2.2.2.2.2.1 hP.2.2.2.2.2.2.2).trans
            (leavePartyRemoval_preserves g env r'.2 p m false r hP.2.2.1
              (fun _ _ _ _ => fun e => hP.1 e.symm) h)

theorem exec_preserves (env : Env) (w w' : World) (op : Op) (halive : w.alive = true)
    (h : exec env w op = some w') :
    Preserves (invitesOutsiders env w op) (env.eventPartyOnDisband = true) w w' := by
  cases op with
  | call c =>
    cases hrun : run env w c with
    | none => simp [exec, hrun] at h
    | some r =>
    have hr := hrun
    have hw' : r.2 = w' := by simpa [exec, hrun] using h
    subst hw'
    simp only [run] at hr
    cases c with
    | invite c =>
      exact (invitePlayer_preserves _ env w c r halive hr).guard_mono (fun hg => hg c rfl)
    | join c => exact joinParty_preserves _ _ env w c r halive hr
    | leave p => exact leaveParty_preserves _ env w p r halive hr
    | passLeadership m => exact passPartyLeadership_preserves _ _ env w m r halive hr
    | removeInvite c b => exact removeInvite_preserves _ _ env w c b r halive hr
    | setSharedExperience p b =>
      exact Preserves.of_sameRoster (setSharedExperience_sameRoster env w p b r hr)
  | revokeInvitation c => exact revokeInvitation_preserves _ _ env w w' c halive h
  | disband => exact disband_preserves _ _ env w w' halive h
  | updatePlayerTicks p n =>
    refine Preserves.of_sound fun hs => ?_
    obtain ⟨l, hl⟩ := hs.2 halive
    exact Preserves.of_sameRoster (updatePlayerTicks_sameRoster env w w' l p n hl h)
  | updatePlayerStatus p =>
    refine Preserves.of_sound fun hs => ?_
    obtain ⟨l, hl⟩ := hs.2 halive
    exact Preserves.of_sameRoster (updatePlayerStatus_sameRoster env w w' l p hl h)
  | updatePlayerStatusMove p a b =>
    refine Preserves.of_sound fun hs => ?_
    obtain ⟨l, hl⟩ := hs.2 halive
    exact Preserves.of_sameRoster (updatePlayerStatusMove_sameRoster env w w' l p a b hl h)

theorem create_sound (this : PartyRef) (players : PlayerRef → Player) (log : List Event)
    (leader : PlayerRef) : Sound (create this players log leader) :=
  ⟨List.nodup_nil, fun _ => ⟨leader, rfl⟩⟩

theorem create_separated (this : PartyRef) (players : PlayerRef → Player) (log : List Event)
    (leader : PlayerRef) (hfresh : ∀ q, q ≠ leader → (players q).party ≠ some this) :
    Separated (create this players log leader) := by
  refine ⟨List.nodup_nil, fun _ _ h => (by cases h), fun q h => (by cases h), fun q hq => ?_⟩
  by_cases e : q = leader
  · exact Or.inl (by rw [e]; rfl)
  · exfalso
    apply hfresh q e
    simpa [create, World.setParty, World.setPlayer, e] using hq

theorem create_attached (this : PartyRef) (players : PlayerRef → Player) (log : List Event)
    (leader : PlayerRef) : Attached (create this players log leader) := by
  intro q hq
  rcases hq with h | h
  · have e : leader = q := Option.some.inj h
    subst e
    simp [create, World.setParty, World.setPlayer]
  · cases h

theorem reachable_sound {allowed : Env → World → Op → Prop} {w0 w : World}
    (h0 : Sound w0) (hw : ReachableFrom allowed w0 w) : Sound w := by
  induction hw with
  | start => exact h0
  | step env op _ halive _ hexec ih => exact (exec_preserves env _ _ op halive hexec).1 ih

theorem reachable_separated {allowed : Env → World → Op → Prop} {w0 w : World}
    (hall : ∀ env w op, allowed env w op → invitesOutsiders env w op)
    (h0 : Sound w0) (h1 : Separated w0) (hw : ReachableFrom allowed w0 w) :
    Sound w ∧ Separated w := by
  induction hw with
  | start => exact ⟨h0, h1⟩
  | step env op _ halive hallowed hexec ih =>
    have hp := exec_preserves env _ _ op halive hexec
    exact ⟨hp.1 ih.1, hp.2.1 (hall _ _ _ hallowed) ih.1 ih.2⟩

theorem reachable_attached {allowed : Env → World → Op → Prop} {w0 w : World}
    (hall : ∀ env w op, allowed env w op →
      invitesOutsiders env w op ∧ env.eventPartyOnDisband = true)
    (h0 : Sound w0) (h1 : Separated w0) (h2 : Attached w0)
    (hw : ReachableFrom allowed w0 w) : Sound w ∧ Separated w ∧ Attached w := by
  induction hw with
  | start => exact ⟨h0, h1, h2⟩
  | step env op _ halive hallowed hexec ih =>
    have hp := exec_preserves env _ _ op halive hexec
    have ha := hall _ _ _ hallowed
    exact ⟨hp.1 ih.1, hp.2.1 ha.1 ih.1 ih.2.1, hp.2.2 ha.1 ha.2 ih.1 ih.2.1 ih.2.2⟩

theorem runCalls_reachable {allowed : Env → World → Op → Prop} {w0 : World}
    (hall : ∀ env w c, allowed env w (Op.call c)) (cs : List (Env × Call)) :
    ∀ w w', ReachableFrom allowed w0 w → runCalls w cs = some w' →
      ReachableFrom allowed w0 w' := by
  induction cs with
  | nil =>
    intro w w' hw h
    cases h
    exact hw
  | cons x rest ih =>
    intro w w' hw h
    obtain ⟨env, c⟩ := x
    cases ha : w.alive with
    | false => simp [runCalls, ha] at h
    | true =>
      simp only [runCalls, ha, if_true] at h
      cases hr : run env w c with
      | none => simp [hr] at h
      | some r =>
        simp only [hr, Option.some_bind] at h
        exact ih r.2 w' (ReachableFrom.step env (Op.call c) hw ha (hall env w c)
          (by simp [exec, hr])) h

/-! ## Idempotence of `removeInvite` -/

/-- C11. In every state reachable from the creation of a party through any of
its operations, if `removeInvite` of a candidate succeeds and the party object
still exists afterwards, then the candidate is no longer in `inviteList` and an
immediately following `removeInvite` of the same candidate, in any environment
and with either value of the flag, returns failure and leaves the world as it
is. -/
theorem removeInvite_twice_fails (this : PartyRef) (players : PlayerRef → Player)
    (log : List Event) (leader : PlayerRef) (env : Env) (w w1 : World) (c : PlayerRef)
    (notify : Bool)
    (hw : ReachableFrom anyOp (create this players log leader) w)
    (hfirst : removeInvite env w c notify = some (true, w1))
    (hlive : w1.alive = true) :
    c ∉ w1.party.inviteList ∧
    ∀ (env2 : Env) (notify2 : Bool), removeInvite env2 w1 c notify2 = some (false, w1) := by
  have hs : Sound w := reachable_sound (create_sound this players log leader) hw
  have hc : c ∈ w.party.inviteList := by
    by_contra hc
    have hr := run_of_failureCause env w (Call.removeInvite c notify) hc
    simp only [run] at hr
    rw [hr] at hfirst
    cases hfirst
  have hout : c ∉ w1.party.inviteList := by
    cases hl : w.party.leader with
    | none =>
      unfold removeInvite at hfirst
      simp [hc, hl, World.setInviteList] at hfirst
    | some l =>
      obtain ⟨r, hr, hP⟩ := removeInvite_ok env w c l notify hl hc
      rw [hfirst] at hr
      cases hr
      obtain ⟨_, _, _, _, _, hyes, hno⟩ := hP
      by_cases hd : (w.party.memberList = [] ∧ w.party.inviteList.erase c = []) ∧
          env.eventPartyOnDisband = true
      · have hdead := (hyes hd).1
        rw [hlive] at hdead
        cases hdead
      · rw [(hno hd).2.2.2.1]
        exact fun h => ((List.Nodup.mem_erase_iff hs.1).1 h).1 rfl
  refine ⟨hout, fun env2 notify2 => ?_⟩
  have hr := run_of_failureCause env2 w1 (Call.removeInvite c notify2) hout
  simpa only [run] using hr

theorem removeInvite_twice_fails_witness :
    (ReachableFrom anyOp (create 7 strangers [] 0) invitedTwice ∧
      removeInvite (sampleEnv true true true) invitedTwice 1 true = some (true, uninvitedOnce) ∧
      uninvitedOnce.alive = true) ∧
    (1 ∉ uninvitedOnce.party.inviteList ∧
      ∀ (env2 : Env) (notify2 : Bool),
        removeInvite env2 uninvitedOnce 1 notify2 = some (false, uninvitedOnce)) ∧
    invitedTwice.party.inviteList = [1, 2] ∧ uninvitedOnce.party.inviteList = [2] :=
  ⟨⟨ReachableFrom.step (sampleEnv true true true) (Op.call (Call.invite 2))
        (ReachableFrom.step (sampleEnv true true true) (Op.call (Call.invite 1))
          ReachableFrom.start rfl trivial rfl) rfl trivial rfl, rfl, rfl⟩,
    removeInvite_twice_fails 7 strangers [] 0 (sampleEnv true true true) invitedTwice
      uninvitedOnce 1 true
      (ReachableFrom.step (sampleEnv true true true) (Op.call (Call.invite 2))
        (ReachableFrom.step (sampleEnv true true true) (Op.call (Call.invite 1))
          ReachableFrom.start rfl trivial rfl) rfl trivial rfl) rfl rfl,
    by decide, by decide⟩

/-! ## Invitees, members and the leader -/

/-- C17, counterexample. Right after the creation of the party of player `0`,
`invitePlayer` of player `0` itself succeeds: the operation only refuses a
player who is already invited, so the leader ends up in `inviteList`. -/
theorem invitePlayer_accepts_leader :
    ReachableFrom rosterCalls (create 7 strangers [] 0) selfInvited ∧
    outcome (invitePlayer (sampleEnv true true true) (create 7 strangers [] 0) 0) =
      some { result := true, alive := true, leader := some 0, memberList := [],
             inviteList := [0] } ∧
    selfInvited.party.leader = some 0 ∧ 0 ∈ selfInvited.party.inviteList :=
  ⟨ReachableFrom.step (sampleEnv true true true) (Op.call (Call.invite 0))
      ReachableFrom.start rfl trivial rfl, by decide, rfl, by decide⟩

/-- C17, amended. Take a newly created party, one that no player other than its
leader points at, and any sequence of invite, join, leave, passLeadership and
removeInvite calls in which every invite is for a player who is at that moment
neither the leader nor a member. In every state reached, `inviteList` is
disjoint from `memberList` and does not contain the leader. -/
theorem invitees_apart_from_participants (this : PartyRef) (players : PlayerRef → Player)
    (log : List Event) (leader : PlayerRef) (w : World)
    (hfresh : ∀ q, q ≠ leader → (players q).party ≠ some this)
    (hw : ReachableFrom outsiderRosterCalls (create this players log leader) w) :
    (∀ q ∈ w.party.inviteList, q ∉ w.party.memberList) ∧
    ∀ l, w.party.leader = some l → l ∉ w.party.inviteList := by
  have h := (reachable_separated (fun _ _ _ ha => ha.2) (create_sound this players log leader)
    (create_separated this players log leader hfresh) hw).2
  exact ⟨fun q hq => (h.2.2.1 q hq).1, fun l hl hq => (h.2.2.1 l hq).2 hl⟩

theorem invitees_apart_from_participants_witness :
    ((∀ q, q ≠ 0 → (strangers q).party ≠ some 7) ∧
      ReachableFrom outsiderRosterCalls (create 7 strangers [] 0) recruited) ∧
    ((∀ q ∈ recruited.party.inviteList, q ∉ recruited.party.memberList) ∧
      ∀ l, recruited.party.leader = some l → l ∉ recruited.party.inviteList) ∧
    invitedOnce.party.inviteList = [1] ∧ recruited.party.memberList = [1] ∧
    recruited.party.inviteList = [] :=
  ⟨⟨fun _ _ h => Option.noConfusion h,
      ReachableFrom.step (sampleEnv true true true) (Op.call (Call.join 1))
        (ReachableFrom.step (sampleEnv true true true) (Op.call (Call.invite 1))
          ReachableFrom.start rfl
          ⟨trivial, fun _ h => Op.noConfusion h fun h =>
            Call.noConfusion h fun h => h ▸ ⟨by decide, by decide⟩⟩ rfl)
        rfl ⟨trivial, fun _ h => Op.noConfusion h fun h => Call.noConfusion h⟩ rfl⟩,
    invitees_apart_from_participants 7 strangers [] 0 recruited
      (fun _ _ h => Option.noConfusion h)
      (ReachableFrom.step (sampleEnv true true true) (Op.call (Call.join 1))
        (ReachableFrom.step (sampleEnv true true true) (Op.call (Call.invite 1))
          ReachableFrom.start rfl
          ⟨trivial, fun _ h => Op.noConfusion h fun h =>
            Call.noConfusion h fun h => h ▸ ⟨by decide, by decide⟩⟩ rfl)
        rfl ⟨trivial, fun _ h => Op.noConfusion h fun h => Call.noConfusion h⟩ rfl),
    by decide, by decide, by decide⟩

/-! ## Back-references and participants -/

/-- C16, counterexample. From the newly created party of player `0`: after
player `1` was invited and joined, the leader leaves while the on-disband hook
vetoes, and the party object stays with player `0` as leader although the
back-reference of player `0` is cleared; and after player `1`, already a
member, was invited and joined a second time and then left, the party still
lists player `1` as a member although its back-reference is cleared. -/
theorem participant_without_backReference :
    (ReachableFrom membershipCalls (create 7 strangers [] 0) abandoned ∧
      abandoned.alive = true ∧ abandoned.this = 7 ∧ abandoned.party.leader = some 0 ∧
      (abandoned.players 0).party = none) ∧
    (ReachableFrom membershipCalls (create 7 strangers [] 0) doubled ∧
      doubled.alive = true ∧ doubled.this = 7 ∧ doubled.party.memberList = [1] ∧
      (doubled.players 1).party = none) :=
  ⟨⟨runCalls_reachable (fun _ _ _ => trivial) abandonCalls _ _ ReachableFrom.start rfl,
      rfl, rfl, rfl, rfl⟩,
    ⟨runCalls_reachable (fun _ _ _ => trivial) doubleCalls _ _ ReachableFrom.start rfl,
      rfl, rfl, by decide, rfl⟩⟩

/-- C16, amended. Take a newly created party, one that no player other than its
leader points at, and any sequence of invite, join, leave, passLeadership,
removeInvite, revokeInvitation and setSharedExperience calls in which every
invite is for a player who is at that moment neither the leader nor a member
and in which the on-disband hook never vetoes. In every state reached, the
party back-reference of a player points at this party if and only if the player
is the leader or is in `memberList`. -/
theorem backReference_iff_participant (this : PartyRef) (players : PlayerRef → Player)
    (log : List Event) (leader : PlayerRef) (w : World)
    (hfresh : ∀ q, q ≠ leader → (players q).party ≠ some this)
    (hw : ReachableFrom outsiderMembershipCalls (create this players log leader) w)
    (q : PlayerRef) :
    (w.players q).party = some w.this ↔ (w.party.leader = some q ∨ q ∈ w.party.memberList) := by
  have h := reachable_attached (fun _ _ _ ha => ha.2) (create_sound this players log leader)
    (create_separated this players log leader hfresh)
    (create_attached this players log leader) hw
  exact ⟨h.2.1.2.2.2 q, h.2.2 q⟩

theorem backReference_iff_participant_witness :
    ((∀ q, q ≠ 0 → (strangers q).party ≠ some 7) ∧
      ReachableFrom outsiderMembershipCalls (create 7 strangers [] 0) recruited) ∧
    (((recruited.players 1).party = some recruited.this ↔
      (recruited.party.leader = some 1 ∨ 1 ∈ recruited.party.memberList))) ∧
    (recruited.players 1).party = some 7 ∧ (recruited.players 0).party = some 7 ∧
    (recruited.players 2).party = none ∧ recruited.party.leader = some 0 :=
  ⟨⟨fun _ _ h => Option.noConfusion h,
      ReachableFrom.step (sampleEnv true true true) (Op.call (Call.join 1))
        (ReachableFrom.step (sampleEnv true true true) (Op.call (Call.invite 1))
          ReachableFrom.start rfl
          ⟨trivial, fun _ h => Op.noConfusion h fun h =>
            Call.noConfusion h fun h => h ▸ ⟨by decide, by decide⟩, rfl⟩ rfl)
        rfl ⟨trivial, fun _ h => Op.noConfusion h fun h => Call.noConfusion h, rfl⟩ rfl⟩,
    backReference_iff_participant 7 strangers [] 0 recruited
      (fun _ _ h => Option.noConfusion h)
      (ReachableFrom.step (sampleEnv true true true) (Op.call (Call.join 1))
        (ReachableFrom.step (sampleEnv true true true) (Op.call (Call.invite 1))
          ReachableFrom.start rfl
          ⟨trivial, fun _ h => Op.noConfusion h fun h =>
            Call.noConfusion h fun h => h ▸ ⟨by decide, by decide⟩, rfl⟩ rfl)
        rfl ⟨trivial, fun _ h => Op.noConfusion h fun h => Call.noConfusion h, rfl⟩ rfl) 1,
    rfl, rfl, rfl, rfl⟩

/-! ## The member list stays a set -/

theorem membersDistinct_of_same (w w' : World) (h : MembersDistinct w)
    (h1 : w'.party.leader = w.party.leader) (h2 : w'.party.memberList = w.party.memberList) :
    MembersDistinct w' := by
  unfold MembersDistinct
  rw [h1, h2]
  exact h

theorem membersDistinct_of_empty (w' : World) (h2 : w'.party.memberList = []) :
    MembersDistinct w' := by
  unfold MembersDistinct
  rw [h2]
  exact ⟨List.nodup_nil, fun _ _ h => (by cases h)⟩

theorem passPartyLeadership_distinct (env : Env) (w : World) (l : PlayerRef)
    (m : Option PlayerRef) (hl : w.party.leader = some l) (hT : MembersDistinct w) :
    Succeeds (passPartyLeadership env w m) (fun r =>
      (∃ L, r.2.party.leader = some L) ∧ MembersDistinct r.2) := by
  by_cases hf : failureCause env w (Call.passLeadership m)
  · have hr := run_of_failureCause env w _ hf
    simp only [run] at hr
    rw [hr]
    exact Succeeds.pure ⟨⟨l, hl⟩, hT⟩
  · cases m with
    | none => exact absurd trivial hf
    | some m =>
      simp only [failureCause, not_or, ne_eq, not_not] at hf
      have hne : m ≠ l := fun e => hf.1 (by rw [hl, e])
      refine (passPartyLeadership_ok env w m l hl hne hf.2).mono ?_
      rintro r ⟨-, h1, h2, -⟩
      refine ⟨⟨m, h1⟩, ?_, ?_⟩
      · rw [h2]
        exact List.nodup_cons.2 ⟨fun h => hT.2 l hl (List.mem_of_mem_erase h), hT.1.erase m⟩
      · intro x hx
        rw [h1] at hx
        cases hx
        rw [h2]
        intro hmem
        rcases List.mem_cons.1 hmem with h | h
        · exact hne h
        · exact ((List.Nodup.mem_erase_iff hT.1).1 h).1 rfl

theorem leavePartyRemoval_distinct (env : Env) (W : World) (p L : PlayerRef) (ml : Bool)
    (hL : W.party.leader = some L) (hT : MembersDistinct W) :
    Succeeds (leavePartyRemoval env W p ml) (fun r => MembersDistinct r.2) := by
  refine (leavePartyRemoval_ok env W p L ml hL).mono ?_
  rintro r ⟨-, -, -, hyes, hno⟩
  by_cases hd : (ml = true ∨ (W.party.memberList.erase p = [] ∧ W.party.inviteList = [])) ∧
      env.eventPartyOnDisband = true
  · exact membersDistinct_of_empty r.2 (hyes hd).2.2.1
  · obtain ⟨-, d2, d3, -⟩ := hno hd
    refine ⟨d3 ▸ hT.1.erase p, fun x hx => ?_⟩
    rw [d2] at hx
    cases hx
    rw [d3]
    exact fun h => hT.2 L hL (List.mem_of_mem_erase h)

theorem leavePartyLeadership_distinct (env : Env) (w : World) (p l : PlayerRef)
    (hl : w.party.leader = some l) (hT : MembersDistinct w) :
    Succeeds (leavePartyLeadership env w p) (fun x =>
      (∃ L, x.2.party.leader = some L) ∧ MembersDistinct x.2) := by
  unfold leavePartyLeadership
  split
  · split
    · split
      · exact Succeeds.pure ⟨⟨l, hl⟩, hT⟩
      · simp only [Option.bind_eq_bind, Option.pure_def]
        refine Succeeds.bind (passPartyLeadership_distinct env w l _ hl hT) ?_
        intro r hr
        exact Succeeds.pure hr
    · exact Succeeds.pure ⟨⟨l, hl⟩, hT⟩
  · exact Succeeds.pure ⟨⟨l, hl⟩, hT⟩

theorem leaveParty_distinct (env : Env) (w : World) (l : PlayerRef) (p : Option PlayerRef)
    (hl : w.party.leader = some l) (hT : MembersDistinct w) :
    Succeeds (leaveParty env w p) (fun r => MembersDistinct r.2) := by
  by_cases hf : failureCause env w (Call.leave p)
  · have hr := run_of_failureCause env w _ hf
    simp only [run] at hr
    rw [hr]
    exact Succeeds.pure hT
  · cases p with
    | none => exact absurd trivial hf
    | some p =>
      simp only [failureCause, not_or, Bool.not_eq_false] at hf
      unfold leaveParty
      simp only [if_neg hf.1, hf.2, Bool.not_true, Bool.false_eq_true, if_false,
        Option.bind_eq_bind]
      refine Succeeds.bind (leavePartyLeadership_distinct env w p l hl hT) ?_
      rintro ⟨ml, W⟩ ⟨⟨L, hL⟩, hW⟩
      exact leavePartyRemoval_distinct env W p L ml hL hW

theorem joinParty_distinct (env : Env) (w : World) (l c : PlayerRef)
    (hl : w.party.leader = some l) (hinv : RosterInvariants w) :
    Succeeds (joinParty env w c) (fun r => MembersDistinct r.2) := by
  by_cases hf : failureCause env w (Call.join c)
  · have hr := run_of_failureCause env w _ hf
    simp only [run] at hr
    rw [hr]
    exact Succeeds.pure ⟨hinv.1, hinv.2.1⟩
  · simp only [failureCause, not_or, not_not, Bool.not_eq_false] at hf
    refine (joinParty_ok env w c l hl hf.1 hf.2).mono ?_
    rintro r ⟨-, -, h2, h3, -⟩
    obtain ⟨k1, k2⟩ := hinv.2.2.1 c hf.1
    refine ⟨?_, fun x hx => ?_⟩
    · rw [h2]
      refine List.Nodup.append hinv.1 (List.nodup_singleton c) ?_
      intro x hx hx'
      rw [List.mem_singleton] at hx'
      exact k1 (hx' ▸ hx)
    · rw [h3] at hx
      rw [h2]
      intro hmem
      rcases List.mem_append.1 hmem with h | h
      · exact hinv.2.1 x hx h
      · rw [List.mem_singleton] at h
        exact k2 (h ▸ hx)

theorem removeInvite_distinct (env : Env) (w : World) (l c : PlayerRef) (notify : Bool)
    (hl : w.party.leader = some l) (hT : MembersDistinct w) :
    Succeeds (removeInvite env w c notify) (fun r => MembersDistinct r.2) := by
  by_cases hc : c ∈ w.party.inviteList
  · refine (removeInvite_ok env w c l notify hl hc).mono ?_
    rintro r ⟨-, -, -, -, -, hyes, hno⟩
    by_cases hd : (w.party.memberList = [] ∧ w.party.inviteList.erase c = []) ∧
        env.eventPartyOnDisband = true
    · exact membersDistinct_of_empty r.2 (hyes hd).2.2.1
    · obtain ⟨-, d2, d3, -⟩ := hno hd
      exact membersDistinct_of_same w r.2 hT (d2.trans hl.symm) d3
  · have hr := run_of_failureCause env w (Call.removeInvite c notify) hc
    simp only [run] at hr
    rw [hr]
    exact Succeeds.pure hT

theorem invitePlayer_distinct (env : Env) (w : World) (l c : PlayerRef)
    (hl : w.party.leader = some l) (hT : MembersDistinct w) :
    Succeeds (invitePlayer env w c) (fun r => MembersDistinct r.2) := by
  by_cases hc : c ∈ w.party.inviteList
  · have hr := run_of_failureCause env w (Call.invite c) hc
    simp only [run] at hr
    rw [hr]
    exact Succeeds.pure hT
  · refine (invitePlayer_ok env w c l hl hc).mono ?_
    rintro r ⟨-, h1, h2, -⟩
    exact membersDistinct_of_same w r.2 hT h1 h2

/-- C21. Start from any state with a leader in which `memberList` has no
duplicates, the leader is not in `memberList`, invitees are neither members nor
the leader, and every participant has this party as back-reference. Then every
invite, join, leave, passLeadership and removeInvite call is defined, and in
the state it yields (whether the call reports success or failure, and whether
or not it disbands the party) `memberList` still has no duplicates and the
leader, if one remains, is still not in `memberList`. -/
theorem roster_call_keeps_members_distinct (env : Env) (w : World) (l : PlayerRef)
    (c : Call) (hl : w.party.leader = some l) (hinv : RosterInvariants w)
    (hc : isRosterCall (Op.call c)) :
    ∃ r, run env w c = some r ∧ r.2.party.memberList.Nodup ∧
      ∀ l', r.2.party.leader = some l' → l' ∉ r.2.party.memberList := by
  have hT : MembersDistinct w := ⟨hinv.1, hinv.2.1⟩
  cases c with
  | invite c => exact invitePlayer_distinct env w l c hl hT
  | join c => exact joinParty_distinct env w l c hl hinv
  | leave p => exact leaveParty_distinct env w l p hl hT
  | passLeadership m =>
    exact (passPartyLeadership_distinct env w l m hl hT).mono fun _ h => h.2
  | removeInvite c b => exact removeInvite_distinct env w l c b hl hT
  | setSharedExperience p b => exact absurd hc (by simp [isRosterCall])

theorem roster_call_keeps_members_distinct_witness :
    ((sampleWorld [1, 2] []).party.leader = some 0 ∧ RosterInvariants (sampleWorld [1, 2] []) ∧
      isRosterCall (Op.call (Call.passLeadership (some 2)))) ∧
    (∃ r, run (sampleEnv true true true) (sampleWorld [1, 2] [])
        (Call.passLeadership (some 2)) = some r ∧
      r.2.party.memberList.Nodup ∧
      ∀ l', r.2.party.leader = some l' → l' ∉ r.2.party.memberList) ∧
    outcome (run (sampleEnv true true true) (sampleWorld [1, 2] [])
        (Call.passLeadership (some 2))) =
      some { result := true, alive := true, leader := some 2, memberList := [0, 1],
             inviteList := [] } ∧
    outcome (run (sampleEnv true true true) (sampleWorld [1, 2] []) (Call.leave (some 0))) =
      some { result := true, alive := true, leader := some 1, memberList := [2],
             inviteList := [] } :=
  ⟨⟨rfl, sampleWorld_invariants [1, 2] (by decide) (by simp), trivial⟩,
    roster_call_keeps_members_distinct (sampleEnv true true true) (sampleWorld [1, 2] []) 0
      (Call.passLeadership (some 2)) rfl (sampleWorld_invariants [1, 2] (by decide) (by simp))
      trivial,
    by decide, by decide⟩

/-! ## The level bound never exceeds the highest level -/

theorem roundHalfEven_le (n d : Nat) : roundHalfEven n d ≤ n / d + 1 := by
  unfold roundHalfEven
  simp only
  split
  · omega
  · split
    · omega
    · split <;> omega

theorem floatOfNat_le (h : Nat) (hh : h < 2 ^ 32) : floatOfNat h ≤ h + 256 := by
  unfold floatOfNat
  split
  · omega
  · simp only
    have hb : bitLength h ≤ 32 := bitLengthAux_le 128 h 32 hh
    have he : 2 ^ (bitLength h - 24) ≤ 2 ^ 8 := Nat.pow_le_pow_right (by norm_num) (by omega)
    have h1 := roundHalfEven_le h (2 ^ (bitLength h - 24))
    have h2 : h / 2 ^ (bitLength h - 24) * 2 ^ (bitLength h - 24) ≤ h := Nat.div_mul_le_self _ _
    calc roundHalfEven h (2 ^ (bitLength h - 24)) * 2 ^ (bitLength h - 24)
        ≤ (h / 2 ^ (bitLength h - 24) + 1) * 2 ^ (bitLength h - 24) :=
          Nat.mul_le_mul_right _ h1
      _ = h / 2 ^ (bitLength h - 24) * 2 ^ (bitLength h - 24) + 2 ^ (bitLength h - 24) := by
          ring
      _ ≤ h + 256 := by
          have : (2 : Nat) ^ 8 = 256 := by norm_num
          omega

theorem floatDiv_ceil_le (n : Nat) (hn : n < 3 * 2 ^ 34) :
    (floatDiv n 3).ceil ≤ n / 3 + 1024 := by
  unfold floatDiv
  split
  · simp [Dyadic.ceil]
  · simp only
    split
    · rename_i hlen
      have hq : n * 2 ^ 40 / 3 < 2 ^ 74 := by
        rw [Nat.div_lt_iff_lt_mul (by norm_num)]
        have : (2 : Nat) ^ 74 = 2 ^ 34 * 2 ^ 40 := by norm_num
        have h40 : (0 : Nat) < 2 ^ 40 := by norm_num
        calc n * 2 ^ 40 < 3 * 2 ^ 34 * 2 ^ 40 := Nat.mul_lt_mul_of_pos_right hn h40
          _ = 2 ^ 74 * 3 := by norm_num
      have hb : bitLength (n * 2 ^ 40 / 3) ≤ 74 := bitLengthAux_le 128 _ 74 hq
      have he : bitLength (n * 2 ^ 40 / 3) - 64 ≤ 10 := by omega
      generalize bitLength (n * 2 ^ 40 / 3) - 64 = e at he
      have hp : 2 ^ e ≤ 2 ^ 10 := Nat.pow_le_pow_right (by norm_num) he
      have h1 := roundHalfEven_le n (3 * 2 ^ e)
      have h2 : n / (3 * 2 ^ e) * 2 ^ e ≤ n / 3 := by
        rw [← Nat.div_div_eq_div_mul]
        exact Nat.div_mul_le_self _ _
      have h3 : roundHalfEven n (3 * 2 ^ e) * 2 ^ e ≤ n / 3 + 1024 := by
        calc roundHalfEven n (3 * 2 ^ e) * 2 ^ e
            ≤ (n / (3 * 2 ^ e) + 1) * 2 ^ e := Nat.mul_le_mul_right _ h1
          _ = n / (3 * 2 ^ e) * 2 ^ e + 2 ^ e := by ring
          _ ≤ n / 3 + 1024 := by
              have : (2 : Nat) ^ 10 = 1024 := by norm_num
              omega
      simpa [Dyadic.ceil] using h3
    · generalize 64 - bitLength (n * 2 ^ 40 / 3) = s
      have hpos : 0 < 2 ^ s := Nat.two_pow_pos s
      have h1 := roundHalfEven_le (n * 2 ^ s) 3
      have h2 : n * 2 ^ s / 3 / 2 ^ s = n / 3 := by
        rw [Nat.div_div_eq_div_mul, Nat.mul_div_mul_right _ _ hpos]
      have h3 : (roundHalfEven (n * 2 ^ s) 3 + 2 ^ s - 1) / 2 ^ s ≤
          (n * 2 ^ s / 3 + 2 ^ s) / 2 ^ s := Nat.div_le_div_right (by omega)
      have h4 : (n * 2 ^ s / 3 + 2 ^ s) / 2 ^ s = n * 2 ^ s / 3 / 2 ^ s + 1 :=
        Nat.add_div_right _ hpos
      simp only [Dyadic.ceil]
      omega

theorem minLevel_le (h : Nat) : minLevel h ≤ h := by
  by_cases h1 : h < 12582912
  · rw [minLevel_eq_ceilTwoThirds h h1]
    unfold ceilTwoThirds
    omega
  · by_cases h2 : h < 2 ^ 32
    · unfold minLevel
      have hf := floatOfNat_le h h2
      have hd := floatDiv_ceil_le (floatOfNat h * 2) (by
        have : (2 : Nat) ^ 32 = 4294967296 := by norm_num
        have : (2 : Nat) ^ 34 = 17179869184 := by norm_num
        omega)
      have hm := Nat.mod_le (floatDiv (floatOfNat h * 2) 3).ceil (2 ^ 32)
      omega
    · have : minLevel h < 2 ^ 32 := Nat.mod_lt _ (by norm_num)
      omega

/-- C22. In a party with a leader `l` and at least one member, take a player
`p` whose level equals the highest level among the leader and the members.
The bound `minLevel` that `canUseSharedExperience` computes from that highest
level does not exceed it (nor does `ceil(2h/3)`, for every `h`), so the level
test lets `p` through: `canUseSharedExperience` answers, and its answer is
`true` exactly when the remaining tests hold, the range test against the
leader and the activity test. Consequently a player whom the level test
rejects has a level strictly below the highest one. The highest level is the
level of the leader or of a member. -/
theorem highest_level_passes_level_test (env : Env) (w : World) (l p : PlayerRef)
    (hl : w.party.leader = some l) (hm : w.party.memberList ≠ [])
    (hp : (w.players p).level = highestLevel w l) :
    (∀ h, minLevel h ≤ h ∧ ceilTwoThirds h ≤ h) ∧
    ¬ ((w.players p).level < minLevel (highestLevel w l)) ∧
    (∃ b, canUseSharedExperience env w p = some b ∧
      (b = true ↔
        Position.areInRange 30 30 1 (w.players l).position (w.players p).position = true ∧
        ((w.players p).flagNotGainInFight = true ∨
          ∃ ticks, w.party.ticksMap (w.players p).id = some ticks ∧
            timeDiff env ticks ≤ pzLocked env))) ∧
    (∀ q, (w.players q).level < minLevel (highestLevel w l) →
      (w.players q).level < highestLevel w l) ∧
    (highestLevel w l = (w.players l).level ∨
      ∃ m ∈ w.party.memberList, highestLevel w l = (w.players m).level) := by
  have hlev : ¬ ((w.players p).level < minLevel (highestLevel w l)) := by
    rw [hp]
    exact Nat.not_lt.2 (minLevel_le _)
  have hne : w.party.memberList.isEmpty = false := by
    cases hmem : w.party.memberList with
    | nil => exact absurd hmem hm
    | cons a rest => rfl
  refine ⟨fun h => ⟨minLevel_le h, by unfold ceilTwoThirds; omega⟩, hlev, ?_,
    fun q hq => lt_of_lt_of_le hq (minLevel_le _),
    (foldl_level_le w.players w.party.memberList (w.players l).level).2.2⟩
  unfold canUseSharedExperience
  simp only [hne, Bool.false_eq_true, if_false, hl, Option.bind_eq_bind, Option.some_bind,
    hlev, Option.pure_def]
  cases hr : Position.areInRange 30 30 1 (w.players l).position (w.players p).position
  · exact ⟨false, by simp, by simp⟩
  · cases hflag : (w.players p).flagNotGainInFight
    · cases ht : w.party.ticksMap (w.players p).id with
      | none => exact ⟨false, by simp, by simp⟩
      | some ticks =>
        by_cases hd : timeDiff env ticks > pzLocked env
        · refine ⟨false, by simp [hd], ?_⟩
          constructor
          · intro h
            cases h
          · rintro ⟨-, h | ⟨t, ht2, hle⟩⟩
            · cases h
            · cases ht2
              exact absurd hle (Nat.not_le.2 hd)
        · refine ⟨true, by simp [hd], ?_⟩
          exact ⟨fun _ => ⟨rfl, Or.inr ⟨ticks, rfl, Nat.not_lt.1 hd⟩⟩, fun _ => rfl⟩
    · exact ⟨true, by simp, by simp⟩

theorem highest_level_passes_level_test_witness :
    ((sampleWorld [1, 2] []).party.leader = some 0 ∧
      (sampleWorld [1, 2] []).party.memberList ≠ [] ∧
      ((sampleWorld [1, 2] []).players 0).level = highestLevel (sampleWorld [1, 2] []) 0) ∧
    ((∀ h, minLevel h ≤ h ∧ ceilTwoThirds h ≤ h) ∧
    ¬ (((sampleWorld [1, 2] []).players 0).level <
        minLevel (highestLevel (sampleWorld [1, 2] []) 0)) ∧
    (∃ b, canUseSharedExperience (sampleEnv true true true) (sampleWorld [1, 2] []) 0 = some b ∧
      (b = true ↔
        Position.areInRange 30 30 1 ((sampleWorld [1, 2] []).players 0).position
          ((sampleWorld [1, 2] []).players 0).position = true ∧
        (((sampleWorld [1, 2] []).players 0).flagNotGainInFight = true ∨
          ∃ ticks, (sampleWorld [1, 2] []).party.ticksMap
              ((sampleWorld [1, 2] []).players 0).id = some ticks ∧
            timeDiff (sampleEnv true true true) ticks ≤ pzLocked (sampleEnv true true true)))) ∧
    (∀ q, ((sampleWorld [1, 2] []).players q).level <
        minLevel (highestLevel (sampleWorld [1, 2] []) 0) →
      ((sampleWorld [1, 2] []).players q).level < highestLevel (sampleWorld [1, 2] []) 0) ∧
    (highestLevel (sampleWorld [1, 2] []) 0 = ((sampleWorld [1, 2] []).players 0).level ∨
      ∃ m ∈ (sampleWorld [1, 2] []).party.memberList,
        highestLevel (sampleWorld [1, 2] []) 0 = ((sampleWorld [1, 2] []).players m).level)) ∧
    highestLevel (sampleWorld [1, 2] []) 0 = 30 ∧ minLevel 30 = 20 ∧
    minLevel 4294967295 = 2863311616 ∧ minLevel 1 = 1 ∧ minLevel 0 = 0 :=
  ⟨⟨rfl, by decide, by decide⟩,
    highest_level_passes_level_test (sampleEnv true true true) (sampleWorld [1, 2] []) 0 0 rfl
      (by decide) (by decide),
    by decide, by decide, by decide, by decide, by decide⟩

end PartyCore
